import Mathlib

/-!
# Virtual-memory subsystem (mp4): page table, fault handler, VM pools

A shallow embedding of `src/mp4/sources/vm_pool.C` and
`src/mp4/sources/page_table.C`, with the constructor and fault handler of
`src/mp3/sources/page_table.C` and the method `terminate` of the schedulers of
`src/mp5/sources/scheduler.C` and `src/mp6/sources/scheduler.C`.

Conventions of the embedding.

* `unsigned long` is a 32-bit word of the i386 target: values are naturals and
  every arithmetic result of the source is reduced modulo `WORD = 2^32`.
* `assert(false)` halts the kernel; a halt is an explicit outcome (`Run.halted`)
  carrying the state at the moment of the halt.
* Objects reached through pointers (`VMPool *`) live in a heap indexed by their
  address; `NULL` is `none`.
* Page directories and page tables are reached the way the source reaches
  them, by dereferencing `unsigned long *` pointers: every such access goes
  through the address translation of the processor (`translate`), so the
  recursive views `0xFFFFF << 12` and `(0x3FF << 22) | (i << 12)` resolve to
  the directory and to table `i` only when the tables say so. An access that
  raises a page fault inside an operation ends the operation with
  `Halt.page_fault`; the re-entry of the handler is not followed.
* The region-record array `vm_regions` of a pool is indexed by a C `int`, so it
  is a function on `Int`: the source reads `vm_regions[num_regions]` (one past
  the last record) and, when a search fails, `vm_regions[-1]`.
* The record array of a pool is held in the pool (`vm_regions`), not in the
  paged memory of the machine: its demand paging is not followed.
* Loops over linked pools take a bound on the number of steps (`fuel`); a loop
  that exhausts it ends with `Halt.diverged`.
* Console output is not modelled.
-/

namespace VM

/-! ## Machine words -/

/-- Number of values of an `unsigned long` on the 32-bit target. -/
def WORD : Nat := 4294967296

/-- The constant `PageTable::PAGE_SIZE` (page_table.H): 4096 bytes. -/
def PAGE_SIZE : Nat := 4096

/-! ## Outcomes of an operation -/

/-- Reasons for which an operation does not return to its caller. -/
inductive Halt where
  /-- the statement `assert(false)` was executed. -/
  | assertion_failed
  /-- a frame pool had no frame left to hand out. -/
  | out_of_frames
  /-- a memory access inside the operation raised a page fault at this address. -/
  | page_fault (address : Nat)
  /-- a loop did not finish within the given number of steps. -/
  | diverged
  deriving DecidableEq, Repr

/-- Outcome of running an operation on a state of type `σ`. -/
inductive Run (σ : Type) (α : Type) where
  /-- the operation returned `value`, leaving `state`. -/
  | returned (value : α) (state : σ)
  /-- the operation halted the machine in `state`. -/
  | halted (why : Halt) (state : σ)

/-- Sequencing of operations: a halt stops everything that follows. -/
def Run.bind {σ α β : Type} (r : Run σ α) (k : α → σ → Run σ β) : Run σ β :=
  match r with
  | Run.returned a s => k a s
  | Run.halted w s => Run.halted w s

/-! ## VM pool: data -/

/-- Region record `alloc_region_info` of vm_pool.H: one allocated range. -/
structure alloc_region_info where
  base_address : Nat
  length : Nat
  deriving DecidableEq, Repr

/-- Data members of `VMPool` used by vm_pool.C. The members `frame_pool` and
`page_table` are pointers to the single frame pool / page table of the kernel
and carry no state of their own. -/
structure VMPool where
  base_address : Nat
  size : Nat
  num_regions : Int
  available_mem : Nat
  vm_regions : Int → alloc_region_info
  vm_pool_next : Option Nat

/-! ## VM pool: `allocate` -/

/-- The value of `pages_count` in `VMPool::allocate`:
`(_size / PAGE_SIZE) + ((_size % PAGE_SIZE) > 0 ? 1 : 0)`. -/
def pages_count (_size : Nat) : Nat :=
  _size / PAGE_SIZE + (if _size % PAGE_SIZE > 0 then 1 else 0)

/-- The state of the pool after the assignments of `VMPool::allocate`
(lines 93-100), executed when the capacity test has passed. -/
def allocate_update (p : VMPool) (_size : Nat) : VMPool :=
  let prev := p.vm_regions (p.num_regions - 1)
  let region : alloc_region_info :=
    { base_address := (prev.base_address + prev.length) % WORD
      length := (pages_count _size * PAGE_SIZE) % WORD }
  { p with
    vm_regions := Function.update p.vm_regions p.num_regions region
    available_mem := (p.available_mem + WORD - (pages_count _size * PAGE_SIZE) % WORD) % WORD
    num_regions := p.num_regions + 1 }

/-- The method `VMPool::allocate(_size)`: halts on a request larger than `available_mem`,
otherwise appends a record and returns `vm_regions[num_regions-1].base_address`
read after the increment of `num_regions`. -/
def allocate (p : VMPool) (_size : Nat) : Run VMPool Nat :=
  if _size > p.available_mem then
    Run.halted Halt.assertion_failed p
  else
    let q := allocate_update p _size
    Run.returned (q.vm_regions (q.num_regions - 1)).base_address q

/-! ## VM pool: `is_legitimate` -/

/-- The method `VMPool::is_legitimate(_address)`; the sum `base_address + size` is an
`unsigned long`. -/
def is_legitimate (p : VMPool) (_address : Nat) : Bool :=
  if _address < p.base_address ∨ _address > (p.base_address + p.size) % WORD then
    false
  else
    true

/-! ## VM pool: `release` -/

/-- The loop test `index < num_regions` of `VMPool::release`, where `index` is
an `int`. The declaration of `num_regions` is in vm_pool.H, which is not among
the sources: `num_regions_unsigned` says whether it is an unsigned type, in
which case the comparison is made on the 32-bit unsigned values. -/
def index_lt_num_regions (num_regions_unsigned : Bool) (index num_regions : Int) : Bool :=
  if num_regions_unsigned then
    decide (index % (WORD : Int) < num_regions % (WORD : Int))
  else
    decide (index < num_regions)

/-- Number of iterations after which a loop `for (...; index < num_regions; index++)`
started at `index` has certainly stopped. -/
def loop_trips (num_regions_unsigned : Bool) (index num_regions : Int) : Nat :=
  if num_regions_unsigned then
    (num_regions % (WORD : Int) - index % (WORD : Int)).toNat
  else
    (num_regions - index).toNat

/-- The search loop of `VMPool::release` (lines 116-122), `trips` iterations at
most: every record whose base equals `_start_address` overwrites `region_no`,
there is no `break`. -/
def find_region (u : Bool) (p : VMPool) (_start_address : Nat) :
    Nat → Int → Int → Int
  | 0, _, region_no => region_no
  | trips + 1, index, region_no =>
    if index_lt_num_regions u index p.num_regions then
      find_region u p _start_address trips (index + 1)
        (if (p.vm_regions index).base_address = _start_address then index else region_no)
    else
      region_no

/-- The value of `region_no` after the search loop: `-1` when no record with
index `1 .. num_regions-1` has base `_start_address`. -/
def release_region_no (u : Bool) (p : VMPool) (_start_address : Nat) : Int :=
  find_region u p _start_address (loop_trips u 1 p.num_regions) 1 (-1)

/-- The arguments of the successive calls `page_table->free_page(_start_address)`
made by the `while` loop of `VMPool::release` (lines 126-135). -/
def release_pages : Nat → Nat → List Nat
  | 0, _ => []
  | page_count + 1, _start_address =>
    _start_address :: release_pages page_count ((_start_address + PAGE_SIZE) % WORD)

/-- The compaction loop of `VMPool::release` (lines 138-141), `trips` iterations
at most: `vm_regions[index] = vm_regions[index+1]` for increasing `index`. -/
def shift_regions (u : Bool) (num_regions : Int) :
    Nat → Int → (Int → alloc_region_info) → (Int → alloc_region_info)
  | 0, _, vm_regions => vm_regions
  | trips + 1, index, vm_regions =>
    if index_lt_num_regions u index num_regions then
      shift_regions u num_regions trips (index + 1)
        (Function.update vm_regions index (vm_regions (index + 1)))
    else
      vm_regions

/-- The pool after `VMPool::release(_start_address)` has returned: the record
array is compacted from `region_no`, then `available_mem` is increased by
`vm_regions[region_no].length` read from the compacted array (line 144 follows
the loop of lines 138-141), then `num_regions` is decremented. -/
def release_update (u : Bool) (p : VMPool) (_start_address : Nat) : VMPool :=
  let region_no := release_region_no u p _start_address
  let vm_regions :=
    shift_regions u p.num_regions (loop_trips u region_no p.num_regions) region_no p.vm_regions
  { p with
    vm_regions := vm_regions
    available_mem := (p.available_mem + (vm_regions region_no).length) % WORD
    num_regions := p.num_regions - 1 }

/-- The pages handed to `free_page` by `VMPool::release(_start_address)`:
`vm_regions[region_no].length / PAGE_SIZE` pages from `_start_address` on. -/
def release_free_list (u : Bool) (p : VMPool) (_start_address : Nat) : List Nat :=
  release_pages
    ((p.vm_regions (release_region_no u p _start_address)).length / PAGE_SIZE) _start_address

/-! ## Frame pools and the machine -/

/-- Modelled from the spec: the frame pool `ContFramePool` (cont_frame_pool.C is
not among the sources). The spec gives its contract only, `get_frames(n) ->
physical_frame_number` failing fatally when exhausted, and
`release_frames(frame_number)`; the pool is the list of its free frames. -/
structure ContFramePool where
  free_frames : List Nat
  deriving DecidableEq, Repr

/-- Modelled from the spec: the call `get_frames(1)` hands out the first free
frame, `none` when the pool is exhausted. -/
def ContFramePool.get_frames (pool : ContFramePool) : Option (Nat × ContFramePool) :=
  match pool.free_frames with
  | [] => none
  | frame :: rest => some (frame, { free_frames := rest })

/-- Modelled from the spec: the call `release_frames(frame_no)` gives the frame
back to the pool. -/
def ContFramePool.release_frames (pool : ContFramePool) (frame_no : Nat) : ContFramePool :=
  { free_frames := frame_no :: pool.free_frames }

/-- Data member of a `PageTable` object used by page_table.C. -/
structure PageTable where
  page_directory : Nat
  deriving DecidableEq, Repr

/-- The machine: physical memory (`mem frame word`, 1024 words of 32 bits per
4096-byte frame), the control registers, the static members of `PageTable`, and
the heap of `VMPool` objects indexed by their address. -/
structure Machine where
  mem : Nat → Nat → Nat
  cr0 : Nat
  cr2 : Nat
  cr3 : Nat
  current_page_table : Option PageTable
  paging_enabled : Nat
  kernel_mem_pool : ContFramePool
  process_mem_pool : ContFramePool
  shared_size : Nat
  vm_pool_head : Option Nat
  pools : Nat → VMPool

/-! ## Memory accesses of the source: pointer dereferences -/

/-- Address translation of the 32-bit x86 MMU for the 4-byte word at `address`:
with paging off (bit 31 of CR0 clear) the address is physical; with paging on
the directory at CR3 is indexed by the top 10 bits, the table it references by
the next 10 bits, and an entry with bit 0 clear raises a page fault (`none`).
The result is the frame number and the word index inside the frame. -/
def translate (m : Machine) (address : Nat) : Option (Nat × Nat) :=
  if m.cr0 &&& 0x80000000 = 0 then
    some (address / PAGE_SIZE, (address % PAGE_SIZE) / 4)
  else
    let pde := m.mem (m.cr3 / PAGE_SIZE) (address >>> 22)
    if pde &&& 1 = 0 then none
    else
      let pte := m.mem (pde >>> 12) ((address >>> 12) &&& 0x3FF)
      if pte &&& 1 = 0 then none
      else some (pte >>> 12, (address &&& 0xFFF) / 4)

/-- Address of `pointer[index]` for an `unsigned long *`. -/
def element (pointer index : Nat) : Nat :=
  (pointer + 4 * index) % WORD

/-- Read of `pointer[index]`. -/
def read_word (pointer index : Nat) (m : Machine) : Run Machine Nat :=
  match translate m (element pointer index) with
  | none => Run.halted (Halt.page_fault (element pointer index)) m
  | some (frame, word) => Run.returned (m.mem frame word) m

/-- Write `pointer[index] = value`. -/
def write_word (pointer index value : Nat) (m : Machine) : Run Machine Unit :=
  match translate m (element pointer index) with
  | none => Run.halted (Halt.page_fault (element pointer index)) m
  | some (frame, word) =>
    Run.returned ()
      { m with mem := Function.update m.mem frame (Function.update (m.mem frame) word value) }

/-- The call `process_mem_pool->get_frames(1)`. -/
def get_process_frame (m : Machine) : Run Machine Nat :=
  match m.process_mem_pool.get_frames with
  | none => Run.halted Halt.out_of_frames m
  | some (frame, pool) => Run.returned frame { m with process_mem_pool := pool }

/-! ## Page table: `load`, `register_pool`, `handle_fault`, `free_page` -/

/-- The method `PageTable::load()`. -/
def load (self : PageTable) (m : Machine) : Machine :=
  { m with current_page_table := some self, cr3 := self.page_directory }

/-- The walk `for( ; temp->vm_pool_next != NULL; temp = temp->vm_pool_next );`
of `register_pool`, `fuel` steps at most: the last pool of the list. -/
def find_tail (m : Machine) : Nat → Nat → Option Nat
  | 0, _ => none
  | fuel + 1, temp =>
    match (m.pools temp).vm_pool_next with
    | none => some temp
    | some next => find_tail m fuel next

/-- The method `PageTable::register_pool(_vm_pool)`. -/
def register_pool (fuel : Nat) (_vm_pool : Option Nat) (m : Machine) : Run Machine Unit :=
  match m.vm_pool_head with
  | none => Run.returned () { m with vm_pool_head := _vm_pool }
  | some head =>
    match find_tail m fuel head with
    | none => Run.halted Halt.diverged m
    | some temp =>
      Run.returned ()
        { m with
          pools := Function.update m.pools temp { m.pools temp with vm_pool_next := _vm_pool } }

/-- The registry scan of `handle_fault` (lines 113-122), `fuel` steps at most:
the values of `temp` and `present_flag` when the loop is left. -/
def scan_pools (m : Machine) (fault_address : Nat) : Nat → Option Nat → Option (Option Nat × Nat)
  | 0, _ => none
  | _ + 1, none => some (none, 0)
  | fuel + 1, some temp =>
    if is_legitimate (m.pools temp) fault_address = true then some (some temp, 1)
    else scan_pools m fault_address fuel (m.pools temp).vm_pool_next

/-- The loop of `handle_fault` (lines 144-148): `new_page_table[index] = 0b100`
for `count` successive values of `index`. -/
def init_table (new_page_table : Nat) : Nat → Nat → Machine → Run Machine Unit
  | 0, _, m => Run.returned () m
  | count + 1, index, m =>
    (write_word new_page_table index 0b100 m).bind fun _ m1 =>
      init_table new_page_table count (index + 1) m1

/-- The method `PageTable::handle_fault(_r)`, with `err_code = _r->err_code`;
the registry scan is given `fuel` steps. -/
def handle_fault (fuel : Nat) (err_code : Nat) (m : Machine) : Run Machine Unit :=
  if err_code &&& 1 = 0 then
    let fault_address := m.cr2
    let page_dir := m.cr3
    let page_dir_index := fault_address >>> 22
    let page_table_index := (fault_address &&& (0x03FF <<< 12)) >>> 12
    match scan_pools m fault_address fuel m.vm_pool_head with
    | none => Run.halted Halt.diverged m
    | some (temp, present_flag) =>
      if temp ≠ none ∧ present_flag = 0 then
        Run.halted Halt.assertion_failed m
      else
        (read_word page_dir page_dir_index m).bind fun pde m0 =>
          if pde &&& 1 = 0 then
            (get_process_frame m0).bind fun frame m1 =>
              let new_page_table := (frame * PAGE_SIZE) % WORD
              let new_pde := (0xFFFFF <<< 12) % WORD
              (write_word new_pde page_dir_index (new_page_table ||| 0b11) m1).bind fun _ m2 =>
                (init_table new_page_table 1024 0 m2).bind fun _ m3 =>
                  (get_process_frame m3).bind fun frame2 m4 =>
                    let new_pde2 := (frame2 * PAGE_SIZE) % WORD
                    let page_entry := ((0x3FF <<< 22) ||| (page_dir_index <<< 12)) % WORD
                    write_word page_entry page_table_index (new_pde2 ||| 0b11) m4
          else
            (get_process_frame m0).bind fun frame m1 =>
              let new_pde := (frame * PAGE_SIZE) % WORD
              let page_entry := ((0x3FF <<< 22) ||| (page_dir_index <<< 12)) % WORD
              write_word page_entry page_table_index (new_pde ||| 0b11) m1
  else
    Run.returned () m

/-- The method `PageTable::free_page(_page_no)` of the page table `self`. -/
def free_page (self : PageTable) (_page_no : Nat) (m : Machine) : Run Machine Unit :=
  let page_dir_index := (_page_no &&& 0xFFC00000) >>> 22
  let page_table_index := (_page_no &&& 0x003FF000) >>> 12
  let page_table := ((0x000003FF <<< 22) ||| (page_dir_index <<< 12)) % WORD
  (read_word page_table page_table_index m).bind fun entry m1 =>
    let frame_no := (entry &&& 0xFFFFF000) / PAGE_SIZE
    let m2 := { m1 with process_mem_pool := m1.process_mem_pool.release_frames frame_no }
    (read_word page_table page_table_index m2).bind fun entry2 m3 =>
      (write_word page_table page_table_index (entry2 ||| 0b10) m3).bind fun _ m4 =>
        Run.returned () (load self m4)

/-! ## VM pool: constructor and `release` on the machine -/

/-- The constructor `VMPool::VMPool(_base_address, _size, _frame_pool, _page_table)`
of the object at address `self`. The storage of the object holds `m.pools self`
before the constructor runs, and the memory at `_base_address`, which becomes
the record array, holds `window`. The registry walk is given `fuel` steps. -/
def VMPool_construct (fuel : Nat) (self : Nat) (_base_address _size : Nat)
    (window : Int → alloc_region_info) (m : Machine) : Run Machine Unit :=
  let p1 : VMPool :=
    { m.pools self with
      base_address := _base_address
      size := _size
      vm_pool_next := none
      num_regions := 0 }
  let m1 := { m with pools := Function.update m.pools self p1 }
  (register_pool fuel (some self) m1).bind fun _ m2 =>
    let p2 := m2.pools self
    let region : alloc_region_info :=
      { base_address := p2.base_address, length := PAGE_SIZE }
    let p3 : VMPool :=
      { p2 with
        vm_regions := Function.update window 0 region
        num_regions := p2.num_regions + 1
        available_mem := (p2.available_mem + WORD - PAGE_SIZE) % WORD }
    Run.returned () { m2 with pools := Function.update m2.pools self p3 }

/-- The successive calls `page_table->free_page(a)` for the addresses of a list. -/
def free_pages (page_table : PageTable) : List Nat → Machine → Run Machine Unit
  | [], m => Run.returned () m
  | a :: rest, m => (free_page page_table a m).bind fun _ m1 => free_pages page_table rest m1

/-- The method `VMPool::release(_start_address)` of the pool at address `self`,
whose member `page_table` points to `page_table`. -/
def release (u : Bool) (page_table : PageTable) (self : Nat) (_start_address : Nat)
    (m : Machine) : Run Machine Unit :=
  (free_pages page_table (release_free_list u (m.pools self) _start_address) m).bind fun _ m1 =>
    Run.returned ()
      { m1 with
        pools := Function.update m1.pools self (release_update u (m1.pools self) _start_address) }

/-! ## Page table: constructor and `enable_paging` (demand-paged variant, mp4) -/

/-- The call `kernel_mem_pool->get_frames(1)`. -/
def get_kernel_frame (m : Machine) : Run Machine Nat :=
  match m.kernel_mem_pool.get_frames with
  | none => Run.halted Halt.out_of_frames m
  | some (frame, pool) => Run.returned frame { m with kernel_mem_pool := pool }

/-- The method `PageTable::init_paging(_kernel_mem_pool, _process_mem_pool, _shared_size)`. -/
def init_paging (_kernel_mem_pool _process_mem_pool : ContFramePool) (_shared_size : Nat)
    (m : Machine) : Machine :=
  { m with
    kernel_mem_pool := _kernel_mem_pool
    process_mem_pool := _process_mem_pool
    shared_size := _shared_size }

/-- The method `PageTable::enable_paging()`: sets bit 31 of CR0. -/
def enable_paging (m : Machine) : Machine :=
  { m with cr0 := m.cr0 ||| 0x80000000, paging_enabled := 1 }

/-- The loop `page_directory[index] = ( page_directory[index] | 0b10 )` of the
constructors, for `count` successive values of `index`. -/
def mark_directory (page_directory : Nat) : Nat → Nat → Machine → Run Machine Unit
  | 0, _, m => Run.returned () m
  | count + 1, index, m =>
    (read_word page_directory index m).bind fun entry m1 =>
      (write_word page_directory index (entry ||| 0b10) m1).bind fun _ m2 =>
        mark_directory page_directory count (index + 1) m2

/-- The loop `page_table[index] = (address | 0b11); address = address + PAGE_SIZE`
of the constructors, for `count` successive values of `index`. -/
def fill_table (page_table : Nat) : Nat → Nat → Nat → Machine → Run Machine Unit
  | 0, _, _, m => Run.returned () m
  | count + 1, index, address, m =>
    (write_word page_table index (address ||| 0b11) m).bind fun _ m1 =>
      fill_table page_table count (index + 1) ((address + PAGE_SIZE) % WORD) m1

/-- The constructor `PageTable::PageTable()` of mp4. The index
`num_shared_frames-1` and the loop bound `num_shared_frames-1` are computed on
`unsigned long`; the loop `for( index = 1; index < num_shared_frames-1; index++ )`
makes `(num_shared_frames-1) - 1` iterations, none when the bound is 0. -/
def PageTable_construct (m : Machine) : Run Machine PageTable :=
  let m0 := { m with paging_enabled := 0 }
  let num_shared_frames := m0.shared_size / PAGE_SIZE
  (get_kernel_frame m0).bind fun frame m1 =>
    let page_directory := (frame * PAGE_SIZE) % WORD
    (write_word page_directory ((num_shared_frames + WORD - 1) % WORD)
        (page_directory ||| 0b11) m1).bind fun _ m2 =>
      (get_process_frame m2).bind fun frame2 m3 =>
        let page_table := (frame2 * PAGE_SIZE) % WORD
        (write_word page_directory 0 (page_table ||| 0b11) m3).bind fun _ m4 =>
          (mark_directory page_directory ((num_shared_frames + WORD - 1) % WORD - 1) 1 m4).bind
            fun _ m5 =>
              (fill_table page_table num_shared_frames 0 0 m5).bind fun _ m6 =>
                Run.returned { page_directory := page_directory } m6

/-! ## Page table of the simple variant (mp3) -/

namespace Simple

/-- The constructor `PageTable::PageTable()` of mp3: both frames come from the
kernel pool, the loop over the directory runs over `1 .. num_shared_frames-1`
and there is no self-reference. -/
def PageTable_construct (m : Machine) : Run Machine PageTable :=
  let m0 := { m with paging_enabled := 0 }
  let num_shared_frames := m0.shared_size / PAGE_SIZE
  (get_kernel_frame m0).bind fun frame m1 =>
    let page_directory := (frame * PAGE_SIZE) % WORD
    (get_kernel_frame m1).bind fun frame2 m2 =>
      let page_table := (frame2 * PAGE_SIZE) % WORD
      (write_word page_directory 0 (page_table ||| 0b11) m2).bind fun _ m3 =>
        (mark_directory page_directory (num_shared_frames - 1) 1 m3).bind fun _ m4 =>
          (fill_table page_table num_shared_frames 0 0 m4).bind fun _ m5 =>
            Run.returned { page_directory := page_directory } m5

/-- The method `PageTable::handle_fault(_r)` of mp3, with `err_code = _r->err_code`. -/
def handle_fault (err_code : Nat) (m : Machine) : Run Machine Unit :=
  let fault_address := m.cr2
  let page_dir := m.cr3
  let page_dir_index := fault_address >>> 22
  let page_table_index := (fault_address >>> 12) &&& 0x3FF
  if err_code &&& 1 = 0 then
    (read_word page_dir page_dir_index m).bind fun pde m0 =>
      if pde &&& 1 = 0 then
        (get_kernel_frame m0).bind fun frame m1 =>
          (write_word page_dir page_dir_index (((frame * PAGE_SIZE) % WORD) ||| 0b11) m1).bind
            fun _ m2 =>
              (read_word page_dir page_dir_index m2).bind fun pde2 m3 =>
                let new_page_table := pde2 &&& 0xFFFFF000
                init_table new_page_table 1024 0 m3
      else
        (read_word page_dir page_dir_index m0).bind fun pde2 m1 =>
          let new_page_table := pde2 &&& 0xFFFFF000
          (get_process_frame m1).bind fun frame m2 =>
            write_word new_page_table page_table_index
              (((frame * PAGE_SIZE) % WORD) ||| 0b11) m2
  else
    Run.returned () m

end Simple

/-! ## The registry: registration of several pools and traversal -/

/-- Successive calls `register_pool(p1)`, ..., `register_pool(pn)`. -/
def register_all (fuel : Nat) : List Nat → Machine → Run Machine Unit
  | [], m => Run.returned () m
  | pool :: rest, m =>
    (register_pool fuel (some pool) m).bind fun _ m1 => register_all fuel rest m1

/-- The pools met by `for( ; temp != NULL; temp = temp->vm_pool_next )` started
at `temp`, in order, `fuel` steps at most; `none` when the walk has not reached
`NULL` within `fuel` steps. -/
def registry_from (m : Machine) : Nat → Option Nat → Option (List Nat)
  | 0, _ => none
  | _ + 1, none => some []
  | fuel + 1, some temp =>
    (registry_from m fuel (m.pools temp).vm_pool_next).map fun rest => temp :: rest

/-- The traversal of the registry from `vm_pool_head`. -/
def registry (fuel : Nat) (m : Machine) : Option (List Nat) :=
  registry_from m fuel m.vm_pool_head

/-! ## Observing outcomes -/

/-- The state in which an operation left the machine or the pool. -/
def Run.final {σ α : Type} : Run σ α → σ
  | Run.returned _ s => s
  | Run.halted _ s => s

/-- Whether the operation returned to its caller. -/
def Run.is_returned {σ α : Type} : Run σ α → Bool
  | Run.returned _ _ => true
  | Run.halted _ _ => false

/-- The reason of the halt, `none` when the operation returned. -/
def Run.why {σ α : Type} : Run σ α → Option Halt
  | Run.returned _ _ => none
  | Run.halted w _ => some w

/-- The value returned, `none` when the operation halted. -/
def Run.value {σ α : Type} : Run σ α → Option α
  | Run.returned a _ => some a
  | Run.halted _ _ => none

/-! ## Concrete states used to run the code -/

/-- Object storage holding zeroes. -/
def zero_pool : VMPool :=
  { base_address := 0
    size := 0
    num_regions := 0
    available_mem := 0
    vm_regions := fun _ => { base_address := 0, length := 0 }
    vm_pool_next := none }

/-- A machine with paging on. Frame 1 is the directory: slot 0 references the
identity-mapping table in frame 2, slot 128 references a table in frame 3 whose
entries are all zero, slot 1023 references the directory itself. One pool, at
address 100, is registered: the window `[0x40000000, 0x50000000]`. CR2 holds
`0x20000000`, an address outside that window. -/
def fault_machine : Machine :=
  { mem := fun frame word =>
      if frame = 1 then
        (if word = 0 then 0x2003 else if word = 128 then 0x3003
         else if word = 1023 then 0x1003 else 0)
      else if frame = 2 then word * 4096 + 3
      else 0
    cr0 := 0x80000011
    cr2 := 0x20000000
    cr3 := 0x1000
    current_page_table := some { page_directory := 0x1000 }
    paging_enabled := 1
    kernel_mem_pool := { free_frames := [] }
    process_mem_pool := { free_frames := [5, 6, 7] }
    shared_size := 4194304
    vm_pool_head := some 100
    pools := fun a =>
      if a = 100 then
        { zero_pool with
          base_address := 0x40000000
          size := 0x10000000
          num_regions := 1
          available_mem := 0x0FFFF000
          vm_regions := fun _ => { base_address := 0x40000000, length := 4096 } }
      else zero_pool }

/-- The machine `fault_machine` once the page of `0x20000000` is bound: entry 0
of the table in frame 3 is `0x5003` (frame 5, present, writable) and frame 5 has
left the process pool. -/
def mapped_machine : Machine :=
  { fault_machine with
    mem := Function.update fault_machine.mem 3 (Function.update (fault_machine.mem 3) 0 0x5003)
    process_mem_pool := { free_frames := [6, 7] } }


/-- A pool as the constructor is meant to leave it: window of `0x10000000`
bytes at `0x20000000`, record 0 for the bookkeeping page, the rest of the
record array zeroed, `available_mem = size - 4096`. -/
def fresh_pool : VMPool :=
  { base_address := 0x20000000
    size := 0x10000000
    num_regions := 1
    available_mem := 0x0FFFF000
    vm_regions := fun i =>
      if i = 0 then { base_address := 0x20000000, length := 4096 }
      else { base_address := 0, length := 0 }
    vm_pool_next := none }

/-- A pool with three records: the bookkeeping page, a region of one page at
`0x20001000` and a region of two pages at `0x20002000`. -/
def three_pool : VMPool :=
  { base_address := 0x20000000
    size := 0x10000000
    num_regions := 3
    available_mem := 0x0FFFC000
    vm_regions := fun i =>
      if i = 0 then { base_address := 0x20000000, length := 4096 }
      else if i = 1 then { base_address := 0x20001000, length := 4096 }
      else if i = 2 then { base_address := 0x20002000, length := 8192 }
      else { base_address := 0, length := 0 }
    vm_pool_next := none }

/-- A pool whose window of 9096 bytes is not a whole number of pages: after the
bookkeeping page 5000 bytes are available. -/
def ragged_pool : VMPool :=
  { base_address := 0x20000000
    size := 9096
    num_regions := 1
    available_mem := 5000
    vm_regions := fun i =>
      if i = 0 then { base_address := 0x20000000, length := 4096 }
      else { base_address := 0, length := 0 }
    vm_pool_next := none }

/-- A full pool of two pages that ends at the top of the 32-bit address space. -/
def top_pool : VMPool :=
  { base_address := 0xFFFFE000
    size := 0x2000
    num_regions := 2
    available_mem := 0
    vm_regions := fun i =>
      if i = 0 then { base_address := 0xFFFFE000, length := 4096 }
      else if i = 1 then { base_address := 0xFFFFF000, length := 4096 }
      else { base_address := 0, length := 0 }
    vm_pool_next := none }

/-- A pool whose window is the upper half of the address space. -/
def upper_half_pool : VMPool :=
  { base_address := 0x80000000
    size := 0x80000000
    num_regions := 1
    available_mem := 0x7FFFF000
    vm_regions := fun i =>
      if i = 0 then { base_address := 0x80000000, length := 4096 }
      else { base_address := 0, length := 0 }
    vm_pool_next := none }

/-- A pool whose window `[0x10000000, 0xF0000000]` is longer than half of the
address space. -/
def long_pool : VMPool :=
  { base_address := 0x10000000
    size := 0xE0000000
    num_regions := 1
    available_mem := 0xDFFFF000
    vm_regions := fun i =>
      if i = 0 then { base_address := 0x10000000, length := 4096 }
      else { base_address := 0, length := 0 }
    vm_pool_next := none }

/-- A pool of `0xC0001000` bytes at `0x20000000`, as the constructor is meant to
leave it: `available_mem = size - 4096`, the window ends at `0xE0001000`. -/
def wide_pool : VMPool :=
  { base_address := 0x20000000
    size := 0xC0001000
    num_regions := 1
    available_mem := 0xC0000000
    vm_regions := fun i =>
      if i = 0 then { base_address := 0x20000000, length := 4096 }
      else { base_address := 0, length := 0 }
    vm_pool_next := none }

/-! ## Sequences of pool operations and pool invariants -/

/-- Successive calls `allocate(s1)`, ..., `allocate(sn)` on one pool; the value
is the list of the addresses returned. A halt ends the sequence. -/
def allocate_all : VMPool → List Nat → Run VMPool (List Nat)
  | p, [] => Run.returned [] p
  | p, s :: rest =>
    (allocate p s).bind fun a q =>
      (allocate_all q rest).bind fun bases r => Run.returned (a :: bases) r

/-- Sum of `length` over the records `0 .. num_regions-1`. -/
def sum_lengths (p : VMPool) : Nat :=
  ((List.range p.num_regions.toNat).map fun i : Nat => (p.vm_regions (Int.ofNat i)).length).sum

/-- The accounting invariant of the spec: `sum(region.length) + available_mem == size`. -/
@[reducible]
def pool_invariant (p : VMPool) : Prop :=
  sum_lengths p + p.available_mem = p.size

/-- Whether `_start_address` is the base of a record with index `1 .. num_regions-1`. -/
def is_region_base (p : VMPool) (_start_address : Nat) : Bool :=
  (List.range (p.num_regions.toNat - 1)).any fun i : Nat =>
    decide ((p.vm_regions (Int.ofNat i + 1)).base_address = _start_address)

/-- A call made on a pool. -/
inductive PoolOp where
  | allocate (_size : Nat)
  | release (_start_address : Nat)
  deriving DecidableEq, Repr

/-- Successive calls on one pool; `release` is taken at the level of the pool
object (`release_update`). A halt ends the sequence. -/
def run_ops (u : Bool) : VMPool → List PoolOp → Run VMPool Unit
  | p, [] => Run.returned () p
  | p, PoolOp.allocate s :: rest => (allocate p s).bind fun _ q => run_ops u q rest
  | p, PoolOp.release a :: rest => run_ops u (release_update u p a) rest

/-- The records `0 .. num_regions-1` have pairwise different bases and pairwise
disjoint ranges `[base_address, base_address + length)`. -/
def regions_disjoint (p : VMPool) : Prop :=
  ∀ i j : Int, 0 ≤ i → i < p.num_regions → 0 ≤ j → j < p.num_regions → i ≠ j →
    (p.vm_regions i).base_address ≠ (p.vm_regions j).base_address ∧
    ∀ a : Nat,
      ¬ ((p.vm_regions i).base_address ≤ a ∧
          a < (p.vm_regions i).base_address + (p.vm_regions i).length ∧
          (p.vm_regions j).base_address ≤ a ∧
          a < (p.vm_regions j).base_address + (p.vm_regions j).length)

/-- The records `0 .. num_regions-1` are at least a page long and laid out in
increasing address order, each one ending no later than the next one starts;
record `i` starts at or above `i` pages, and the bases of the records after
record 0 are 32-bit values. -/
def regions_sorted (p : VMPool) : Prop :=
  (∀ i : Int, 0 ≤ i → i < p.num_regions → PAGE_SIZE ≤ (p.vm_regions i).length) ∧
  (∀ i j : Int, 0 ≤ i → i < j → j < p.num_regions →
    (p.vm_regions i).base_address + (p.vm_regions i).length ≤ (p.vm_regions j).base_address) ∧
  (∀ i : Int, 0 ≤ i → i < p.num_regions →
    i * (PAGE_SIZE : Int) ≤ ((p.vm_regions i).base_address : Int)) ∧
  ∀ i : Int, 1 ≤ i → i < p.num_regions → (p.vm_regions i).base_address < WORD

/-- Conditions on a sequence of calls, checked call by call on the pool as it
is at that call. An `allocate(_size)` has `0 < _size <= available_mem` and the
new region `[end of the last record, + pages_count * PAGE_SIZE)` does not extend
past the top of the 32-bit address space. A `release(_start_address)` names the
base of a record with index `1 .. num_regions-1`. -/
def ops_admissible (u : Bool) : VMPool → List PoolOp → Bool
  | _, [] => true
  | p, PoolOp.allocate s :: rest =>
    decide (0 < s) && decide (s ≤ p.available_mem) &&
    decide ((p.vm_regions (p.num_regions - 1)).base_address +
        (p.vm_regions (p.num_regions - 1)).length + pages_count s * PAGE_SIZE ≤ WORD) &&
    ops_admissible u (allocate_update p s) rest
  | p, PoolOp.release a :: rest =>
    is_region_base p a && ops_admissible u (release_update u p a) rest

/-- Calls on `wide_pool`, all of positive size: two allocations that fill the
pool, the release of the first region, an allocation of the size of the second
region, the release of the second region, and a last allocation. -/
def wide_ops : List PoolOp :=
  [PoolOp.allocate 4096, PoolOp.allocate 0xBFFFF000, PoolOp.release 0x20001000,
   PoolOp.allocate 0xBFFFF000, PoolOp.release 0x20002000, PoolOp.allocate 0x60000000]

/-- Memory holding zeroes where a record array is about to be placed. -/
def zero_window : Int → alloc_region_info :=
  fun _ => { base_address := 0, length := 0 }

/-! ## Predicates on the machine used to state the claims of the page table -/

/-- The pools linked from `start` through `vm_pool_next`, up to `NULL`, are
those of the list, in order. -/
def chain (pools : Nat → VMPool) : Option Nat → List Nat → Prop
  | start, [] => start = none
  | start, a :: l => start = some a ∧ chain pools (pools a).vm_pool_next l

/-- Slot `i` of the page directory that CR3 designates. -/
@[reducible]
def directory (m : Machine) (i : Nat) : Nat :=
  m.mem (m.cr3 / PAGE_SIZE) i

/-- Paging is on and slot 1023 of the directory is present and references the
directory's own frame. -/
@[reducible]
def recursive_view (m : Machine) : Prop :=
  m.cr0 &&& 0x80000000 ≠ 0 ∧ directory m 1023 &&& 1 ≠ 0 ∧
  directory m 1023 >>> 12 = m.cr3 / PAGE_SIZE

/-- The machine `fault_machine` before any pool is registered. -/
def unregistered_machine : Machine :=
  { fault_machine with vm_pool_head := none }

/-! ## Concrete states for the page table -/

/-- A machine before any page table exists: paging off, memory zeroed, 4 MiB
shared, kernel frames from 512 (2 MiB) and process frames from 1024 (4 MiB). -/
def boot_machine : Machine :=
  { mem := fun _ _ => 0
    cr0 := 0x11
    cr2 := 0
    cr3 := 0
    current_page_table := none
    paging_enabled := 0
    kernel_mem_pool := { free_frames := [512, 513, 514] }
    process_mem_pool := { free_frames := [1024, 1025, 1026] }
    shared_size := 4194304
    vm_pool_head := none
    pools := fun _ => zero_pool }

/-- The machine `boot_machine` configured with 2 MiB shared. -/
def half_boot_machine : Machine :=
  init_paging { free_frames := [512, 513, 514] } { free_frames := [1024, 1025, 1026] } 2097152
    boot_machine

/-- The machine `boot_machine` where the frame about to become the directory
holds a stale word with bit 0 set in slot 5. -/
def stale_boot_machine : Machine :=
  { boot_machine with mem := fun frame word => if frame = 512 ∧ word = 5 then 1 else 0 }

/-- The machine `fault_machine` with a fault at `0x40001000`, inside the window
of the registered pool, whose directory slot 256 is not present, and a process
pool whose free frames lie above the 4 MiB that are mapped onto themselves. -/
def high_frames_machine : Machine :=
  { fault_machine with
    cr2 := 0x40001000
    process_mem_pool := { free_frames := [1029, 1030, 1031] } }

/-- The machine `unregistered_machine` with a fault at `0xFFC01000`, an address
of the recursive window: directory index 1023, table index 1. -/
def view_fault_machine : Machine :=
  { unregistered_machine with cr2 := 0xFFC01000 }

/-- A pool with one region of two pages at `0x20000000`. -/
def region_pool : VMPool :=
  { base_address := 0x1FFFF000
    size := 0x10000000
    num_regions := 2
    available_mem := 0x0FFFD000
    vm_regions := fun i =>
      if i = 0 then { base_address := 0x1FFFF000, length := 4096 }
      else if i = 1 then { base_address := 0x20000000, length := 8192 }
      else { base_address := 0, length := 0 }
    vm_pool_next := none }

/-- The machine `mapped_machine` with `region_pool` as the pool at address 100:
of the two pages of its region, `0x20000000` is bound to frame 5 and
`0x20001000` has never been touched (its table entry is 0). -/
def release_machine : Machine :=
  { mapped_machine with pools := fun a => if a = 100 then region_pool else zero_pool }

/-- The pool `three_pool` with a stale record of two pages in the memory just
below its record array. -/
def stale_pool : VMPool :=
  { three_pool with
    vm_regions := fun i =>
      if i = -1 then { base_address := 0x12345000, length := 8192 } else three_pool.vm_regions i }

/-- The machine `fault_machine` with `three_pool` as the pool at address 100. -/
def three_pool_machine : Machine :=
  { fault_machine with pools := fun a => if a = 100 then three_pool else zero_pool }

/-! ## Records and the window of a pool -/

/-- Whether every call of a sequence `allocate(s1)`, ..., `allocate(sn)` passes
the capacity test `_size <= available_mem` of `allocate`, on the pool as it is
at that call. -/
def allocations_accepted : VMPool → List Nat → Bool
  | _, [] => true
  | p, s :: rest => decide (s ≤ p.available_mem) && allocations_accepted (allocate_update p s) rest

/-- Every record `0 .. num_regions-1` lies inside the window of the pool:
`base_address <= record.base_address` and
`record.base_address + record.length <= base_address + size`, over the integers. -/
def records_inside_window (p : VMPool) : Prop :=
  ∀ i : Int, 0 ≤ i → i < p.num_regions →
    p.base_address ≤ (p.vm_regions i).base_address ∧
    (p.vm_regions i).base_address + (p.vm_regions i).length ≤ p.base_address + p.size

/-- A pool of four pages at `0x20000000` as the constructor is meant to leave
it: record 0 for the bookkeeping page, three pages available. -/
def four_page_pool : VMPool :=
  { base_address := 0x20000000
    size := 0x4000
    num_regions := 1
    available_mem := 0x3000
    vm_regions := fun i =>
      if i = 0 then { base_address := 0x20000000, length := 4096 }
      else { base_address := 0, length := 0 }
    vm_pool_next := none }

/-- Calls on `four_page_pool`: three allocations of one page that fill the pool,
the release of the first two regions, and two more allocations of one page. -/
def hole_ops : List PoolOp :=
  [PoolOp.allocate 4096, PoolOp.allocate 4096, PoolOp.allocate 4096,
   PoolOp.release 0x20001000, PoolOp.release 0x20002000,
   PoolOp.allocate 4096, PoolOp.allocate 4096]

/-! ## Scheduler (mp5, mp6): `terminate` -/

/-- Object of class `Thread` as scheduler.C uses it in `terminate`: only
`ThreadId()` is called on it. -/
structure Thread where
  ThreadId : Int
  deriving DecidableEq, Repr

/-- Modelled from the spec: the class of `ready_queue` and `ready_rr_queue` is
declared outside the sources (scheduler.H); the ready queue is a FIFO list of
threads, head first. -/
abbrev Queue := List Thread

/-- Modelled from the spec: the call `enqueue(_thread)` of the ready queue, which
appends the thread at the tail. -/
def Queue.enqueue (q : Queue) (_thread : Thread) : Queue :=
  q ++ [_thread]

/-- Modelled from the spec: the call `dequeue()` of the ready queue, which
removes the head and returns it; on an empty queue the call has no result. -/
def Queue.dequeue : Queue → Option (Thread × Queue)
  | [] => none
  | top :: rest => some (top, rest)

/-- Data members of `Scheduler` used by `terminate`, with the interrupt flag of
the processor (`Machine::interrupts_enabled()`). -/
structure Scheduler where
  ready_queue : Queue
  qsize : Int
  interrupts_enabled : Bool

/-- The loop `for( index = 0; index < qsize; index++ )` of `Scheduler::terminate`
(mp5 lines 145-157, mp6 lines 165-177, the same text), `trips` iterations at
most, entered with the given value of `index`: the head is dequeued, and put
back at the tail unless its id is that of `_thread`, in which case `qsize` is
decremented; the test reads the current value of `qsize`. The result is `none`
when `dequeue` is called on an empty queue or when `trips` iterations do not
reach the exit of the loop. -/
def Scheduler.terminate_loop (_thread : Thread) : Nat → Int → Scheduler → Option Scheduler
  | 0, index, s => if index < s.qsize then none else some s
  | trips + 1, index, s =>
    if index < s.qsize then
      match s.ready_queue.dequeue with
      | none => none
      | some (top, rest) =>
        if top.ThreadId ≠ _thread.ThreadId then
          Scheduler.terminate_loop _thread trips (index + 1)
            { s with ready_queue := Queue.enqueue rest top }
        else
          Scheduler.terminate_loop _thread trips (index + 1)
            { s with ready_queue := rest, qsize := s.qsize - 1 }
    else
      some s

/-- The method `Scheduler::terminate(_thread)` of mp5 and of mp6: interrupts are
disabled if they were enabled, the loop runs, interrupts are enabled if they
are disabled. The loop needs at most as many iterations as the value of `qsize`
at entry, since `index` grows and `qsize` does not. -/
def Scheduler.terminate (self : Scheduler) (_thread : Thread) : Option Scheduler :=
  let s0 := if self.interrupts_enabled then { self with interrupts_enabled := false } else self
  (Scheduler.terminate_loop _thread s0.qsize.toNat 0 s0).map fun s1 =>
    if s1.interrupts_enabled then s1 else { s1 with interrupts_enabled := true }

/-- Data members of `RRScheduler` (mp5) used by `terminate`, with the interrupt
flag of the processor. -/
structure RRScheduler where
  ready_rr_queue : Queue
  rr_qsize : Int
  ticks : Int
  hz : Int
  interrupts_enabled : Bool

/-- The loop `for( index = 0; index < rr_qsize; index++ )` of
`RRScheduler::terminate` (mp5 lines 293-305), `trips` iterations at most. -/
def RRScheduler.terminate_loop (_thread : Thread) : Nat → Int → RRScheduler → Option RRScheduler
  | 0, index, s => if index < s.rr_qsize then none else some s
  | trips + 1, index, s =>
    if index < s.rr_qsize then
      match s.ready_rr_queue.dequeue with
      | none => none
      | some (top, rest) =>
        if top.ThreadId ≠ _thread.ThreadId then
          RRScheduler.terminate_loop _thread trips (index + 1)
            { s with ready_rr_queue := Queue.enqueue rest top }
        else
          RRScheduler.terminate_loop _thread trips (index + 1)
            { s with ready_rr_queue := rest, rr_qsize := s.rr_qsize - 1 }
    else
      some s

/-- The method `RRScheduler::terminate(_thread)` of mp5. -/
def RRScheduler.terminate (self : RRScheduler) (_thread : Thread) : Option RRScheduler :=
  let s0 := if self.interrupts_enabled then { self with interrupts_enabled := false } else self
  (RRScheduler.terminate_loop _thread s0.rr_qsize.toNat 0 s0).map fun s1 =>
    if s1.interrupts_enabled then s1 else { s1 with interrupts_enabled := true }

/-- The queue that `terminate` is meant to leave: the entries whose thread id is
not that of `_thread`, in their original order. -/
def without_thread (q : Queue) (_thread : Thread) : Queue :=
  q.filter fun t => decide (t.ThreadId ≠ _thread.ThreadId)

/-- A scheduler whose ready queue holds the threads 1, 2, 3 in this order. -/
def three_threads : Scheduler :=
  { ready_queue := [{ ThreadId := 1 }, { ThreadId := 2 }, { ThreadId := 3 }]
    qsize := 3
    interrupts_enabled := true }

/-- A scheduler whose ready queue holds thread 2 twice, after threads 1 and 3. -/
def twice_queued : Scheduler :=
  { ready_queue := [{ ThreadId := 1 }, { ThreadId := 3 }, { ThreadId := 2 }, { ThreadId := 2 }]
    qsize := 4
    interrupts_enabled := true }

/-- A round-robin scheduler whose ready queue holds the threads 1, 2, 3 in this order. -/
def three_rr_threads : RRScheduler :=
  { ready_rr_queue := [{ ThreadId := 1 }, { ThreadId := 2 }, { ThreadId := 3 }]
    rr_qsize := 3
    ticks := 0
    hz := 5
    interrupts_enabled := true }

/-! ## Fault handler and `free_page` -/


/-- A sequence of two operations executes `assert(false)` only if one of them does. -/
theorem Run.bind_why_assert {σ α β : Type} (r : Run σ α) (k : α → σ → Run σ β)
    (hr : r.why ≠ some Halt.assertion_failed)
    (hk : ∀ a s, (k a s).why ≠ some Halt.assertion_failed) :
    (r.bind k).why ≠ some Halt.assertion_failed := by
  cases r with
  | returned a s => exact hk a s
  | halted w s => exact hr

/-- A read halts with a page fault only. -/
theorem read_word_why (pointer index : Nat) (m : Machine) :
    (read_word pointer index m).why ≠ some Halt.assertion_failed := by
  unfold read_word
  split <;> simp [Run.why]

/-- A write halts with a page fault only. -/
theorem write_word_why (pointer index value : Nat) (m : Machine) :
    (write_word pointer index value m).why ≠ some Halt.assertion_failed := by
  unfold write_word
  split <;> simp [Run.why]

/-- Taking a frame halts on exhaustion only. -/
theorem get_process_frame_why (m : Machine) :
    (get_process_frame m).why ≠ some Halt.assertion_failed := by
  unfold get_process_frame
  split <;> simp [Run.why]

/-- The table-initialisation loop halts with a page fault only. -/
theorem init_table_why (t : Nat) : ∀ (count index : Nat) (m : Machine),
    (init_table t count index m).why ≠ some Halt.assertion_failed
  | 0, _, _ => by simp [init_table, Run.why]
  | count + 1, index, m => by
    unfold init_table
    exact Run.bind_why_assert _ _ (write_word_why _ _ _ _)
      (fun _ s => init_table_why t count (index + 1) s)

/-- When the registry scan is left, either `temp` is `NULL` or `present_flag` is 1. -/
theorem scan_pools_exit (m : Machine) (a : Nat) : ∀ (fuel : Nat) (start temp : Option Nat)
    (flag : Nat), scan_pools m a fuel start = some (temp, flag) → temp = none ∨ flag = 1
  | 0, _, _, _, h => by simp [scan_pools] at h
  | _ + 1, none, _, _, h => by
    simp [scan_pools] at h
    exact Or.inl h.1.symm
  | fuel + 1, some t, temp, flag, h => by
    unfold scan_pools at h
    split at h
    · simp at h
      exact Or.inr h.2.symm
    · exact scan_pools_exit m a fuel _ temp flag h

/-- The assertion of `handle_fault` is never executed. -/
theorem handle_fault_never_asserts (fuel err_code : Nat) (m : Machine) :
    (handle_fault fuel err_code m).why ≠ some Halt.assertion_failed := by
  unfold handle_fault
  split
  · dsimp only
    split
    · simp [Run.why]
    · rename_i temp flag hscan
      have hexit := scan_pools_exit m _ _ _ _ _ hscan
      split
      · rename_i hc
        rcases hexit with h | h
        · exact absurd h hc.1
        · omega
      · refine Run.bind_why_assert _ _ (read_word_why _ _ _) (fun pde m0 => ?_)
        split
        · refine Run.bind_why_assert _ _ (get_process_frame_why _) (fun _ _ => ?_)
          refine Run.bind_why_assert _ _ (write_word_why _ _ _ _) (fun _ _ => ?_)
          refine Run.bind_why_assert _ _ (init_table_why _ _ _ _) (fun _ _ => ?_)
          refine Run.bind_why_assert _ _ (get_process_frame_why _) (fun _ _ => ?_)
          exact write_word_why _ _ _ _
        · refine Run.bind_why_assert _ _ (get_process_frame_why _) (fun _ _ => ?_)
          exact write_word_why _ _ _ _
  · simp [Run.why]

/-- C1 (the code departs from the claim): with a non-empty registry whose only
pool rejects the faulting address `0x20000000`, a not-present fault does not
halt: `handle_fault` returns, frame 5 has been taken from the process pool and
entry 0 of the table in frame 3 has changed from `0` to `0x5003`. -/
theorem handle_fault_maps_unpooled_address :
    fault_machine.vm_pool_head = some 100 ∧
    (fault_machine.pools 100).vm_pool_next = none ∧
    is_legitimate (fault_machine.pools 100) fault_machine.cr2 = false ∧
    (handle_fault 4 0 fault_machine).is_returned = true ∧
    fault_machine.process_mem_pool.free_frames = [5, 6, 7] ∧
    (handle_fault 4 0 fault_machine).final.process_mem_pool.free_frames = [6, 7] ∧
    fault_machine.mem 3 0 = 0 ∧
    (handle_fault 4 0 fault_machine).final.mem 3 0 = 0x5003 := by
  decide

/-- Effect of `free_page` on the table entry of the page, reached through the
recursive view at frame `frame`, word `word`: the call returns and the entry is
the old entry with bit 1 set; no bit is cleared. -/
theorem free_page_entry (self : PageTable) (_page_no : Nat) (m : Machine) (frame word : Nat)
    (h : translate m (element (((0x000003FF <<< 22) ||| (((_page_no &&& 0xFFC00000) >>> 22) <<< 12)) % WORD)
          ((_page_no &&& 0x003FF000) >>> 12)) = some (frame, word)) :
    (free_page self _page_no m).is_returned = true ∧
    (free_page self _page_no m).final.mem frame word = m.mem frame word ||| 0b10 := by
  have h2 : ∀ pool : ContFramePool, translate { m with process_mem_pool := pool } = translate m := by
    intro pool; rfl
  simp only [free_page, read_word, write_word, h2, h, Run.bind, Run.is_returned, Run.final, load,
    Function.update_same, and_self, true_and]

/-- C2 (the code departs from the claim): the page `0x20000000` of
`mapped_machine` has the present entry `0x5003`; after `free_page` the entry is
still `0x5003`, its present bit (bit 0) is still set, although frame 5 has been
given back to the process pool. -/
theorem free_page_keeps_entry_present :
    mapped_machine.mem 3 0 = 0x5003 ∧
    (free_page { page_directory := 0x1000 } 0x20000000 mapped_machine).is_returned = true ∧
    (free_page { page_directory := 0x1000 } 0x20000000 mapped_machine).final.mem 3 0 = 0x5003 ∧
    (free_page { page_directory := 0x1000 } 0x20000000 mapped_machine).final.mem 3 0 &&& 1 = 1 ∧
    (free_page { page_directory := 0x1000 } 0x20000000 mapped_machine).final.process_mem_pool.free_frames = [5, 6, 7] := by
  decide

/-! ## VM pool -/

/-! ## Page rounding in `allocate` -/

/-- The rounded size computed by `allocate` covers the request and exceeds it by less than a page. -/
theorem pages_count_bounds (s : Nat) :
    s ≤ pages_count s * PAGE_SIZE ∧ pages_count s * PAGE_SIZE < s + PAGE_SIZE := by
  unfold pages_count PAGE_SIZE
  split <;> omega

/-- The value `pages_count` of the source is the ceiling of `_size / 4096`. -/
theorem pages_count_eq_ceil (s : Nat) : pages_count s = ⌈(s : ℚ) / 4096⌉₊ := by
  have hb := pages_count_bounds s
  unfold PAGE_SIZE at hb
  apply le_antisymm
  · rcases Nat.eq_zero_or_pos (pages_count s) with h0 | hpos
    · omega
    · have hlt : pages_count s - 1 < ⌈(s : ℚ) / 4096⌉₊ := by
        rw [Nat.lt_ceil, lt_div_iff₀ (by norm_num)]
        have : (pages_count s - 1) * 4096 < s := by omega
        exact_mod_cast this
      omega
  · rw [Nat.ceil_le, div_le_iff₀ (by norm_num)]
    exact_mod_cast hb.1

/-- One accepted `allocate` whose rounded size fits takes exactly the rounded size off `available_mem`. -/
theorem allocate_update_available (p : VMPool) (s : Nat) (hw : p.available_mem < WORD)
    (hfit : pages_count s * PAGE_SIZE ≤ p.available_mem) :
    (allocate_update p s).available_mem + pages_count s * PAGE_SIZE = p.available_mem := by
  simp only [allocate_update]
  unfold WORD at *
  omega

/-- Sequences of `allocate` calls whose rounded sizes fit: all calls return and `available_mem` drops by the sum of the rounded sizes. -/
theorem allocate_all_available (sizes : List Nat) : ∀ (p : VMPool), p.available_mem < WORD →
    (sizes.map fun s => pages_count s * PAGE_SIZE).sum ≤ p.available_mem →
    ∃ bases q, allocate_all p sizes = Run.returned bases q ∧
      q.available_mem + (sizes.map fun s => pages_count s * PAGE_SIZE).sum = p.available_mem := by
  induction sizes with
  | nil => intro p _ _; exact ⟨[], p, rfl, by simp⟩
  | cons s rest ih =>
    intro p hw hsum
    simp only [List.map_cons, List.sum_cons] at hsum ⊢
    have hb := pages_count_bounds s
    have hstep := allocate_update_available p s hw (by omega)
    have hacc : ¬ s > p.available_mem := by omega
    obtain ⟨bases, q, hrun, hq⟩ := ih (allocate_update p s) (by omega) (by omega)
    refine ⟨((allocate_update p s).vm_regions ((allocate_update p s).num_regions - 1)).base_address :: bases, q, ?_, by omega⟩
    simp only [allocate_all, allocate, hacc, if_false, Run.bind, hrun]

/-! ## The loops of `release` -/

/-- On indices and counts that are non-negative and below `2^32` the loop test is the plain comparison, whatever the signedness of `num_regions`. -/
theorem index_lt_num_regions_eq (u : Bool) (index n : Int) (h0 : 0 ≤ index) (h1 : index ≤ n)
    (hn : n < (WORD : Int)) : index_lt_num_regions u index n = decide (index < n) := by
  unfold index_lt_num_regions
  cases u
  · simp
  · have hw : (WORD : Int) = 4294967296 := by simp [WORD]
    rw [hw] at hn ⊢
    have e1 : index % 4294967296 = index := Int.emod_eq_of_lt h0 (by omega)
    have e2 : n % 4294967296 = n := Int.emod_eq_of_lt (by omega) hn
    simp [e1, e2]

/-- The bound on the number of iterations is the distance from the start index to `num_regions`. -/
theorem loop_trips_eq (u : Bool) (index n : Int) (h0 : 0 ≤ index) (h1 : index ≤ n)
    (hn : n < (WORD : Int)) : loop_trips u index n = (n - index).toNat := by
  unfold loop_trips
  cases u
  · simp
  · have hw : (WORD : Int) = 4294967296 := by simp [WORD]
    rw [hw] at hn ⊢
    have e1 : index % 4294967296 = index := Int.emod_eq_of_lt h0 (by omega)
    have e2 : n % 4294967296 = n := Int.emod_eq_of_lt (by omega) hn
    simp [e1, e2]

/-- The search loop: either no record from `index` on has the base sought and `region_no` keeps its value, or the result is the last such record. -/
theorem find_region_spec (u : Bool) (p : VMPool) (s : Nat) (hn : p.num_regions < (WORD : Int)) :
    ∀ (trips : Nat) (index r : Int), 0 ≤ index → index ≤ p.num_regions →
      (p.num_regions - index).toNat ≤ trips →
      (find_region u p s trips index r = r ∧
        ∀ j : Int, index ≤ j → j < p.num_regions → (p.vm_regions j).base_address ≠ s) ∨
      (index ≤ find_region u p s trips index r ∧
        find_region u p s trips index r < p.num_regions ∧
        (p.vm_regions (find_region u p s trips index r)).base_address = s ∧
        ∀ j : Int, find_region u p s trips index r < j → j < p.num_regions →
          (p.vm_regions j).base_address ≠ s) := by
  intro trips
  induction trips with
  | zero =>
    intro index r h0 h1 ht
    left
    refine ⟨rfl, ?_⟩
    intro j hj1 hj2
    omega
  | succ trips ih =>
    intro index r h0 h1 ht
    rw [find_region, index_lt_num_regions_eq u index _ h0 h1 hn]
    by_cases hlt : index < p.num_regions
    · simp only [hlt, decide_True, if_true]
      rcases ih (index + 1)
          (if (p.vm_regions index).base_address = s then index else r)
          (by omega) (by omega) (by omega) with ⟨heq, hno⟩ | ⟨ha, hb, hc, hd⟩
      · by_cases hm : (p.vm_regions index).base_address = s
        · right
          rw [heq, if_pos hm]
          refine ⟨le_refl _, hlt, hm, ?_⟩
          intro j hj1 hj2
          exact hno j (by omega) hj2
        · left
          rw [heq, if_neg hm]
          refine ⟨rfl, ?_⟩
          intro j hj1 hj2
          by_cases hji : j = index
          · rw [hji]; exact hm
          · exact hno j (by omega) hj2
      · right
        exact ⟨by omega, hb, hc, hd⟩
    · simp only [hlt, decide_False]
      left
      refine ⟨by simp, ?_⟩
      intro j hj1 hj2
      omega

/-- The compaction loop: every record from `index` to `num_regions-1` is replaced by its successor, including the record one past the end; the others are untouched. -/
theorem shift_regions_spec (u : Bool) (n : Int) (hn : n < (WORD : Int)) :
    ∀ (trips : Nat) (index : Int) (vm : Int → alloc_region_info), 0 ≤ index → index ≤ n →
      (n - index).toNat ≤ trips →
      ∀ j : Int, shift_regions u n trips index vm j =
        if index ≤ j ∧ j < n then vm (j + 1) else vm j := by
  intro trips
  induction trips with
  | zero =>
    intro index vm h0 h1 ht j
    have : ¬ (index ≤ j ∧ j < n) := by omega
    simp [shift_regions, this]
  | succ trips ih =>
    intro index vm h0 h1 ht j
    rw [shift_regions, index_lt_num_regions_eq u index _ h0 h1 hn]
    by_cases hlt : index < n
    · simp only [hlt, decide_True, if_true]
      rw [ih (index + 1) _ (by omega) (by omega) (by omega) j]
      by_cases hj : index + 1 ≤ j ∧ j < n
      · have hj' : index ≤ j ∧ j < n := by omega
        have hne : j + 1 ≠ index := by omega
        simp [hj, hj', Function.update_noteq hne]
      · by_cases hji : j = index
        · subst hji
          have : j ≤ j ∧ j < n := ⟨le_refl _, hlt⟩
          simp [hj, this]
        · have hj' : ¬ (index ≤ j ∧ j < n) := by omega
          simp [hj, hj', Function.update_noteq hji]
    · have : ¬ (index ≤ j ∧ j < n) := by omega
      simp [hlt, this]

/-- The pool after `release` of the base of a record with index at least 1: `region_no` is the last record with that base, the array is compacted from there, `available_mem` grows by the length of the record that followed the released one, `num_regions` drops by one. -/
theorem release_update_found (u : Bool) (p : VMPool) (s : Nat)
    (hn : p.num_regions < (WORD : Int))
    (hfound : ∃ i : Int, 1 ≤ i ∧ i < p.num_regions ∧ (p.vm_regions i).base_address = s) :
    1 ≤ release_region_no u p s ∧ release_region_no u p s < p.num_regions ∧
    (p.vm_regions (release_region_no u p s)).base_address = s ∧
    (∀ j : Int, release_region_no u p s < j → j < p.num_regions →
      (p.vm_regions j).base_address ≠ s) ∧
    (∀ j : Int, (release_update u p s).vm_regions j =
      if release_region_no u p s ≤ j ∧ j < p.num_regions then p.vm_regions (j + 1)
      else p.vm_regions j) ∧
    (release_update u p s).available_mem =
      (p.available_mem + (p.vm_regions (release_region_no u p s + 1)).length) % WORD ∧
    (release_update u p s).num_regions = p.num_regions - 1 := by
  obtain ⟨i, hi1, hi2, hi3⟩ := hfound
  have hspec := find_region_spec u p s hn (loop_trips u 1 p.num_regions) 1 (-1)
    (by omega) (by omega) (by rw [loop_trips_eq u 1 _ (by omega) (by omega) hn])
  have hr : 1 ≤ release_region_no u p s ∧ release_region_no u p s < p.num_regions ∧
      (p.vm_regions (release_region_no u p s)).base_address = s ∧
      ∀ j : Int, release_region_no u p s < j → j < p.num_regions →
        (p.vm_regions j).base_address ≠ s := by
    rcases hspec with ⟨_, hno⟩ | h
    · exact absurd hi3 (hno i hi1 hi2)
    · exact h
  obtain ⟨hr1, hr2, hr3, hr4⟩ := hr
  have hshift := shift_regions_spec u p.num_regions hn
    (loop_trips u (release_region_no u p s) p.num_regions) (release_region_no u p s) p.vm_regions
    (by omega) (by omega)
    (by rw [loop_trips_eq u _ _ (by omega) (by omega) hn])
  refine ⟨hr1, hr2, hr3, hr4, ?_, ?_, ?_⟩
  · intro j
    simp only [release_update]
    exact hshift j
  · simp only [release_update]
    rw [hshift]
    simp [hr2]
  · simp [release_update]

/-- The test `is_region_base` says that some record with index `1 .. num_regions-1` has the given base. -/
theorem is_region_base_iff (p : VMPool) (a : Nat) :
    is_region_base p a = true ↔
      ∃ i : Int, 1 ≤ i ∧ i < p.num_regions ∧ (p.vm_regions i).base_address = a := by
  simp only [is_region_base, List.any_eq_true, List.mem_range, decide_eq_true_eq]
  constructor
  · rintro ⟨i, hi, hbase⟩
    refine ⟨Int.ofNat i + 1, ?_, ?_, hbase⟩
    · have : Int.ofNat i = (i : Int) := rfl
      omega
    · have : Int.ofNat i = (i : Int) := rfl
      omega
  · rintro ⟨i, h1, h2, hbase⟩
    refine ⟨(i - 1).toNat, by omega, ?_⟩
    have : Int.ofNat (i - 1).toNat + 1 = i := by
      have : Int.ofNat (i - 1).toNat = ((i - 1).toNat : Int) := rfl
      omega
    rw [this]; exact hbase

/-! ## C3: `release` and `available_mem` -/

/-- C3 (the code departs from the claim): releasing the one-page region at
`0x20001000` of `three_pool` (record 1, length 4096, followed by a record of
length 8192) raises `available_mem` by 8192, the length of the following
record, and not by 4096; `num_regions` drops by one. And `release(allocate(4096))`
on `fresh_pool` restores `num_regions` but leaves `available_mem` at
`0x0FFFE000` instead of `0x0FFFF000`: the slot after the released record holds
length 0. Both hold whatever the signedness of `num_regions`. -/
theorem release_adds_length_of_next_region :
    is_region_base three_pool 0x20001000 = true ∧
    (three_pool.vm_regions 1).base_address = 0x20001000 ∧
    (three_pool.vm_regions 1).length = 4096 ∧
    (∀ u : Bool,
      (release_update u three_pool 0x20001000).available_mem = three_pool.available_mem + 8192 ∧
      (release_update u three_pool 0x20001000).num_regions = three_pool.num_regions - 1) ∧
    (allocate fresh_pool 4096).value = some 0x20001000 ∧
    fresh_pool.available_mem = 0x0FFFF000 ∧
    ∀ u : Bool,
      (release_update u (allocate fresh_pool 4096).final 0x20001000).available_mem = 0x0FFFE000 ∧
      (release_update u (allocate fresh_pool 4096).final 0x20001000).num_regions =
        fresh_pool.num_regions := by
  decide

/-! ## C4: `available_mem` after a sequence of `allocate` calls -/

/-- C4 (amended): for every pool whose `available_mem` is a 32-bit value and every
sequence of `allocate` calls with sizes `s1..sn` whose page-rounded sizes
`pages_count si * 4096` sum to at most `available_mem`, every call returns and
`available_mem` after the sequence is `available_mem` before it minus the sum
over `i` of `ceil(si / 4096) * 4096`. -/
theorem allocate_sequence_available_mem (p : VMPool) (sizes : List Nat)
    (hw : p.available_mem < WORD)
    (hfit : (sizes.map fun s => pages_count s * PAGE_SIZE).sum ≤ p.available_mem) :
    ∃ bases q, allocate_all p sizes = Run.returned bases q ∧
      q.available_mem + (sizes.map fun s : Nat => ⌈(s : ℚ) / 4096⌉₊ * 4096).sum = p.available_mem := by
  obtain ⟨bases, q, hrun, hq⟩ := allocate_all_available sizes p hw hfit
  refine ⟨bases, q, hrun, ?_⟩
  have : (sizes.map fun s : Nat => ⌈(s : ℚ) / 4096⌉₊ * 4096) = sizes.map fun s => pages_count s * PAGE_SIZE := by
    apply List.map_congr_left
    intro s _
    rw [pages_count_eq_ceil]; rfl
  rw [this]; exact hq

/-- C4 witness: three calls of sizes 4097, 1 and 8192 on `three_pool`; the first
takes 8192 bytes, two pages, for a request of one byte over one page. -/
theorem allocate_sequence_available_mem_witness :
    three_pool.available_mem < WORD ∧
    (([4097, 1, 8192] : List Nat).map fun s => pages_count s * PAGE_SIZE).sum ≤ three_pool.available_mem ∧
    ∃ bases q, allocate_all three_pool [4097, 1, 8192] = Run.returned bases q ∧
      q.available_mem + (([4097, 1, 8192] : List Nat).map fun s : Nat => ⌈(s : ℚ) / 4096⌉₊ * 4096).sum
        = three_pool.available_mem :=
  ⟨by decide, by decide, allocate_sequence_available_mem three_pool [4097, 1, 8192] (by decide) (by decide)⟩

/-- C4 counterexample: `ragged_pool` has 5000 bytes available, so a request of
4097 bytes is accepted; `available_mem` becomes `4294964104 = 5000 - 8192 + 2^32`,
it has not gone down by 8192. -/
theorem allocate_wraps_available_mem :
    4097 ≤ ragged_pool.available_mem ∧
    (allocate ragged_pool 4097).is_returned = true ∧
    (allocate ragged_pool 4097).final.available_mem = 4294964104 ∧
    (allocate ragged_pool 4097).final.available_mem + 8192 ≠ ragged_pool.available_mem := by
  decide

/-! ## C5: the record written by `allocate` -/

/-- C5 (amended): every accepted `allocate(_size)` on a pool with `num_regions = k`
returns the base of the new record; the record written at index `k` has base
`(record[k-1].base_address + record[k-1].length) mod 2^32` and length
`(ceil(_size / 4096) * 4096) mod 2^32`; every other record is unchanged and
`num_regions` becomes `k + 1`. The base is the plain sum when that sum is below
`2^32`, the length is the plain product when `_size + 4096 <= 2^32`. -/
theorem allocate_appends_record (p : VMPool) (s : Nat) (hacc : s ≤ p.available_mem) :
    ∃ q, allocate p s =
        Run.returned (((p.vm_regions (p.num_regions - 1)).base_address +
          (p.vm_regions (p.num_regions - 1)).length) % WORD) q ∧
      q.vm_regions p.num_regions =
        { base_address := ((p.vm_regions (p.num_regions - 1)).base_address +
            (p.vm_regions (p.num_regions - 1)).length) % WORD
          length := (⌈(s : ℚ) / 4096⌉₊ * 4096) % WORD } ∧
      (∀ i : Int, i ≠ p.num_regions → q.vm_regions i = p.vm_regions i) ∧
      q.num_regions = p.num_regions + 1 ∧
      ((p.vm_regions (p.num_regions - 1)).base_address +
          (p.vm_regions (p.num_regions - 1)).length < WORD →
        (q.vm_regions p.num_regions).base_address =
          (p.vm_regions (p.num_regions - 1)).base_address +
            (p.vm_regions (p.num_regions - 1)).length) ∧
      (s + PAGE_SIZE ≤ WORD → (q.vm_regions p.num_regions).length = ⌈(s : ℚ) / 4096⌉₊ * 4096) := by
  have hacc' : ¬ s > p.available_mem := by omega
  have hb := pages_count_bounds s
  refine ⟨allocate_update p s, ?_, ?_, ?_, ?_, ?_, ?_⟩
  · simp [allocate, hacc', allocate_update]
  · simp [allocate_update, ← pages_count_eq_ceil, PAGE_SIZE]
  · intro i hi
    simp [allocate_update, Function.update_noteq hi]
  · simp [allocate_update]
  · intro h
    simp [allocate_update, Nat.mod_eq_of_lt h]
  · intro h
    have : pages_count s * PAGE_SIZE < WORD := by omega
    simp only [allocate_update, Function.update_same, Nat.mod_eq_of_lt this, ← pages_count_eq_ceil]
    rfl

/-- C5 witness: a request of 4096 bytes on `three_pool`. -/
theorem allocate_appends_record_witness :
    4096 ≤ three_pool.available_mem ∧
    ∃ q, allocate three_pool 4096 =
        Run.returned (((three_pool.vm_regions (three_pool.num_regions - 1)).base_address +
          (three_pool.vm_regions (three_pool.num_regions - 1)).length) % WORD) q ∧
      q.vm_regions three_pool.num_regions =
        { base_address := ((three_pool.vm_regions (three_pool.num_regions - 1)).base_address +
            (three_pool.vm_regions (three_pool.num_regions - 1)).length) % WORD
          length := (⌈((4096 : Nat) : ℚ) / 4096⌉₊ * 4096) % WORD } ∧
      (∀ i : Int, i ≠ three_pool.num_regions → q.vm_regions i = three_pool.vm_regions i) ∧
      q.num_regions = three_pool.num_regions + 1 ∧
      ((three_pool.vm_regions (three_pool.num_regions - 1)).base_address +
          (three_pool.vm_regions (three_pool.num_regions - 1)).length < WORD →
        (q.vm_regions three_pool.num_regions).base_address =
          (three_pool.vm_regions (three_pool.num_regions - 1)).base_address +
            (three_pool.vm_regions (three_pool.num_regions - 1)).length) ∧
      (4096 + PAGE_SIZE ≤ WORD →
        (q.vm_regions three_pool.num_regions).length = ⌈((4096 : Nat) : ℚ) / 4096⌉₊ * 4096) :=
  ⟨by decide, allocate_appends_record three_pool 4096 (by decide)⟩

/-- C5 counterexample: `top_pool` ends at the top of the address space and has
`available_mem = 0`, so `allocate(0)` is accepted; the last record is
`{0xFFFFF000, 4096}`, whose base plus length is `2^32`, and the new record has
base 0, which is also the value returned. -/
theorem allocate_base_wraps :
    top_pool.num_regions = 2 ∧ 0 ≤ top_pool.available_mem ∧
    (allocate top_pool 0).is_returned = true ∧
    (top_pool.vm_regions 1).base_address + (top_pool.vm_regions 1).length = 4294967296 ∧
    ((allocate top_pool 0).final.vm_regions 2).base_address = 0 ∧
    (allocate top_pool 0).value = some 0 := by
  decide

/-! ## C6: the capacity test of `allocate` -/

/-- C6: for every pool and every request, if `_size > available_mem` then
`allocate` halts on `assert(false)` in the unchanged pool (records,
`num_regions` and `available_mem` are those before the call), and if
`_size <= available_mem` then it returns without halting. -/
theorem allocate_capacity_check (p : VMPool) (s : Nat) :
    (s > p.available_mem → allocate p s = Run.halted Halt.assertion_failed p) ∧
    (s ≤ p.available_mem → (allocate p s).is_returned = true ∧ (allocate p s).why = none) := by
  constructor
  · intro h
    simp [allocate, h]
  · intro h
    have h' : ¬ s > p.available_mem := by omega
    simp [allocate, h', Run.is_returned, Run.why]

/-- C6 witness: on `three_pool` a request of `0x10000000` bytes halts, a request of all of `available_mem` returns. -/
theorem allocate_capacity_check_witness :
    allocate three_pool 0x10000000 = Run.halted Halt.assertion_failed three_pool ∧
    ((allocate three_pool 0x0FFFC000).is_returned = true ∧
      (allocate three_pool 0x0FFFC000).why = none) :=
  ⟨(allocate_capacity_check three_pool 0x10000000).1 (by decide),
   (allocate_capacity_check three_pool 0x0FFFC000).2 (by decide)⟩

/-! ## C7: `is_legitimate` -/

/-- C7 (amended): for every pool with `base_address + size < 2^32` and every
address `a`, `is_legitimate(a)` is true if and only if
`base_address <= a <= base_address + size`; it is true for `a = base_address`
and, when `size > 0` and `base_address + size + size < 2^32`, false for
`a = base_address + size + size`. -/
theorem is_legitimate_iff (p : VMPool) (a : Nat) (h : p.base_address + p.size < WORD) :
    (is_legitimate p a = true ↔ p.base_address ≤ a ∧ a ≤ p.base_address + p.size) ∧
    is_legitimate p p.base_address = true ∧
    (0 < p.size → p.base_address + p.size + p.size < WORD →
      is_legitimate p (p.base_address + p.size + p.size) = false) := by
  simp only [is_legitimate, Nat.mod_eq_of_lt h]
  refine ⟨?_, ?_, ?_⟩
  · split <;> simp <;> omega
  · simp
  · intro hs _
    simp
    omega

/-- C7 witness: the pool `three_pool` and the address `0x2FFFFFFF`. -/
theorem is_legitimate_iff_witness :
    three_pool.base_address + three_pool.size < WORD ∧
    ((is_legitimate three_pool 0x2FFFFFFF = true ↔
        three_pool.base_address ≤ 0x2FFFFFFF ∧ 0x2FFFFFFF ≤ three_pool.base_address + three_pool.size) ∧
      is_legitimate three_pool three_pool.base_address = true ∧
      (0 < three_pool.size → three_pool.base_address + three_pool.size + three_pool.size < WORD →
        is_legitimate three_pool (three_pool.base_address + three_pool.size + three_pool.size) = false)) :=
  ⟨by decide, is_legitimate_iff three_pool 0x2FFFFFFF (by decide)⟩

/-- C7 counterexample: the window of `upper_half_pool` is `[0x80000000, 2^32]`;
the sum `base_address + size` wraps to 0, and `is_legitimate` rejects the
pool's own base address although it lies between the bounds. And for
`long_pool` the address `base_address + size + size` is `0xD0000000` as an
`unsigned long`, which `is_legitimate` accepts. -/
theorem is_legitimate_wraps :
    upper_half_pool.base_address ≤ 0x80000000 ∧
    0x80000000 ≤ upper_half_pool.base_address + upper_half_pool.size ∧
    is_legitimate upper_half_pool 0x80000000 = false ∧
    is_legitimate upper_half_pool upper_half_pool.base_address = false ∧
    0 < long_pool.size ∧
    (long_pool.base_address + long_pool.size + long_pool.size) % WORD = 0xD0000000 ∧
    is_legitimate long_pool 0xD0000000 = true := by
  decide

/-! ## C8: the accounting invariant -/

/-- The sum of the record lengths after the assignments of `allocate` is the sum before plus the length of the new record. -/
theorem sum_lengths_allocate (p : VMPool) (s : Nat) (hn : 0 ≤ p.num_regions) :
    sum_lengths (allocate_update p s) = sum_lengths p + (pages_count s * PAGE_SIZE) % WORD := by
  have hto : (p.num_regions + 1).toNat = p.num_regions.toNat + 1 := by omega
  simp only [sum_lengths, allocate_update, hto, List.range_succ, List.map_append, List.sum_append,
    List.map_cons, List.map_nil, List.sum_cons, List.sum_nil]
  have hcast : Int.ofNat p.num_regions.toNat = p.num_regions := Int.toNat_of_nonneg hn
  rw [hcast, Function.update_same]
  congr 2
  apply List.map_congr_left
  intro i hi
  rw [List.mem_range] at hi
  have hne : Int.ofNat i ≠ p.num_regions := by
    have : Int.ofNat i = (i : Int) := rfl
    omega
  rw [Function.update_noteq hne]

/-- C8 (amended): on a pool with `num_regions >= 0` and a 32-bit `available_mem`,
every `allocate` whose page-rounded size `pages_count _size * 4096` does not
exceed `available_mem` returns and preserves the invariant
`sum(region.length) + available_mem = size`. -/
theorem allocate_preserves_invariant (p : VMPool) (s : Nat) (hinv : pool_invariant p)
    (hn : 0 ≤ p.num_regions) (hw : p.available_mem < WORD)
    (hfit : pages_count s * PAGE_SIZE ≤ p.available_mem) :
    (allocate p s).is_returned = true ∧ pool_invariant (allocate p s).final := by
  have hb := pages_count_bounds s
  have hacc : ¬ s > p.available_mem := by omega
  have hsum := sum_lengths_allocate p s hn
  have hlt : pages_count s * PAGE_SIZE < WORD := by omega
  rw [Nat.mod_eq_of_lt hlt] at hsum
  have hav : (allocate_update p s).available_mem + pages_count s * PAGE_SIZE = p.available_mem := by
    simp only [allocate_update]
    unfold WORD at *
    omega
  have hsize : (allocate_update p s).size = p.size := rfl
  simp only [allocate, hacc, if_false, Run.is_returned, Run.final, pool_invariant, true_and]
  unfold pool_invariant at hinv
  omega

/-- C8 witness: a request of 4097 bytes on `three_pool`. -/
theorem allocate_preserves_invariant_witness :
    pool_invariant three_pool ∧ 0 ≤ three_pool.num_regions ∧ three_pool.available_mem < WORD ∧
    pages_count 4097 * PAGE_SIZE ≤ three_pool.available_mem ∧
    (allocate three_pool 4097).is_returned = true ∧ pool_invariant (allocate three_pool 4097).final :=
  ⟨by decide, by decide, by decide, by decide,
    allocate_preserves_invariant three_pool 4097 (by decide) (by decide) (by decide) (by decide)⟩

/-- C8 counterexample: the invariant holds on `ragged_pool`, the request of 4097
bytes is accepted and the invariant fails afterwards (the subtraction wraps);
the invariant holds on `three_pool` and fails after the release of the region
at `0x20001000` (the length added is that of the following record). -/
theorem invariant_broken_by_wrap_and_by_release :
    pool_invariant ragged_pool ∧ 4097 ≤ ragged_pool.available_mem ∧
    (allocate ragged_pool 4097).is_returned = true ∧
    ¬ pool_invariant (allocate ragged_pool 4097).final ∧
    pool_invariant three_pool ∧ is_region_base three_pool 0x20001000 = true ∧
    ∀ u : Bool, ¬ pool_invariant (release_update u three_pool 0x20001000) := by
  decide

/-! ## C9: the constructor -/

/-- Whenever the constructor returns, `available_mem` is the previous content of
that member minus 4096 modulo `2^32`: it does not depend on `_size`. -/
theorem VMPool_construct_available_mem (fuel self base size : Nat)
    (window : Int → alloc_region_info) (m : Machine)
    (h : (VMPool_construct fuel self base size window m).is_returned = true) :
    ((VMPool_construct fuel self base size window m).final.pools self).available_mem =
      ((m.pools self).available_mem + WORD - PAGE_SIZE) % WORD := by
  revert h
  simp only [VMPool_construct, register_pool]
  split
  · simp [Run.bind, Run.final]
  · split
    · simp [Run.bind, Run.is_returned]
    · rename_i temp htail
      simp only [Run.bind, Run.final, Function.update_same]
      intro _
      by_cases hts : self = temp
      · subst hts; simp
      · simp [Function.update_noteq hts]

/-- C9 (the code departs from the claim): constructing a pool at address 200 with
base `0x20000000` and size `0x10000000` on `fault_machine`, whose object
storage holds zeroes, returns with `num_regions = 1`, record 0 equal to
`{0x20000000, 4096}`, a null `vm_pool_next` and the pool appended after pool
100 in the registry, but `available_mem = 4294963200 = 0 - 4096 + 2^32` and not
`size - 4096`. -/
theorem construct_ignores_size :
    (VMPool_construct 4 200 0x20000000 0x10000000 zero_window fault_machine).is_returned = true ∧
    ((VMPool_construct 4 200 0x20000000 0x10000000 zero_window fault_machine).final.pools 200).num_regions = 1 ∧
    ((VMPool_construct 4 200 0x20000000 0x10000000 zero_window fault_machine).final.pools 200).vm_regions 0
      = { base_address := 0x20000000, length := 4096 } ∧
    ((VMPool_construct 4 200 0x20000000 0x10000000 zero_window fault_machine).final.pools 200).vm_pool_next = none ∧
    ((VMPool_construct 4 200 0x20000000 0x10000000 zero_window fault_machine).final.pools 100).vm_pool_next = some 200 ∧
    ((VMPool_construct 4 200 0x20000000 0x10000000 zero_window fault_machine).final.pools 200).size = 0x10000000 ∧
    ((VMPool_construct 4 200 0x20000000 0x10000000 zero_window fault_machine).final.pools 200).available_mem
      = 4294963200 ∧
    (4294963200 : Nat) ≠ 0x10000000 - 4096 := by
  decide

/-! ## C10: distinct bases and disjoint ranges -/

/-- A request of positive size is rounded to at least one page. -/
theorem pages_count_pos (s : Nat) (hs : 0 < s) : PAGE_SIZE ≤ pages_count s * PAGE_SIZE := by
  unfold pages_count PAGE_SIZE
  split <;> omega

/-- Sorted records are fewer than `2^32`. -/
theorem regions_sorted_count (p : VMPool) (hs : regions_sorted p) :
    p.num_regions < (WORD : Int) := by
  obtain ⟨_, _, hidx, hword⟩ := hs
  by_cases h : p.num_regions ≤ 1
  · simp only [WORD]; omega
  · have h1 := hidx (p.num_regions - 1) (by omega) (by omega)
    have h2 := hword (p.num_regions - 1) (by omega) (by omega)
    simp only [WORD, PAGE_SIZE] at *
    omega

/-- An admissible `allocate` keeps the records sorted. -/
theorem regions_sorted_allocate (p : VMPool) (s : Nat) (hs : regions_sorted p)
    (hn : 1 ≤ p.num_regions) (hpos : 0 < s)
    (hend : (p.vm_regions (p.num_regions - 1)).base_address +
        (p.vm_regions (p.num_regions - 1)).length + pages_count s * PAGE_SIZE ≤ WORD) :
    regions_sorted (allocate_update p s) := by
  obtain ⟨hlen, hord, hidx, hword⟩ := hs
  have hp := pages_count_pos s hpos
  have hlast := hlen (p.num_regions - 1) (by omega) (by omega)
  have hlastidx := hidx (p.num_regions - 1) (by omega) (by omega)
  have hround : pages_count s * PAGE_SIZE < WORD := by
    simp only [PAGE_SIZE] at *; omega
  have hbase : (p.vm_regions (p.num_regions - 1)).base_address +
      (p.vm_regions (p.num_regions - 1)).length < WORD := by
    simp only [PAGE_SIZE] at *; omega
  refine ⟨?_, ?_, ?_, ?_⟩
  · intro i hi0 hi1
    simp only [allocate_update] at hi1 ⊢
    by_cases hi : i = p.num_regions
    · subst hi
      simp only [Function.update_same, Nat.mod_eq_of_lt hround]
      exact hp
    · rw [Function.update_noteq hi]
      exact hlen i hi0 (by omega)
  · intro i j hi0 hij hj
    simp only [allocate_update] at hj ⊢
    have hi : i ≠ p.num_regions := by omega
    rw [Function.update_noteq hi]
    by_cases hjn : j = p.num_regions
    · subst hjn
      simp only [Function.update_same, Nat.mod_eq_of_lt hbase]
      by_cases hil : i = p.num_regions - 1
      · rw [hil]
      · have := hord i (p.num_regions - 1) hi0 (by omega) (by omega)
        omega
    · rw [Function.update_noteq hjn]
      exact hord i j hi0 hij (by omega)
  · intro i hi0 hi1
    simp only [allocate_update] at hi1 ⊢
    by_cases hi : i = p.num_regions
    · subst hi
      simp only [Function.update_same, Nat.mod_eq_of_lt hbase]
      simp only [PAGE_SIZE] at *
      push_cast
      omega
    · rw [Function.update_noteq hi]
      exact hidx i hi0 (by omega)
  · intro i hi1 hi2
    simp only [allocate_update] at hi2 ⊢
    by_cases hi : i = p.num_regions
    · subst hi
      simp only [Function.update_same]
      exact Nat.mod_lt _ (by simp [WORD])
    · rw [Function.update_noteq hi]
      exact hword i hi1 (by omega)

/-- The `release` of a recorded base keeps the records sorted and at least one record. -/
theorem regions_sorted_release (u : Bool) (p : VMPool) (a : Nat) (hs : regions_sorted p)
    (hfound : is_region_base p a = true) :
    regions_sorted (release_update u p a) ∧ 1 ≤ (release_update u p a).num_regions := by
  have hn := regions_sorted_count p hs
  rw [is_region_base_iff] at hfound
  obtain ⟨hr1, hr2, _, _, hvm, _, hnum⟩ := release_update_found u p a hn hfound
  obtain ⟨hlen, hord, hidx, hword⟩ := hs
  refine ⟨⟨?_, ?_, ?_, ?_⟩, by omega⟩
  · intro i hi0 hi1
    rw [hnum] at hi1
    rw [hvm i]
    split
    · exact hlen (i + 1) (by omega) (by omega)
    · exact hlen i hi0 (by omega)
  · intro i j hi0 hij hj
    rw [hnum] at hj
    rw [hvm i, hvm j]
    split <;> split
    · exact hord (i + 1) (j + 1) (by omega) (by omega) (by omega)
    · omega
    · exact hord i (j + 1) hi0 (by omega) (by omega)
    · exact hord i j hi0 hij (by omega)
  · intro i hi0 hi1
    rw [hnum] at hi1
    rw [hvm i]
    split
    · have := hidx (i + 1) (by omega) (by omega)
      simp only [PAGE_SIZE] at *
      omega
    · exact hidx i hi0 (by omega)
  · intro i hi1 hi2
    rw [hnum] at hi2
    rw [hvm i]
    split
    · exact hword (i + 1) (by omega) (by omega)
    · exact hword i hi1 (by omega)

/-- Sorted records have distinct bases and disjoint ranges. -/
theorem regions_sorted_disjoint (p : VMPool) (hs : regions_sorted p) : regions_disjoint p := by
  obtain ⟨hlen, hord, _, _⟩ := hs
  intro i j hi0 hi1 hj0 hj1 hne
  rcases lt_or_gt_of_ne hne with hlt | hgt
  · have h1 := hord i j hi0 hlt hj1
    have h2 := hlen i hi0 hi1
    simp only [PAGE_SIZE] at h2
    exact ⟨by omega, fun a => by omega⟩
  · have h1 := hord j i hj0 hgt hi1
    have h2 := hlen j hj0 hj1
    simp only [PAGE_SIZE] at h2
    exact ⟨by omega, fun a => by omega⟩

/-- Every admissible sequence of calls returns and keeps the records sorted. -/
theorem run_ops_sorted (u : Bool) (ops : List PoolOp) : ∀ (p : VMPool), regions_sorted p →
    1 ≤ p.num_regions → ops_admissible u p ops = true →
    ∃ q, run_ops u p ops = Run.returned () q ∧ regions_sorted q := by
  induction ops with
  | nil => intro p hs _ _; exact ⟨p, rfl, hs⟩
  | cons op rest ih =>
    intro p hs hn1 hadm
    cases op with
    | allocate s =>
      simp only [ops_admissible, Bool.and_eq_true, decide_eq_true_eq] at hadm
      obtain ⟨⟨⟨hpos, hacc⟩, hend⟩, hrest⟩ := hadm
      have hacc' : ¬ s > p.available_mem := by omega
      have hs' := regions_sorted_allocate p s hs hn1 hpos hend
      obtain ⟨q, hrun, hq⟩ := ih (allocate_update p s) hs'
        (by simp only [allocate_update]; omega) hrest
      exact ⟨q, by simp only [run_ops, allocate, hacc', if_false, Run.bind, hrun], hq⟩
    | release a =>
      simp only [ops_admissible, Bool.and_eq_true] at hadm
      obtain ⟨hfound, hrest⟩ := hadm
      obtain ⟨hs', hn'⟩ := regions_sorted_release u p a hs hfound
      obtain ⟨q, hrun, hq⟩ := ih (release_update u p a) hs' hn' hrest
      exact ⟨q, by simp only [run_ops, hrun], hq⟩

/-- C10 (amended): on a constructed pool (`num_regions = 1`, record 0 equal to
`{base_address, 4096}`), every sequence of accepted `allocate` calls of
positive size whose new region does not extend past `2^32`, and of `release`
calls on bases of records with index at least 1, returns and leaves records
with pairwise different bases and pairwise disjoint ranges
`[base_address, base_address + length)`. -/
theorem regions_stay_disjoint (u : Bool) (p : VMPool) (ops : List PoolOp)
    (hn : p.num_regions = 1)
    (h0 : p.vm_regions 0 = { base_address := p.base_address, length := PAGE_SIZE })
    (hops : ops_admissible u p ops = true) :
    ∃ q, run_ops u p ops = Run.returned () q ∧ regions_disjoint q := by
  have hs : regions_sorted p := by
    refine ⟨?_, ?_, ?_, ?_⟩
    · intro i hi0 hi1
      have : i = 0 := by omega
      rw [this, h0]
    · intro i j hi0 hij hj
      omega
    · intro i hi0 hi1
      have : i = 0 := by omega
      rw [this]
      simp
    · intro i hi1 hi2
      omega
  obtain ⟨q, hrun, hq⟩ := run_ops_sorted u ops p hs (by omega) hops
  exact ⟨q, hrun, regions_sorted_disjoint q hq⟩

/-- C10 witness: two allocations, the release of the first region and one more
allocation on `fresh_pool`. -/
theorem regions_stay_disjoint_witness :
    fresh_pool.num_regions = 1 ∧
    fresh_pool.vm_regions 0 = { base_address := fresh_pool.base_address, length := PAGE_SIZE } ∧
    ops_admissible true fresh_pool
      [PoolOp.allocate 4097, PoolOp.allocate 1, PoolOp.release 0x20001000, PoolOp.allocate 4096] = true ∧
    ∃ q, run_ops true fresh_pool
        [PoolOp.allocate 4097, PoolOp.allocate 1, PoolOp.release 0x20001000, PoolOp.allocate 4096]
        = Run.returned () q ∧ regions_disjoint q :=
  ⟨by decide, by decide, by decide, regions_stay_disjoint true fresh_pool _ (by decide) (by decide) (by decide)⟩

/-- C10 counterexample: on `fresh_pool` the accepted calls `allocate(0)` and
`allocate(4096)` leave records 1 and 2 with the same base `0x20001000`. And on
`wide_pool` the calls `wide_ops`, all accepted, of positive size and releasing
recorded bases, leave record 1 equal to `{0xE0001000, 0xBFFFF000}` and record 2
equal to `{0xA0000000, 0x60000000}`: both ranges contain `0xE0001000`. -/
theorem regions_share_base_or_overlap :
    fresh_pool.num_regions = 1 ∧
    fresh_pool.vm_regions 0 = { base_address := fresh_pool.base_address, length := 4096 } ∧
    (run_ops true fresh_pool [PoolOp.allocate 0, PoolOp.allocate 4096]).is_returned = true ∧
    (run_ops true fresh_pool [PoolOp.allocate 0, PoolOp.allocate 4096]).final.num_regions = 3 ∧
    ((run_ops true fresh_pool [PoolOp.allocate 0, PoolOp.allocate 4096]).final.vm_regions 1).base_address =
      ((run_ops true fresh_pool [PoolOp.allocate 0, PoolOp.allocate 4096]).final.vm_regions 2).base_address ∧
    ¬ regions_disjoint (run_ops true fresh_pool [PoolOp.allocate 0, PoolOp.allocate 4096]).final ∧
    wide_pool.num_regions = 1 ∧
    wide_pool.vm_regions 0 = { base_address := wide_pool.base_address, length := 4096 } ∧
    is_region_base (run_ops true wide_pool (wide_ops.take 2)).final 0x20001000 = true ∧
    is_region_base (run_ops true wide_pool (wide_ops.take 4)).final 0x20002000 = true ∧
    (run_ops true wide_pool wide_ops).is_returned = true ∧
    (run_ops true wide_pool wide_ops).final.num_regions = 3 ∧
    (run_ops true wide_pool wide_ops).final.vm_regions 1
      = { base_address := 0xE0001000, length := 0xBFFFF000 } ∧
    (run_ops true wide_pool wide_ops).final.vm_regions 2
      = { base_address := 0xA0000000, length := 0x60000000 } ∧
    ¬ regions_disjoint (run_ops true wide_pool wide_ops).final := by
  refine ⟨by decide, by decide, by decide, by decide, by decide, ?_, by decide, by decide,
    by decide, by decide, by decide, by decide, by decide, by decide, ?_⟩
  · intro h
    exact (h 1 2 (by decide) (by decide) (by decide) (by decide) (by decide)).1 (by decide)
  · intro h
    exact (h 1 2 (by decide) (by decide) (by decide) (by decide) (by decide)).2 0xE0001000
      (by decide)

/-! ## C20: protection faults -/

/-- C20: for every fault whose error code has bit 0 set, `handle_fault` of mp4 and
`handle_fault` of mp3 return without halting and leave the machine exactly as
it was: no frame is taken from either pool and no directory or table entry
changes. -/
theorem protection_fault_is_ignored (fuel err_code : Nat) (m : Machine)
    (h : err_code &&& 1 ≠ 0) :
    handle_fault fuel err_code m = Run.returned () m ∧
    Simple.handle_fault err_code m = Run.returned () m := by
  constructor
  · unfold handle_fault
    rw [if_neg h]
  · unfold Simple.handle_fault
    dsimp only
    rw [if_neg h]

/-- C20 witness: the error code 7 on `fault_machine`. -/
theorem protection_fault_is_ignored_witness :
    (7 &&& 1 ≠ 0) ∧
    handle_fault 4 7 fault_machine = Run.returned () fault_machine ∧
    Simple.handle_fault 7 fault_machine = Run.returned () fault_machine :=
  ⟨by decide, protection_fault_is_ignored 4 7 fault_machine (by decide)⟩

/-! ## C18: the registry -/

/-- The traversal of a list of linked pools returns that list when given more steps than pools. -/
theorem registry_from_chain (m : Machine) : ∀ (l : List Nat) (fuel : Nat) (start : Option Nat),
    chain m.pools start l → l.length < fuel → registry_from m fuel start = some l
  | [], fuel, start, h, hf => by
    cases fuel with
    | zero => simp at hf
    | succ fuel => simp only [chain] at h; subst h; rfl
  | a :: l, fuel, start, h, hf => by
    cases fuel with
    | zero => simp at hf
    | succ fuel =>
      obtain ⟨h1, h2⟩ := h
      subst h1
      simp only [registry_from]
      rw [registry_from_chain m l fuel _ h2 (by simpa using hf)]
      rfl

/-- The walk of `register_pool` stops at the last pool of the list. -/
theorem find_tail_chain (m : Machine) : ∀ (l : List Nat) (a : Nat) (fuel : Nat),
    chain m.pools (some a) (a :: l) → l.length < fuel →
    find_tail m fuel a = (a :: l).getLast?
  | [], a, fuel, h, hf => by
    cases fuel with
    | zero => simp at hf
    | succ fuel =>
      have h2 : (m.pools a).vm_pool_next = none := h.2
      simp [find_tail, h2]
  | b :: l, a, fuel, h, hf => by
    cases fuel with
    | zero => simp at hf
    | succ fuel =>
      have h2 : (m.pools a).vm_pool_next = some b := h.2.1
      have h3 : chain m.pools (some b) (b :: l) := ⟨rfl, h.2.2⟩
      simp only [find_tail, h2]
      rw [find_tail_chain m l b fuel h3 (by simpa using hf)]
      simp [List.getLast?_cons_cons]

/-- Linking a pool that is not in the list and has a null link after the last pool of a list without repetition gives the list with the pool appended. -/
theorem chain_append (pools : Nat → VMPool) (p : Nat) (hnext : (pools p).vm_pool_next = none) :
    ∀ (l : List Nat) (start : Option Nat) (t : Nat), chain pools start l → l.getLast? = some t →
      l.Nodup → p ∉ l →
      chain (Function.update pools t { pools t with vm_pool_next := some p }) start (l ++ [p])
  | [], _, _, _, ht, _, _ => by simp at ht
  | [a], start, t, h, ht, _, hp => by
    simp only [List.getLast?_singleton, Option.some.injEq] at ht
    subst ht
    have hpa : p ≠ a := by simpa using hp
    refine ⟨h.1, ?_, ?_⟩
    · simp
    · simp [Function.update_noteq hpa, hnext, chain]
  | a :: b :: l, start, t, h, ht, hnd, hp => by
    rw [List.getLast?_cons_cons] at ht
    have htmem : t ∈ b :: l := List.mem_of_getLast?_eq_some ht
    have hat : a ≠ t := by
      intro hEq
      rw [← hEq] at htmem
      exact (List.nodup_cons.mp hnd).1 htmem
    have hp' : p ∉ b :: l := fun hmem => hp (List.mem_cons_of_mem _ hmem)
    have ih := chain_append pools p hnext (b :: l) (pools a).vm_pool_next t h.2 ht
      (List.nodup_cons.mp hnd).2 hp'
    refine ⟨h.1, ?_⟩
    rw [Function.update_noteq hat]
    exact ih

/-- One registration: it returns, the registry is the old list with the pool appended, and only the object of the previous last pool has changed. -/
theorem register_pool_step (fuel : Nat) (m : Machine) (l : List Nat) (p : Nat)
    (hch : chain m.pools m.vm_pool_head l) (hnd : l.Nodup) (hp : p ∉ l)
    (hnext : (m.pools p).vm_pool_next = none) (hf : l.length ≤ fuel) :
    ∃ m2, register_pool fuel (some p) m = Run.returned () m2 ∧
      chain m2.pools m2.vm_pool_head (l ++ [p]) ∧
      ∀ q, l.getLast? ≠ some q → m2.pools q = m.pools q := by
  cases l with
  | nil =>
    have hhead : m.vm_pool_head = none := hch
    refine ⟨{ m with vm_pool_head := some p }, ?_, ?_, ?_⟩
    · simp [register_pool, hhead]
    · exact ⟨rfl, by simp [hnext, chain]⟩
    · intro q _; rfl
  | cons a l =>
    have hhead : m.vm_pool_head = some a := hch.1
    rw [hhead] at hch
    have htail := find_tail_chain m l a fuel hch (by simpa using hf)
    obtain ⟨t, ht⟩ : ∃ t, (a :: l).getLast? = some t := by
      cases hl : (a :: l).getLast? with
      | none => simp at hl
      | some t => exact ⟨t, rfl⟩
    rw [ht] at htail
    refine ⟨{ m with pools := Function.update m.pools t ({ m.pools t with vm_pool_next := some p }) },
      ?_, ?_, ?_⟩
    · simp [register_pool, hhead, htail]
    · have := chain_append m.pools p hnext (a :: l) (some a) t hch ht hnd hp
      simpa [hhead] using this
    · intro q hq
      have hqt : q ≠ t := by
        intro hEq
        rw [hEq, ht] at hq
        exact hq rfl
      simp [Function.update_noteq hqt]

/-- Successive registrations append the pools in order and change no pool object outside the registry. -/
theorem register_all_chain (fuel : Nat) : ∀ (ps : List Nat) (m : Machine) (l : List Nat),
    chain m.pools m.vm_pool_head l → (l ++ ps).Nodup →
    (∀ p ∈ ps, (m.pools p).vm_pool_next = none) → (l ++ ps).length ≤ fuel →
    ∃ m2, register_all fuel ps m = Run.returned () m2 ∧
      chain m2.pools m2.vm_pool_head (l ++ ps) ∧
      ∀ q, q ∉ l ++ ps → m2.pools q = m.pools q
  | [], m, l, hch, _, _, _ => ⟨m, rfl, by simpa using hch, fun _ _ => rfl⟩
  | p :: rest, m, l, hch, hnd, hnull, hf => by
    have hnd' : (l ++ [p] ++ rest).Nodup := by simpa using hnd
    have hl : l.Nodup := (List.nodup_append.mp hnd).1
    have hp : p ∉ l := by
      intro hmem
      exact (List.nodup_append.mp hnd).2.2 hmem (List.mem_cons_self _ _)
    obtain ⟨m1, hrun1, hch1, hsame1⟩ := register_pool_step fuel m l p hch hl hp
      (hnull p (List.mem_cons_self _ _)) (by simp at hf; omega)
    have hnull1 : ∀ r ∈ rest, (m1.pools r).vm_pool_next = none := by
      intro r hr
      have hrl : r ∉ l := by
        intro hmem
        exact (List.nodup_append.mp hnd).2.2 hmem (List.mem_cons_of_mem _ hr)
      have : l.getLast? ≠ some r := fun h => hrl (List.mem_of_getLast?_eq_some h)
      rw [hsame1 r this]
      exact hnull r (List.mem_cons_of_mem _ hr)
    obtain ⟨m2, hrun2, hch2, hsame2⟩ := register_all_chain fuel rest m1 (l ++ [p]) hch1 hnd' hnull1
      (by simpa using hf)
    refine ⟨m2, ?_, by simpa using hch2, ?_⟩
    · simp only [register_all, hrun1, Run.bind, hrun2]
    · intro q hq
      have hq1 : q ∉ l ++ [p] ++ rest := by simpa using hq
      rw [hsame2 q hq1]
      apply hsame1
      intro h
      exact hq (List.mem_append_left _ (List.mem_of_getLast?_eq_some h))

/-- C18: for every sequence of distinct pools `p1..pn`, each with a null next link,
registered in that order from an empty registry with more steps than pools:
the registrations return and the traversal from the head along `vm_pool_next`
gives exactly `[p1, ..., pn]`; and at each registration the only pool whose
link changes is the last pool registered before it. -/
theorem register_all_registry (fuel : Nat) (m : Machine) (ps : List Nat)
    (hhead : m.vm_pool_head = none) (hnd : ps.Nodup)
    (hnull : ∀ p ∈ ps, (m.pools p).vm_pool_next = none) (hfuel : ps.length < fuel) :
    (∃ m2, register_all fuel ps m = Run.returned () m2 ∧ registry fuel m2 = some ps) ∧
    ∀ (pre : List Nat) (p : Nat) (post : List Nat), ps = pre ++ p :: post →
      ∃ m1 m2, register_all fuel pre m = Run.returned () m1 ∧
        register_pool fuel (some p) m1 = Run.returned () m2 ∧
        ∀ q, (m2.pools q).vm_pool_next ≠ (m1.pools q).vm_pool_next → pre.getLast? = some q := by
  have hch0 : chain m.pools m.vm_pool_head [] := hhead
  constructor
  · obtain ⟨m2, hrun, hch, _⟩ := register_all_chain fuel ps m [] hch0 (by simpa using hnd) hnull
      (by simp; omega)
    exact ⟨m2, hrun, registry_from_chain m2 ps fuel _ (by simpa using hch) hfuel⟩
  · intro pre p post hsplit
    subst hsplit
    have hpre : pre.Nodup := (List.nodup_append.mp hnd).1
    have hlen : pre.length + (post.length + 1) < fuel := by simpa using hfuel
    obtain ⟨m1, hrun1, hch1, hsame1⟩ := register_all_chain fuel pre m [] hch0 (by simpa using hpre)
      (fun q hq => hnull q (List.mem_append_left _ hq)) (by simp; omega)
    have hp : p ∉ pre := by
      intro hmem
      exact (List.nodup_append.mp hnd).2.2 hmem (List.mem_cons_self _ _)
    have hpnull : (m1.pools p).vm_pool_next = none := by
      rw [hsame1 p (by simpa using hp)]
      exact hnull p (by simp)
    obtain ⟨m2, hrun2, _, hsame2⟩ := register_pool_step fuel m1 pre p (by simpa using hch1) hpre hp
      hpnull (by omega)
    refine ⟨m1, m2, hrun1, hrun2, ?_⟩
    intro q hq
    by_contra hne
    exact hq (by rw [hsame2 q hne])

/-- C18 witness: the pools at addresses 100, 200 and 300 registered on `unregistered_machine`. -/
theorem register_all_registry_witness :
    unregistered_machine.vm_pool_head = none ∧ ([100, 200, 300] : List Nat).Nodup ∧
    (∀ p ∈ ([100, 200, 300] : List Nat), (unregistered_machine.pools p).vm_pool_next = none) ∧
    ([100, 200, 300] : List Nat).length < 8 ∧
    ((∃ m2, register_all 8 [100, 200, 300] unregistered_machine = Run.returned () m2 ∧
        registry 8 m2 = some [100, 200, 300]) ∧
      ∀ (pre : List Nat) (p : Nat) (post : List Nat), [100, 200, 300] = pre ++ p :: post →
        ∃ m1 m2, register_all 8 pre unregistered_machine = Run.returned () m1 ∧
          register_pool 8 (some p) m1 = Run.returned () m2 ∧
          ∀ q, (m2.pools q).vm_pool_next ≠ (m1.pools q).vm_pool_next → pre.getLast? = some q) :=
  ⟨by decide, by decide, by decide, by decide,
    register_all_registry 8 unregistered_machine [100, 200, 300] (by decide) (by decide) (by decide)
      (by decide)⟩

/-! ## The recursive views -/

/-- Shifting right distributes over the bitwise and. -/
theorem shiftRight_and (a b i : Nat) : (a &&& b) >>> i = (a >>> i) &&& (b >>> i) := by
  apply Nat.eq_of_testBit_eq
  intro j
  simp

/-- Masking with `2^n - 1` is the remainder modulo `2^n`. -/
theorem and_low_bits (x n : Nat) (k : Nat) (hk : k = 2 ^ n - 1) : x &&& k = x % 2 ^ n := by
  subst hk
  exact Nat.and_pow_two_sub_one_eq_mod x n

/-- The address of entry `j` in the table view of directory index `i`. -/
theorem table_view_address (i j : Nat) (hi : i < 1024) (hj : j < 1024) :
    element (((0x3FF <<< 22) ||| (i <<< 12)) % WORD) j = 4290772992 + i * 4096 + 4 * j := by
  have h1 : (0x3FF : Nat) <<< 22 = 2 ^ 22 * 1023 := by decide
  have h2 : i <<< 12 = i * 4096 := by rw [Nat.shiftLeft_eq]
  have h3 : i * 4096 < 2 ^ 22 := by omega
  rw [h1, h2, ← Nat.mul_add_lt_is_or h3]
  simp only [element, WORD]
  omega

/-- The address of slot `i` in the directory view. -/
theorem directory_view_address (i : Nat) (hi : i < 1024) :
    element ((0xFFFFF <<< 12) % WORD) i = 4294963200 + 4 * i := by
  have h1 : (0xFFFFF : Nat) <<< 12 = 4294963200 := by decide
  rw [h1]
  simp only [element, WORD]
  omega

/-- Address translation with paging on, on the decimal split of the address, when both entries on the path are present. -/
theorem translate_split (m : Machine) (a : Nat) (hpg : m.cr0 &&& 0x80000000 ≠ 0)
    (hpde : directory m (a / 4194304) &&& 1 ≠ 0)
    (hpte : m.mem (directory m (a / 4194304) >>> 12) (a / 4096 % 1024) &&& 1 ≠ 0) :
    translate m a =
      some (m.mem (directory m (a / 4194304) >>> 12) (a / 4096 % 1024) >>> 12, a % 4096 / 4) := by
  have e1 : a >>> 22 = a / 4194304 := by rw [Nat.shiftRight_eq_div_pow]
  have e2 : (a >>> 12) &&& 0x3FF = a / 4096 % 1024 := by
    rw [and_low_bits _ 10 _ (by decide), Nat.shiftRight_eq_div_pow]
    norm_num
  have e3 : a &&& 0xFFF = a % 4096 := by
    rw [and_low_bits _ 12 _ (by decide)]
    norm_num
  unfold directory at hpde hpte
  simp only [translate, if_neg hpg, e1, e2, e3, if_neg hpde, if_neg hpte, directory]

/-- The directory and table indices computed by `handle_fault` and by `free_page`
from a 32-bit address are its top 10 bits and its next 10 bits. -/
theorem fault_indices (a : Nat) (ha : a < WORD) :
    a >>> 22 = a / 4194304 ∧ a / 4194304 < 1024 ∧
    (a &&& (0x03FF <<< 12)) >>> 12 = a / 4096 % 1024 ∧
    (a &&& 0xFFC00000) >>> 22 = a / 4194304 ∧
    (a &&& 0x003FF000) >>> 12 = a / 4096 % 1024 := by
  have e1 : a >>> 22 = a / 4194304 := by rw [Nat.shiftRight_eq_div_pow]
  have e2 : a >>> 12 = a / 4096 := by rw [Nat.shiftRight_eq_div_pow]
  have hlt : a / 4194304 < 1024 := by simp only [WORD] at ha; omega
  refine ⟨e1, hlt, ?_, ?_, ?_⟩
  · rw [shiftRight_and, e2]
    have : ((0x03FF : Nat) <<< 12) >>> 12 = 1023 := by decide
    rw [this, and_low_bits _ 10 _ (by decide)]
    norm_num
  · rw [shiftRight_and, e1]
    have : (0xFFC00000 : Nat) >>> 22 = 1023 := by decide
    rw [this, and_low_bits _ 10 _ (by decide)]
    omega
  · rw [shiftRight_and, e2]
    have : (0x003FF000 : Nat) >>> 12 = 1023 := by decide
    rw [this, and_low_bits _ 10 _ (by decide)]
    norm_num

/-- The table view: with the recursive directory slot in place, entry `j` of the
table referenced by the present directory slot `i` is read and written at
`((0x3FF << 22) | (i << 12)) + 4*j`. -/
theorem translate_table_view (m : Machine) (i j : Nat) (hi : i < 1024) (hj : j < 1024)
    (hview : recursive_view m) (hpres : directory m i &&& 1 ≠ 0) :
    translate m (element (((0x3FF <<< 22) ||| (i <<< 12)) % WORD) j) =
      some (directory m i >>> 12, j) := by
  obtain ⟨hpg, hself, hframe⟩ := hview
  rw [table_view_address i j hi hj]
  have d1 : (4290772992 + i * 4096 + 4 * j) / 4194304 = 1023 := by omega
  have d2 : (4290772992 + i * 4096 + 4 * j) / 4096 % 1024 = i := by omega
  have d3 : (4290772992 + i * 4096 + 4 * j) % 4096 / 4 = j := by omega
  have hp1 : directory m ((4290772992 + i * 4096 + 4 * j) / 4194304) &&& 1 ≠ 0 := by
    rw [d1]; exact hself
  have hp2 : m.mem (directory m ((4290772992 + i * 4096 + 4 * j) / 4194304) >>> 12)
      ((4290772992 + i * 4096 + 4 * j) / 4096 % 1024) &&& 1 ≠ 0 := by
    rw [d1, d2, hframe]; exact hpres
  rw [translate_split m _ hpg hp1 hp2, d1, d2, d3, hframe]

/-- The directory view: with the recursive directory slot in place, directory
slot `i` is read and written at `(0xFFFFF << 12) + 4*i`. -/
theorem translate_directory_view (m : Machine) (i : Nat) (hi : i < 1024)
    (hview : recursive_view m) :
    translate m (element ((0xFFFFF <<< 12) % WORD) i) = some (m.cr3 / PAGE_SIZE, i) := by
  obtain ⟨hpg, hself, hframe⟩ := hview
  rw [directory_view_address i hi]
  have d1 : (4294963200 + 4 * i) / 4194304 = 1023 := by omega
  have d2 : (4294963200 + 4 * i) / 4096 % 1024 = 1023 := by omega
  have d3 : (4294963200 + 4 * i) % 4096 / 4 = i := by omega
  have hp1 : directory m ((4294963200 + 4 * i) / 4194304) &&& 1 ≠ 0 := by
    rw [d1]; exact hself
  have hp2 : m.mem (directory m ((4294963200 + 4 * i) / 4194304) >>> 12)
      ((4294963200 + 4 * i) / 4096 % 1024) &&& 1 ≠ 0 := by
    rw [d1, d2, hframe]; exact hself
  rw [translate_split m _ hpg hp1 hp2, d1, d2, d3, hframe]
  have : m.mem (m.cr3 / PAGE_SIZE) 1023 >>> 12 = m.cr3 / PAGE_SIZE := hframe
  rw [this]

/-- The recursive views: when paging is on and directory slot 1023 is present and references
the directory's own frame, for every directory index `i < 1024` and entry index
`j < 1024` the address `((0x3FF << 22) | (i << 12)) + 4*j`, taken modulo `2^32`,
translates to word `j` of the frame referenced by directory slot `i` when that
slot is present, and `(0xFFFFF << 12) + 4*i` translates to word `i` of the
directory's frame, that is to directory slot `i`. The indices that
`handle_fault` and `free_page` compute from a 32-bit address are below 1024. -/
theorem translate_recursive_views (m : Machine) (i j : Nat) (hi : i < 1024) (hj : j < 1024)
    (hview : recursive_view m) :
    (directory m i &&& 1 ≠ 0 →
      translate m (element (((0x3FF <<< 22) ||| (i <<< 12)) % WORD) j) =
        some (directory m i >>> 12, j)) ∧
    translate m (element ((0xFFFFF <<< 12) % WORD) i) = some (m.cr3 / PAGE_SIZE, i) ∧
    ∀ a : Nat, a < WORD →
      a >>> 22 < 1024 ∧ (a &&& (0x03FF <<< 12)) >>> 12 < 1024 ∧
      (a &&& 0xFFC00000) >>> 22 < 1024 ∧ (a &&& 0x003FF000) >>> 12 < 1024 := by
  refine ⟨fun hpres => translate_table_view m i j hi hj hview hpres,
    translate_directory_view m i hi hview, ?_⟩
  intro a ha
  obtain ⟨e1, hlt, e2, e3, e4⟩ := fault_indices a ha
  rw [e1, e2, e3, e4]
  refine ⟨hlt, ?_, hlt, ?_⟩ <;> omega

/-- The recursive views at directory index 128 and entry 5 on `fault_machine`. -/
theorem translate_recursive_views_witness :
    (128 < 1024) ∧ (5 < 1024) ∧ recursive_view fault_machine ∧
    ((directory fault_machine 128 &&& 1 ≠ 0 →
      translate fault_machine (element (((0x3FF <<< 22) ||| (128 <<< 12)) % WORD) 5) =
        some (directory fault_machine 128 >>> 12, 5)) ∧
    translate fault_machine (element ((0xFFFFF <<< 12) % WORD) 128) =
      some (fault_machine.cr3 / PAGE_SIZE, 128) ∧
    ∀ a : Nat, a < WORD →
      a >>> 22 < 1024 ∧ (a &&& (0x03FF <<< 12)) >>> 12 < 1024 ∧
      (a &&& 0xFFC00000) >>> 22 < 1024 ∧ (a &&& 0x003FF000) >>> 12 < 1024) :=
  ⟨by decide, by decide, by decide,
    translate_recursive_views fault_machine 128 5 (by decide) (by decide) (by decide)⟩

/-- A present entry `frame * 4096 | 0b11` for a frame number below `2^20`. -/
theorem entry_bits (frame : Nat) (hf : frame < 1048576) :
    (frame * PAGE_SIZE) % WORD ||| 0b11 = frame * 4096 + 3 ∧
    (frame * 4096 + 3) &&& 1 ≠ 0 ∧ (frame * 4096 + 3) >>> 12 = frame := by
  have h0 : (frame * PAGE_SIZE) % WORD = 2 ^ 12 * frame := by
    simp only [PAGE_SIZE, WORD]; omega
  have h3 : (3 : Nat) < 2 ^ 12 := by decide
  refine ⟨?_, ?_, ?_⟩
  · rw [h0, ← Nat.mul_add_lt_is_or h3]; omega
  · rw [Nat.and_one_is_mod]; omega
  · rw [Nat.shiftRight_eq_div_pow]; omega

/-! ## C13: a fault with the directory slot present -/

/-- Taking a frame from the process pool does not change address translation. -/
theorem translate_process_pool (m : Machine) (pool : ContFramePool) :
    translate { m with process_mem_pool := pool } = translate m := rfl

/-- A machine that differs from `m` by the table entry of the address `a`, now
`D * 4096 + 3`, where the directory slot of `a` was present and its table entry
was not: the directory slot is as before, the table entry is present and `a`
translates to frame `D`. -/
theorem bound_page (m m2 : Machine) (a D : Nat) (hD : D < 1048576)
    (hcr0 : m2.cr0 = m.cr0) (hcr3 : m2.cr3 = m.cr3)
    (hmem : m2.mem = Function.update m.mem (directory m (a / 4194304) >>> 12)
      (Function.update (m.mem (directory m (a / 4194304) >>> 12)) (a / 4096 % 1024)
        (D * 4096 + 3)))
    (hpg : m.cr0 &&& 0x80000000 ≠ 0)
    (hpde : directory m (a / 4194304) &&& 1 ≠ 0)
    (hpte : m.mem (directory m (a / 4194304) >>> 12) (a / 4096 % 1024) &&& 1 = 0) :
    directory m2 (a / 4194304) = directory m (a / 4194304) ∧
    m2.mem (directory m2 (a / 4194304) >>> 12) (a / 4096 % 1024) = D * 4096 + 3 ∧
    translate m2 a = some (D, a % 4096 / 4) := by
  obtain ⟨_, b2, b3⟩ := entry_bits D hD
  have hdir : directory m2 (a / 4194304) = directory m (a / 4194304) := by
    show m2.mem (m2.cr3 / PAGE_SIZE) (a / 4194304) = m.mem (m.cr3 / PAGE_SIZE) (a / 4194304)
    rw [hmem, hcr3]
    by_cases hf : m.cr3 / PAGE_SIZE = directory m (a / 4194304) >>> 12
    · have hw : a / 4194304 ≠ a / 4096 % 1024 := by
        intro h
        apply hpde
        rw [← hf, ← h] at hpte
        exact hpte
      rw [hf]
      simp [Function.update_noteq hw]
    · simp [Function.update_noteq hf]
  have hcell : m2.mem (directory m2 (a / 4194304) >>> 12) (a / 4096 % 1024) = D * 4096 + 3 := by
    rw [hdir, hmem]
    simp
  refine ⟨hdir, hcell, ?_⟩
  have hpg2 : m2.cr0 &&& 0x80000000 ≠ 0 := by rw [hcr0]; exact hpg
  rw [translate_split m2 a hpg2 (by rw [hdir]; exact hpde) (by rw [hcell]; exact b2), hcell, b3]

/-- C13 (amended): for every not-present fault (error code bit 0 clear) at a
32-bit address `a` whose registry scan ends, taken with the recursive view in
place, the directory readable through the pointer in CR3, directory slot
`dir(a)` present and the table entry of `a` not present, with `D < 2^20` the
next frame of the process pool: `handle_fault` returns; exactly the frame `D`
has left the process pool and the kernel pool is untouched; entry `tbl(a)` of
the table referenced by directory slot `dir(a)` is `D*4096 | 0b11`; every other
word of memory is unchanged, so every other table entry is, and directory slot
`i` is unchanged unless the frame referenced by slot `dir(a)` is the
directory's own frame and `i = tbl(a)`, the case in which the entry written is
that directory slot; afterwards the directory slot and the table slot of `a`
are present and `a` translates to frame `D`. -/
theorem handle_fault_table_miss (fuel err_code : Nat) (m : Machine) (D : Nat) (rest : List Nat)
    (herr : err_code &&& 1 = 0) (ha : m.cr2 < WORD)
    (hscan : scan_pools m m.cr2 fuel m.vm_pool_head ≠ none)
    (hview : recursive_view m)
    (hread : translate m (element m.cr3 (m.cr2 >>> 22)) = some (m.cr3 / PAGE_SIZE, m.cr2 >>> 22))
    (hpde : directory m (m.cr2 >>> 22) &&& 1 ≠ 0)
    (hpte : m.mem (directory m (m.cr2 >>> 22) >>> 12) (m.cr2 / 4096 % 1024) &&& 1 = 0)
    (hpool : m.process_mem_pool.free_frames = D :: rest) (hD : D < 1048576) :
    ∃ m2, handle_fault fuel err_code m = Run.returned () m2 ∧
      m2.process_mem_pool.free_frames = rest ∧
      m2.kernel_mem_pool = m.kernel_mem_pool ∧
      m2.mem (directory m (m.cr2 >>> 22) >>> 12) (m.cr2 / 4096 % 1024) = D * 4096 ||| 0b11 ∧
      (∀ f w, ¬ (f = directory m (m.cr2 >>> 22) >>> 12 ∧ w = m.cr2 / 4096 % 1024) →
        m2.mem f w = m.mem f w) ∧
      (∀ i, ¬ (directory m (m.cr2 >>> 22) >>> 12 = m.cr3 / PAGE_SIZE ∧ i = m.cr2 / 4096 % 1024) →
        directory m2 i = directory m i) ∧
      directory m2 (m.cr2 >>> 22) &&& 1 ≠ 0 ∧
      m2.mem (directory m2 (m.cr2 >>> 22) >>> 12) (m.cr2 / 4096 % 1024) &&& 1 ≠ 0 ∧
      translate m2 m.cr2 = some (D, m.cr2 % 4096 / 4) := by
  obtain ⟨e1, hlt, e2, _, _⟩ := fault_indices m.cr2 ha
  obtain ⟨b1, b2, b3⟩ := entry_bits D hD
  have hor : D * 4096 ||| 0b11 = D * 4096 + 3 := by
    have : (D * PAGE_SIZE) % WORD = D * 4096 := by simp only [PAGE_SIZE, WORD]; omega
    rw [this] at b1; exact b1
  have hwrite := translate_table_view m (m.cr2 >>> 22) (m.cr2 / 4096 % 1024)
    (by rw [e1]; exact hlt) (by omega) hview hpde
  have hget : get_process_frame m =
      Run.returned D { m with process_mem_pool := { free_frames := rest } } := by
    simp [get_process_frame, ContFramePool.get_frames, hpool]
  have hpde' : ¬ m.mem (m.cr3 / PAGE_SIZE) (m.cr2 >>> 22) &&& 1 = 0 := hpde
  have hrun : ∃ m2, handle_fault fuel err_code m = Run.returned () m2 ∧
      m2.cr0 = m.cr0 ∧ m2.cr3 = m.cr3 ∧
      m2.mem = Function.update m.mem (directory m (m.cr2 >>> 22) >>> 12)
        (Function.update (m.mem (directory m (m.cr2 >>> 22) >>> 12)) (m.cr2 / 4096 % 1024)
          (D * 4096 + 3)) ∧
      m2.process_mem_pool.free_frames = rest ∧ m2.kernel_mem_pool = m.kernel_mem_pool := by
    refine ⟨{ m with
      process_mem_pool := { free_frames := rest }
      mem := Function.update m.mem (directory m (m.cr2 >>> 22) >>> 12)
        (Function.update (m.mem (directory m (m.cr2 >>> 22) >>> 12)) (m.cr2 / 4096 % 1024)
          (D * 4096 + 3)) }, ?_, rfl, rfl, rfl, rfl, rfl⟩
    unfold handle_fault
    rw [if_pos herr]
    dsimp only
    cases hs : scan_pools m m.cr2 fuel m.vm_pool_head with
    | none => exact absurd hs hscan
    | some r =>
      obtain ⟨temp, flag⟩ := r
      have hexit := scan_pools_exit m _ _ _ _ _ hs
      have hno : ¬ (temp ≠ none ∧ flag = 0) := by
        rintro ⟨h1, h2⟩
        rcases hexit with h | h
        · exact h1 h
        · omega
      simp only [if_neg hno, read_word, hread, Run.bind, if_neg hpde', hget, e2, write_word,
        translate_process_pool, hwrite, b1]
  obtain ⟨m2, hrun, hcr0, hcr3, hmem, hfree, hkernel⟩ := hrun
  rw [e1] at hpde hpte hmem
  obtain ⟨c1, c2, c3⟩ := bound_page m m2 m.cr2 D hD hcr0 hcr3 hmem hview.1 hpde hpte
  have hother : ∀ f w, ¬ (f = directory m (m.cr2 >>> 22) >>> 12 ∧ w = m.cr2 / 4096 % 1024) →
      m2.mem f w = m.mem f w := by
    intro f w hfw
    rw [e1] at hfw
    rw [hmem]
    by_cases hf : f = directory m (m.cr2 / 4194304) >>> 12
    · subst hf
      have hw : w ≠ m.cr2 / 4096 % 1024 := fun h => hfw ⟨rfl, h⟩
      simp [Function.update_noteq hw]
    · simp [Function.update_noteq hf]
  refine ⟨m2, hrun, hfree, hkernel, ?_, hother, ?_, ?_, ?_, c3⟩
  · rw [hmem, e1, hor]; simp
  · intro i hi
    show m2.mem (m2.cr3 / PAGE_SIZE) i = m.mem (m.cr3 / PAGE_SIZE) i
    rw [hcr3]
    exact hother (m.cr3 / PAGE_SIZE) i (fun h => hi ⟨h.1.symm, h.2⟩)
  · rw [e1, c1]; exact hpde
  · rw [e1, c2]; exact b2

/-! ## The constructors: memory accesses with paging off -/

/-- With paging off a write returns and changes the addressed word only. -/
theorem write_word_off (pointer index value : Nat) (m : Machine)
    (hoff : m.cr0 &&& 0x80000000 = 0) :
    write_word pointer index value m = Run.returned ()
      { m with
        mem := Function.update m.mem (element pointer index / PAGE_SIZE)
          (Function.update (m.mem (element pointer index / PAGE_SIZE))
            (element pointer index % PAGE_SIZE / 4) value) } := by
  simp only [write_word, translate, if_pos hoff]

/-- With paging off a read returns the addressed word. -/
theorem read_word_off (pointer index : Nat) (m : Machine) (hoff : m.cr0 &&& 0x80000000 = 0) :
    read_word pointer index m =
      Run.returned (m.mem (element pointer index / PAGE_SIZE)
        (element pointer index % PAGE_SIZE / 4)) m := by
  simp only [read_word, translate, if_pos hoff]

/-- The word `index` of the frame `frame`, addressed from the start of the frame. -/
theorem element_cell (frame index : Nat) (hf : frame < 1048576) (hi : index < 1024) :
    element ((frame * PAGE_SIZE) % WORD) index / PAGE_SIZE = frame ∧
    element ((frame * PAGE_SIZE) % WORD) index % PAGE_SIZE / 4 = index := by
  simp only [element, PAGE_SIZE, WORD]
  omega

/-- Setting bit 1 twice is setting it once. -/
theorem or_two_twice (x : Nat) : (x ||| 0b10) ||| 0b10 = x ||| 0b10 := by
  rw [Nat.or_assoc]
  rfl

/-- Setting bit 1 leaves bit 0 as it is. -/
theorem or_two_and_one (x : Nat) : (x ||| 0b10) &&& 1 = x &&& 1 := by
  apply Nat.eq_of_testBit_eq
  intro i
  simp only [Nat.testBit_and, Nat.testBit_or]
  cases i with
  | zero => simp
  | succ i =>
    have : Nat.testBit 1 (i + 1) = false := by
      apply Nat.testBit_lt_two_pow
      calc 1 < 2 ^ 1 := by decide
        _ ≤ 2 ^ (i + 1) := Nat.pow_le_pow_right (by decide) (by omega)
    simp [this]

/-- Setting bit 1 of an entry `x | 0b11` changes nothing. -/
theorem or_three_or_two (x : Nat) : (x ||| 0b11) ||| 0b10 = x ||| 0b11 := by
  rw [Nat.or_assoc]
  rfl

/-- The loop over the directory with paging off, any number of iterations: it
returns, keeps CR0 and every word of memory is as before or as before with bit
1 set. -/
theorem mark_directory_any (page_directory : Nat) : ∀ (count index : Nat) (m : Machine),
    m.cr0 &&& 0x80000000 = 0 →
    ∃ m2, mark_directory page_directory count index m = Run.returned () m2 ∧
      m2.cr0 = m.cr0 ∧
      ∀ f w, m2.mem f w = m.mem f w ∨ m2.mem f w = m.mem f w ||| 0b10
  | 0, _, m, _ => ⟨m, rfl, rfl, fun _ _ => Or.inl rfl⟩
  | count + 1, index, m, hoff => by
    obtain ⟨m2, hrun, hcr0, hmem⟩ := mark_directory_any page_directory count (index + 1)
      { m with
        mem := Function.update m.mem (element page_directory index / PAGE_SIZE)
          (Function.update (m.mem (element page_directory index / PAGE_SIZE))
            (element page_directory index % PAGE_SIZE / 4)
            (m.mem (element page_directory index / PAGE_SIZE)
              (element page_directory index % PAGE_SIZE / 4) ||| 0b10)) } hoff
    refine ⟨m2, ?_, hcr0, ?_⟩
    · simp only [mark_directory, read_word_off _ _ m hoff, Run.bind, write_word_off _ _ _ m hoff,
        hrun]
    · intro f w
      by_cases hf : f = element page_directory index / PAGE_SIZE
      · by_cases hw : w = element page_directory index % PAGE_SIZE / 4
        · subst hf; subst hw
          rcases hmem _ _ with h | h
          · right; rw [h]; simp
          · right; rw [h]; simp [or_two_twice]
        · rcases hmem f w with h | h
          · left; rw [h, hf]; simp [Function.update_noteq hw]
          · right; rw [h, hf]; simp [Function.update_noteq hw]
      · rcases hmem f w with h | h
        · left; rw [h]; simp [Function.update_noteq hf]
        · right; rw [h]; simp [Function.update_noteq hf]

/-- The loop over the directory with paging off, on the directory in frame
`frame` and within its 1024 slots: exactly the slots `index .. index+count-1`
get bit 1 set. -/
theorem mark_directory_slots (frame : Nat) (hf : frame < 1048576) :
    ∀ (count index : Nat) (m : Machine), m.cr0 &&& 0x80000000 = 0 → index + count ≤ 1024 →
    ∃ m2, mark_directory ((frame * PAGE_SIZE) % WORD) count index m = Run.returned () m2 ∧
      m2.cr0 = m.cr0 ∧
      ∀ f w, m2.mem f w =
        if f = frame ∧ index ≤ w ∧ w < index + count then m.mem f w ||| 0b10 else m.mem f w
  | 0, index, m, _, _ => ⟨m, rfl, rfl, fun f w => by rw [if_neg (by omega)]⟩
  | count + 1, index, m, hoff, hle => by
    obtain ⟨c1, c2⟩ := element_cell frame index hf (by omega)
    obtain ⟨m2, hrun, hcr0, hmem⟩ := mark_directory_slots frame hf count (index + 1)
      { m with
        mem := Function.update m.mem frame
          (Function.update (m.mem frame) index (m.mem frame index ||| 0b10)) } hoff (by omega)
    refine ⟨m2, ?_, hcr0, ?_⟩
    · simp only [mark_directory, read_word_off _ _ m hoff, Run.bind, write_word_off _ _ _ m hoff,
        c1, c2, hrun]
    · intro f w
      rw [hmem f w]
      dsimp only
      by_cases hfe : f = frame
      · subst hfe
        simp only [Function.update_same]
        by_cases hw : w = index
        · subst hw
          rw [if_neg (by omega), if_pos ⟨trivial, le_refl _, by omega⟩, Function.update_same]
        · rw [Function.update_noteq hw]
          by_cases hr : index + 1 ≤ w ∧ w < index + 1 + count
          · rw [if_pos ⟨trivial, hr⟩, if_pos ⟨trivial, by omega, by omega⟩]
          · rw [if_neg (fun h => hr h.2), if_neg (fun h => by omega)]
      · rw [if_neg (fun h => hfe h.1), if_neg (fun h => hfe h.1), Function.update_noteq hfe]

/-- The loop over the page table with paging off, on the table in frame `frame`:
it returns, keeps CR0, entry `w` of the table is `w * 4096 + 3` for every `w`
in `index .. index+count-1`, and every other word is unchanged. -/
theorem fill_table_entries (frame : Nat) (hf : frame < 1048576) :
    ∀ (count index : Nat) (m : Machine), m.cr0 &&& 0x80000000 = 0 → index + count ≤ 1024 →
    ∃ m2, fill_table ((frame * PAGE_SIZE) % WORD) count index (index * 4096) m
        = Run.returned () m2 ∧
      m2.cr0 = m.cr0 ∧
      ∀ f w, m2.mem f w =
        if f = frame ∧ index ≤ w ∧ w < index + count then w * 4096 + 3 else m.mem f w
  | 0, index, m, _, _ => ⟨m, rfl, rfl, fun f w => by rw [if_neg (by omega)]⟩
  | count + 1, index, m, hoff, hle => by
    obtain ⟨c1, c2⟩ := element_cell frame index hf (by omega)
    have hval : index * 4096 ||| 0b11 = index * 4096 + 3 := by
      have h3 : (3 : Nat) < 2 ^ 12 := by decide
      have h0 : index * 4096 = 2 ^ 12 * index := by omega
      rw [h0, ← Nat.mul_add_lt_is_or h3]
    have hnext : (index * 4096 + PAGE_SIZE) % WORD = (index + 1) * 4096 := by
      simp only [PAGE_SIZE, WORD]; omega
    obtain ⟨m2, hrun, hcr0, hmem⟩ := fill_table_entries frame hf count (index + 1)
      { m with
        mem := Function.update m.mem frame
          (Function.update (m.mem frame) index (index * 4096 + 3)) } hoff (by omega)
    refine ⟨m2, ?_, hcr0, ?_⟩
    · simp only [fill_table, Run.bind, write_word_off _ _ _ m hoff, c1, c2, hval, hnext, hrun]
    · intro f w
      rw [hmem f w]
      dsimp only
      by_cases hfe : f = frame
      · subst hfe
        simp only [Function.update_same]
        by_cases hw : w = index
        · subst hw
          rw [if_neg (by omega), if_pos ⟨trivial, le_refl _, by omega⟩, Function.update_same]
        · rw [Function.update_noteq hw]
          by_cases hr : index + 1 ≤ w ∧ w < index + 1 + count
          · rw [if_pos ⟨trivial, hr⟩, if_pos ⟨trivial, by omega, by omega⟩]
          · rw [if_neg (fun h => hr h.2), if_neg (fun h => by omega)]
      · rw [if_neg (fun h => hfe h.1), if_neg (fun h => hfe h.1), Function.update_noteq hfe]

/-- The value `frame * 4096 | 0b11` written into a directory or table entry. -/
theorem or_three (k : Nat) : k * 4096 ||| 0b11 = k * 4096 + 3 := by
  have h3 : (3 : Nat) < 2 ^ 12 := by decide
  have h0 : k * 4096 = 2 ^ 12 * k := by omega
  rw [h0, ← Nat.mul_add_lt_is_or h3]

/-- The entry written for a frame below `2^20`, as the source computes it. -/
theorem frame_entry (frame : Nat) (hf : frame < 1048576) :
    (frame * PAGE_SIZE) % WORD ||| 0b11 = frame * 4096 + 3 :=
  (entry_bits frame hf).1

/-- Taking the first frame of the kernel pool changes that pool only. -/
theorem get_kernel_frame_step (m : Machine) (P : Nat) (krest : List Nat)
    (hk : m.kernel_mem_pool.free_frames = P :: krest) :
    ∃ m1, get_kernel_frame m = Run.returned P m1 ∧ m1.cr0 = m.cr0 ∧ m1.mem = m.mem ∧
      m1.kernel_mem_pool.free_frames = krest ∧ m1.process_mem_pool = m.process_mem_pool := by
  refine ⟨{ m with kernel_mem_pool := { free_frames := krest } }, ?_, rfl, rfl, rfl, rfl⟩
  simp [get_kernel_frame, ContFramePool.get_frames, hk]

/-- Taking the first frame of the process pool changes that pool only. -/
theorem get_process_frame_step (m : Machine) (T : Nat) (prest : List Nat)
    (hp : m.process_mem_pool.free_frames = T :: prest) :
    ∃ m1, get_process_frame m = Run.returned T m1 ∧ m1.cr0 = m.cr0 ∧ m1.mem = m.mem ∧
      m1.process_mem_pool.free_frames = prest ∧ m1.kernel_mem_pool = m.kernel_mem_pool := by
  refine ⟨{ m with process_mem_pool := { free_frames := prest } }, ?_, rfl, rfl, rfl, rfl⟩
  simp [get_process_frame, ContFramePool.get_frames, hp]

/-- Reading a memory after the update of one word. -/
theorem update_cell (mem : Nat → Nat → Nat) (frame word value f w : Nat) :
    Function.update mem frame (Function.update (mem frame) word value) f w =
      if f = frame ∧ w = word then value else mem f w := by
  by_cases hf : f = frame
  · subst hf
    by_cases hw : w = word
    · subst hw; simp
    · simp [Function.update_noteq hw, hw]
  · simp [Function.update_noteq hf, hf]

/-- A write with paging off, when the address is word `word` of frame `frame`
and the value written is `v`: one word of memory changes and nothing else. -/
theorem write_word_step (pointer index value : Nat) (m : Machine) (frame word v : Nat)
    (hoff : m.cr0 &&& 0x80000000 = 0)
    (h1 : element pointer index / PAGE_SIZE = frame)
    (h2 : element pointer index % PAGE_SIZE / 4 = word) (h3 : value = v) :
    ∃ m1, write_word pointer index value m = Run.returned () m1 ∧ m1.cr0 = m.cr0 ∧
      (∀ f w, m1.mem f w = if f = frame ∧ w = word then v else m.mem f w) ∧
      m1.process_mem_pool = m.process_mem_pool ∧ m1.kernel_mem_pool = m.kernel_mem_pool := by
  subst h1 h2 h3
  exact ⟨_, write_word_off pointer index value m hoff, rfl, fun f w => update_cell _ _ _ _ _ _,
    rfl, rfl⟩

/-- The loop over the page table started at index 0 and address 0. -/
theorem fill_table_first (frame : Nat) (hf : frame < 1048576) (count : Nat) (m : Machine)
    (hoff : m.cr0 &&& 0x80000000 = 0) (hc : count ≤ 1024) :
    ∃ m2, fill_table ((frame * PAGE_SIZE) % WORD) count 0 0 m = Run.returned () m2 ∧
      m2.cr0 = m.cr0 ∧
      ∀ f w, m2.mem f w = if f = frame ∧ w < count then w * 4096 + 3 else m.mem f w := by
  obtain ⟨m2, h1, h2, h3⟩ := fill_table_entries frame hf count 0 m hoff (by omega)
  refine ⟨m2, h1, h2, ?_⟩
  intro f w
  rw [h3 f w]
  by_cases h : f = frame ∧ w < count
  · rw [if_pos (by omega), if_pos h]
  · rw [if_neg (by omega), if_neg h]

/-- Sequencing after an operation that returns. -/
theorem bind_returned {σ α β : Type} {r : Run σ α} {k : α → σ → Run σ β} {a : α} {s : σ}
    {r2 : Run σ β} (h1 : r = Run.returned a s) (h2 : k a s = r2) : r.bind k = r2 := by
  subst h1
  exact h2

/-- The memory after the constructor of mp4, for at least one shared frame. -/
theorem PageTable_construct_memory (m : Machine) (P T : Nat) (krest prest : List Nat)
    (hoff : m.cr0 &&& 0x80000000 = 0)
    (hk : m.kernel_mem_pool.free_frames = P :: krest)
    (hp : m.process_mem_pool.free_frames = T :: prest)
    (hP : P < 1048576) (hT : T < 1048576)
    (hn1 : 1 ≤ m.shared_size / PAGE_SIZE) (hn : m.shared_size / PAGE_SIZE ≤ 1024) :
    ∃ m2, PageTable_construct m = Run.returned { page_directory := (P * PAGE_SIZE) % WORD } m2 ∧
      m2.cr0 = m.cr0 ∧
      ∀ f w, m2.mem f w =
        if f = T ∧ w < m.shared_size / PAGE_SIZE then w * 4096 + 3
        else if f = P ∧ w = 0 then T * 4096 + 3
        else if f = P ∧ w = m.shared_size / PAGE_SIZE - 1 then P * 4096 + 3
        else if f = P ∧ 1 ≤ w ∧ w < m.shared_size / PAGE_SIZE - 1 then m.mem f w ||| 0b10
        else m.mem f w := by
  have hidx : (m.shared_size / PAGE_SIZE + WORD - 1) % WORD = m.shared_size / PAGE_SIZE - 1 := by
    simp only [WORD]; omega
  have c : element ((P * PAGE_SIZE) % WORD) ((m.shared_size / PAGE_SIZE + WORD - 1) % WORD)
        / PAGE_SIZE = P ∧
      element ((P * PAGE_SIZE) % WORD) ((m.shared_size / PAGE_SIZE + WORD - 1) % WORD)
        % PAGE_SIZE / 4 = m.shared_size / PAGE_SIZE - 1 := by
    simp only [element, PAGE_SIZE, WORD] at *; omega
  obtain ⟨d1, d2⟩ := element_cell P 0 hP (by omega)
  obtain ⟨m1, r1, a1, b1, k1, p1⟩ := get_kernel_frame_step { m with paging_enabled := 0 } P krest hk
  obtain ⟨m2, r2, a2, b2, p2, k2⟩ := write_word_step ((P * PAGE_SIZE) % WORD)
    ((m.shared_size / PAGE_SIZE + WORD - 1) % WORD) ((P * PAGE_SIZE) % WORD ||| 0b11) m1
    P (m.shared_size / PAGE_SIZE - 1) (P * 4096 + 3) (by rw [a1]; exact hoff) c.1 c.2
    (frame_entry P hP)
  obtain ⟨m3, r3, a3, b3, p3, k3⟩ := get_process_frame_step m2 T prest (by rw [p2, p1]; exact hp)
  obtain ⟨m4, r4, a4, b4, p4, k4⟩ := write_word_step ((P * PAGE_SIZE) % WORD) 0
    ((T * PAGE_SIZE) % WORD ||| 0b11) m3 P 0 (T * 4096 + 3)
    (by rw [a3, a2, a1]; exact hoff) d1 d2 (frame_entry T hT)
  have hoff4 : m4.cr0 &&& 0x80000000 = 0 := by rw [a4, a3, a2, a1]; exact hoff
  obtain ⟨m5, r5, a5, b5⟩ := mark_directory_slots P hP
    ((m.shared_size / PAGE_SIZE + WORD - 1) % WORD - 1) 1 m4 hoff4 (by omega)
  obtain ⟨m6, r6, a6, b6⟩ := fill_table_first T hT (m.shared_size / PAGE_SIZE) m5
    (by rw [a5]; exact hoff4) hn
  refine ⟨m6, ?_, by rw [a6, a5, a4, a3, a2, a1], ?_⟩
  · unfold PageTable_construct
    exact bind_returned r1 (bind_returned r2 (bind_returned r3 (bind_returned r4
      (bind_returned r5 (bind_returned r6 rfl)))))
  · intro f w
    rw [b6 f w, b5 f w, b4 f w, b3, b2 f w, b1]
    by_cases h1 : f = T ∧ w < m.shared_size / PAGE_SIZE
    · rw [if_pos h1, if_pos h1]
    · rw [if_neg h1, if_neg h1]
      by_cases h2 : f = P ∧ w = 0
      · rw [if_neg (by omega), if_pos h2, if_pos h2]
      · rw [if_neg h2, if_neg h2]
        by_cases h3 : f = P ∧ w = m.shared_size / PAGE_SIZE - 1
        · rw [if_neg (by omega), if_pos h3, if_pos h3]
        · rw [if_neg h3, if_neg h3]
          by_cases h4 : f = P ∧ 1 ≤ w ∧ w < m.shared_size / PAGE_SIZE - 1
          · rw [if_pos (by omega), if_pos h4]
          · rw [if_neg (by omega), if_neg h4]


/-- The directory slot 0 after the constructor of mp4 when no frame is shared. -/
theorem PageTable_construct_zero (m : Machine) (P T : Nat) (krest prest : List Nat)
    (hoff : m.cr0 &&& 0x80000000 = 0)
    (hk : m.kernel_mem_pool.free_frames = P :: krest)
    (hp : m.process_mem_pool.free_frames = T :: prest)
    (hP : P < 1048576) (hT : T < 1048576) (hn : m.shared_size / PAGE_SIZE = 0) :
    ∃ m2, PageTable_construct m = Run.returned { page_directory := (P * PAGE_SIZE) % WORD } m2 ∧
      m2.cr0 = m.cr0 ∧ m2.mem P 0 = T * 4096 + 3 := by
  obtain ⟨d1, d2⟩ := element_cell P 0 hP (by omega)
  obtain ⟨m1, r1, a1, b1, k1, p1⟩ := get_kernel_frame_step { m with paging_enabled := 0 } P krest hk
  obtain ⟨m2, r2, a2, b2, p2, k2⟩ := write_word_step ((P * PAGE_SIZE) % WORD)
    ((m.shared_size / PAGE_SIZE + WORD - 1) % WORD) ((P * PAGE_SIZE) % WORD ||| 0b11) m1
    _ _ _ (by rw [a1]; exact hoff) rfl rfl rfl
  obtain ⟨m3, r3, a3, b3, p3, k3⟩ := get_process_frame_step m2 T prest (by rw [p2, p1]; exact hp)
  obtain ⟨m4, r4, a4, b4, p4, k4⟩ := write_word_step ((P * PAGE_SIZE) % WORD) 0
    ((T * PAGE_SIZE) % WORD ||| 0b11) m3 P 0 (T * 4096 + 3)
    (by rw [a3, a2, a1]; exact hoff) d1 d2 (frame_entry T hT)
  have hoff4 : m4.cr0 &&& 0x80000000 = 0 := by rw [a4, a3, a2, a1]; exact hoff
  obtain ⟨m5, r5, a5, b5⟩ := mark_directory_any ((P * PAGE_SIZE) % WORD)
    ((m.shared_size / PAGE_SIZE + WORD - 1) % WORD - 1) 1 m4 hoff4
  have r6 : fill_table ((T * PAGE_SIZE) % WORD) (m.shared_size / PAGE_SIZE) 0 0 m5
      = Run.returned () m5 := by
    rw [hn]; rfl
  refine ⟨m5, ?_, by rw [a5, a4, a3, a2, a1], ?_⟩
  · unfold PageTable_construct
    exact bind_returned r1 (bind_returned r2 (bind_returned r3 (bind_returned r4
      (bind_returned r5 (bind_returned r6 rfl)))))
  · have hv : (T * 4096 + 3) ||| 0b10 = T * 4096 + 3 := by
      rw [← or_three, or_three_or_two]
    have h4 : m4.mem P 0 = T * 4096 + 3 := by
      rw [b4 P 0, if_pos ⟨rfl, rfl⟩]
    rcases b5 P 0 with h | h
    · rw [h, h4]
    · rw [h, h4, hv]

/-- The memory after the constructor of mp3. -/
theorem simple_construct_memory (m : Machine) (P T : Nat) (krest : List Nat)
    (hoff : m.cr0 &&& 0x80000000 = 0)
    (hk : m.kernel_mem_pool.free_frames = P :: T :: krest)
    (hP : P < 1048576) (hT : T < 1048576) (hn : m.shared_size / PAGE_SIZE ≤ 1024) :
    ∃ m2, Simple.PageTable_construct m =
        Run.returned { page_directory := (P * PAGE_SIZE) % WORD } m2 ∧
      m2.cr0 = m.cr0 ∧
      ∀ f w, m2.mem f w =
        if f = T ∧ w < m.shared_size / PAGE_SIZE then w * 4096 + 3
        else if f = P ∧ w = 0 then T * 4096 + 3
        else if f = P ∧ 1 ≤ w ∧ w < m.shared_size / PAGE_SIZE then m.mem f w ||| 0b10
        else m.mem f w := by
  obtain ⟨d1, d2⟩ := element_cell P 0 hP (by omega)
  obtain ⟨m1, r1, a1, b1, k1, p1⟩ :=
    get_kernel_frame_step { m with paging_enabled := 0 } P (T :: krest) hk
  obtain ⟨m2, r2, a2, b2, k2, p2⟩ := get_kernel_frame_step m1 T krest k1
  obtain ⟨m4, r4, a4, b4, p4, k4⟩ := write_word_step ((P * PAGE_SIZE) % WORD) 0
    ((T * PAGE_SIZE) % WORD ||| 0b11) m2 P 0 (T * 4096 + 3)
    (by rw [a2, a1]; exact hoff) d1 d2 (frame_entry T hT)
  have hoff4 : m4.cr0 &&& 0x80000000 = 0 := by rw [a4, a2, a1]; exact hoff
  obtain ⟨m5, r5, a5, b5⟩ := mark_directory_slots P hP (m.shared_size / PAGE_SIZE - 1) 1 m4
    hoff4 (by omega)
  obtain ⟨m6, r6, a6, b6⟩ := fill_table_first T hT (m.shared_size / PAGE_SIZE) m5
    (by rw [a5]; exact hoff4) hn
  refine ⟨m6, ?_, by rw [a6, a5, a4, a2, a1], ?_⟩
  · unfold Simple.PageTable_construct
    exact bind_returned r1 (bind_returned r2 (bind_returned r4
      (bind_returned r5 (bind_returned r6 rfl))))
  · intro f w
    rw [b6 f w, b5 f w, b4 f w, b2, b1]
    by_cases h1 : f = T ∧ w < m.shared_size / PAGE_SIZE
    · rw [if_pos h1, if_pos h1]
    · rw [if_neg h1, if_neg h1]
      by_cases h2 : f = P ∧ w = 0
      · rw [if_neg (by omega), if_pos h2, if_pos h2]
      · rw [if_neg h2, if_neg h2]
        by_cases h4 : f = P ∧ 1 ≤ w ∧ w < m.shared_size / PAGE_SIZE
        · rw [if_pos (by omega), if_pos h4]
        · rw [if_neg (by omega), if_neg h4]

/-- The low three bits of an entry `k * 4096 + 3`: present, writable, supervisor. -/
theorem entry_flags (k : Nat) : (k * 4096 + 3) &&& 0b111 = 0b011 := by
  rw [and_low_bits _ 3 _ (by decide)]
  omega

/-- Setting bit 31 of CR0 turns paging on. -/
theorem paging_bit_set (x : Nat) : (x ||| 0x80000000) &&& 0x80000000 ≠ 0 := by
  have h : (x ||| 0x80000000) &&& 0x80000000 = 0x80000000 := by
    apply Nat.eq_of_testBit_eq
    intro i
    simp only [Nat.testBit_and, Nat.testBit_or]
    cases Nat.testBit x i <;> simp
  rw [h]
  decide

/-- A directory in frame `P` whose slot 0 references a table in frame `T` that
maps the first `n` pages onto themselves: once loaded and with paging enabled,
every address below `n * 4096` translates to itself. -/
theorem identity_translate (m2 : Machine) (pt : PageTable) (P T n : Nat)
    (hpt : pt.page_directory / PAGE_SIZE = P) (hT : T < 1048576)
    (hn : n ≤ 1024) (hdir : m2.mem P 0 = T * 4096 + 3)
    (htab : ∀ i, i < n → m2.mem T i = i * 4096 + 3) (v : Nat) (hv : v < n * 4096) :
    translate (enable_paging (load pt m2)) v = some (v / 4096, v % 4096 / 4) := by
  obtain ⟨_, bT2, bT3⟩ := entry_bits T hT
  obtain ⟨_, bv2, bv3⟩ := entry_bits (v / 4096) (by omega)
  have hpg : (enable_paging (load pt m2)).cr0 &&& 0x80000000 ≠ 0 := paging_bit_set _
  have hd : directory (enable_paging (load pt m2)) (v / 4194304) = T * 4096 + 3 := by
    have h0 : v / 4194304 = 0 := by omega
    show m2.mem (pt.page_directory / PAGE_SIZE) (v / 4194304) = _
    rw [hpt, h0]
    exact hdir
  have he : (enable_paging (load pt m2)).mem T (v / 4096 % 1024) = v / 4096 * 4096 + 3 := by
    have h0 : v / 4096 % 1024 = v / 4096 := by omega
    show m2.mem T (v / 4096 % 1024) = _
    rw [h0]
    exact htab (v / 4096) (by omega)
  rw [translate_split _ v hpg (by rw [hd]; exact bT2) (by rw [hd, bT3, he]; exact bv2),
    hd, bT3, he, bv3]

/-! ## Constructors: the shared region, the self-reference, stale slots -/

/-- An address whose directory slot is not present does not translate. -/
theorem translate_absent (m : Machine) (a : Nat) (hpg : m.cr0 &&& 0x80000000 ≠ 0)
    (hpde : directory m (a >>> 22) &&& 1 = 0) : translate m a = none := by
  have h : m.mem (m.cr3 / PAGE_SIZE) (a >>> 22) &&& 1 = 0 := hpde
  simp only [translate, if_neg hpg, h, if_true]

/-- C14: for every machine with paging off whose kernel pool hands out the
frames `P` then `T3` and whose process pool hands out `T`, all frame numbers
below `2^20` and `P` different from `T` and `T3`, and every `shared_size` that
is a multiple of 4096 not exceeding 4 MiB: the constructors of mp4 (table frame
`T`) and of mp3 (table frame `T3`) return a directory at `P * 4096` whose slot 0
equals the table frame address `| 0b11` and whose table holds `i * 4096 | 0b11`
in every entry `i < shared_size / 4096`; once loaded with paging enabled, every
address `v < shared_size` translates to word `v % 4096 / 4` of frame `v / 4096`,
that is to physical address `v`, through entries whose low three bits are
`0b011` (present, writable, supervisor). -/
theorem construct_maps_shared_region (m : Machine) (P T T3 : Nat) (krest prest : List Nat)
    (hoff : m.cr0 &&& 0x80000000 = 0)
    (hk : m.kernel_mem_pool.free_frames = P :: T3 :: krest)
    (hp : m.process_mem_pool.free_frames = T :: prest)
    (hP : P < 1048576) (hT : T < 1048576) (hT3 : T3 < 1048576)
    (hPT : P ≠ T) (hPT3 : P ≠ T3)
    (hmul : m.shared_size % 4096 = 0) (hS : m.shared_size ≤ 4194304) :
    (∃ pt m2, PageTable_construct m = Run.returned pt m2 ∧
      pt.page_directory = P * 4096 ∧
      m2.mem P 0 = T * 4096 ||| 0b11 ∧
      (∀ i, i < m.shared_size / 4096 → m2.mem T i = i * 4096 ||| 0b11) ∧
      ∀ v, v < m.shared_size →
        translate (enable_paging (load pt m2)) v = some (v / 4096, v % 4096 / 4) ∧
        m2.mem P 0 &&& 0b111 = 0b011 ∧ m2.mem T (v / 4096) &&& 0b111 = 0b011) ∧
    (∃ pt m2, Simple.PageTable_construct m = Run.returned pt m2 ∧
      pt.page_directory = P * 4096 ∧
      m2.mem P 0 = T3 * 4096 ||| 0b11 ∧
      (∀ i, i < m.shared_size / 4096 → m2.mem T3 i = i * 4096 ||| 0b11) ∧
      ∀ v, v < m.shared_size →
        translate (enable_paging (load pt m2)) v = some (v / 4096, v % 4096 / 4) ∧
        m2.mem P 0 &&& 0b111 = 0b011 ∧ m2.mem T3 (v / 4096) &&& 0b111 = 0b011) := by
  have hpd : (P * PAGE_SIZE) % WORD = P * 4096 := by simp only [PAGE_SIZE, WORD]; omega
  have hpdf : ∀ pt : PageTable, pt.page_directory = P * 4096 → pt.page_directory / PAGE_SIZE = P := by
    intro pt h
    simp only [PAGE_SIZE]
    omega
  have hn : m.shared_size / 4096 ≤ 1024 := by omega
  -- what is left once slot 0 and the table entries are known
  have finish : ∀ (pt : PageTable) (m2 : Machine) (F : Nat), F < 1048576 →
      pt.page_directory = P * 4096 → m2.mem P 0 = F * 4096 + 3 →
      (∀ i, i < m.shared_size / 4096 → m2.mem F i = i * 4096 + 3) →
      m2.mem P 0 = F * 4096 ||| 0b11 ∧
      (∀ i, i < m.shared_size / 4096 → m2.mem F i = i * 4096 ||| 0b11) ∧
      ∀ v, v < m.shared_size →
        translate (enable_paging (load pt m2)) v = some (v / 4096, v % 4096 / 4) ∧
        m2.mem P 0 &&& 0b111 = 0b011 ∧ m2.mem F (v / 4096) &&& 0b111 = 0b011 := by
    intro pt m2 F hF hptd hdir htab
    refine ⟨by rw [or_three]; exact hdir, fun i hi => by rw [or_three]; exact htab i hi, ?_⟩
    intro v hv
    refine ⟨identity_translate m2 pt P F (m.shared_size / 4096) (hpdf pt hptd) hF hn hdir htab v
      (by omega), ?_, ?_⟩
    · rw [hdir]; exact entry_flags F
    · rw [htab (v / 4096) (by omega)]; exact entry_flags _
  constructor
  · by_cases h0 : m.shared_size / 4096 = 0
    · obtain ⟨m2, hrun, _, hdir⟩ := PageTable_construct_zero m P T (T3 :: krest) prest hoff hk hp
        hP hT h0
      refine ⟨_, m2, hrun, hpd, finish _ m2 T hT hpd hdir ?_⟩
      intro i hi
      omega
    · obtain ⟨m2, hrun, _, hmem⟩ := PageTable_construct_memory m P T (T3 :: krest) prest hoff hk
        hp hP hT (by simp only [PAGE_SIZE]; omega) hn
      simp only [PAGE_SIZE] at hmem
      refine ⟨_, m2, hrun, hpd, finish _ m2 T hT hpd ?_ ?_⟩
      · rw [hmem P 0, if_neg (by omega), if_pos ⟨rfl, rfl⟩]
      · intro i hi
        rw [hmem T i, if_pos ⟨rfl, hi⟩]
  · obtain ⟨m2, hrun, _, hmem⟩ := simple_construct_memory m P T3 krest hoff hk hP hT3 hn
    simp only [PAGE_SIZE] at hmem
    refine ⟨_, m2, hrun, hpd, finish _ m2 T3 hT3 hpd ?_ ?_⟩
    · rw [hmem P 0, if_neg (by omega), if_pos ⟨rfl, rfl⟩]
    · intro i hi
      rw [hmem T3 i, if_pos ⟨rfl, hi⟩]

/-- C14 witness: `boot_machine`, 4 MiB shared, directory in frame 512, table in
frame 1024 (mp4) or 513 (mp3). -/
theorem construct_maps_shared_region_witness :
    boot_machine.cr0 &&& 0x80000000 = 0 ∧
    boot_machine.kernel_mem_pool.free_frames = 512 :: 513 :: [514] ∧
    boot_machine.process_mem_pool.free_frames = 1024 :: [1025, 1026] ∧
    boot_machine.shared_size % 4096 = 0 ∧ boot_machine.shared_size ≤ 4194304 ∧
    ((∃ pt m2, PageTable_construct boot_machine = Run.returned pt m2 ∧
      pt.page_directory = 512 * 4096 ∧
      m2.mem 512 0 = 1024 * 4096 ||| 0b11 ∧
      (∀ i, i < boot_machine.shared_size / 4096 → m2.mem 1024 i = i * 4096 ||| 0b11) ∧
      ∀ v, v < boot_machine.shared_size →
        translate (enable_paging (load pt m2)) v = some (v / 4096, v % 4096 / 4) ∧
        m2.mem 512 0 &&& 0b111 = 0b011 ∧ m2.mem 1024 (v / 4096) &&& 0b111 = 0b011) ∧
    (∃ pt m2, Simple.PageTable_construct boot_machine = Run.returned pt m2 ∧
      pt.page_directory = 512 * 4096 ∧
      m2.mem 512 0 = 513 * 4096 ||| 0b11 ∧
      (∀ i, i < boot_machine.shared_size / 4096 → m2.mem 513 i = i * 4096 ||| 0b11) ∧
      ∀ v, v < boot_machine.shared_size →
        translate (enable_paging (load pt m2)) v = some (v / 4096, v % 4096 / 4) ∧
        m2.mem 512 0 &&& 0b111 = 0b011 ∧ m2.mem 513 (v / 4096) &&& 0b111 = 0b011)) :=
  ⟨by decide, by decide, by decide, by decide, by decide,
    construct_maps_shared_region boot_machine 512 1024 513 [514] [1025, 1026] (by decide)
      (by decide) (by decide) (by decide) (by decide) (by decide) (by decide) (by decide)
      (by decide) (by decide)⟩

/-- C15 (the code departs from the claim): the self-reference is written at
index `shared_size / 4096 - 1`, not at 1023. With 2 MiB shared
(`half_boot_machine`) the constructor of mp4 returns with directory slot 1023
still 0 and the directory's own address `| 0b11` in slot 511, so the directory
view `0xFFFFF000` does not translate once paging is on; slot 0 references the
table. Only with 4 MiB shared (`boot_machine`) does slot 1023 hold the
self-reference. -/
theorem self_reference_misplaced :
    half_boot_machine.shared_size = 2097152 ∧
    (∃ pt m2, PageTable_construct half_boot_machine = Run.returned pt m2 ∧
      pt.page_directory = 512 * 4096 ∧
      m2.mem 512 1023 = 0 ∧
      m2.mem 512 511 = 512 * 4096 ||| 0b11 ∧
      m2.mem 512 0 = 1024 * 4096 ||| 0b11 ∧
      translate (enable_paging (load pt m2)) (element ((0xFFFFF <<< 12) % WORD) 0) = none) ∧
    (∃ pt m2, PageTable_construct boot_machine = Run.returned pt m2 ∧
      pt.page_directory = 512 * 4096 ∧
      m2.mem 512 1023 = 512 * 4096 ||| 0b11) := by
  refine ⟨by decide, ?_, ?_⟩
  · obtain ⟨m2, hrun, _, hmem⟩ := PageTable_construct_memory half_boot_machine 512 1024
      [513, 514] [1025, 1026] (by decide) (by decide) (by decide) (by decide) (by decide)
      (by decide) (by decide)
    have h1023 : m2.mem 512 1023 = 0 := by rw [hmem 512 1023]; decide
    refine ⟨_, m2, hrun, by decide, h1023, by rw [hmem 512 511]; decide,
      by rw [hmem 512 0]; decide, ?_⟩
    apply translate_absent _ _ (paging_bit_set _)
    have e : element ((0xFFFFF <<< 12) % WORD) 0 >>> 22 = 1023 := by decide
    have hd : directory (enable_paging (load { page_directory := 512 * PAGE_SIZE % WORD } m2))
        1023 = m2.mem 512 1023 := by
      show m2.mem (512 * PAGE_SIZE % WORD / PAGE_SIZE) 1023 = m2.mem 512 1023
      exact congrArg (fun f => m2.mem f 1023) (by decide)
    rw [e, hd, h1023]
    decide
  · obtain ⟨m2, hrun, _, hmem⟩ := PageTable_construct_memory boot_machine 512 1024
      [513, 514] [1025, 1026] (by decide) (by decide) (by decide) (by decide) (by decide)
      (by decide) (by decide)
    exact ⟨_, m2, hrun, by decide, by rw [hmem 512 1023]; decide⟩

/-- C16 (the code departs from the claim): the loops of both constructors do
`page_directory[index] |= 0b10`, which keeps bit 0 of the prior content. On
`stale_boot_machine`, where slot 5 of the frame handed out for the directory
holds 1, slot 5 holds 3 after the constructor of mp4 and after the constructor
of mp3: its present bit is set. -/
theorem stale_directory_slot_stays_present :
    stale_boot_machine.mem 512 5 = 1 ∧
    stale_boot_machine.shared_size = 4194304 ∧
    (∃ pt m2, PageTable_construct stale_boot_machine = Run.returned pt m2 ∧
      pt.page_directory = 512 * 4096 ∧ m2.mem 512 5 = 3 ∧ m2.mem 512 5 &&& 1 = 1) ∧
    (∃ pt m2, Simple.PageTable_construct stale_boot_machine = Run.returned pt m2 ∧
      pt.page_directory = 512 * 4096 ∧ m2.mem 512 5 = 3 ∧ m2.mem 512 5 &&& 1 = 1) := by
  refine ⟨by decide, by decide, ?_, ?_⟩
  · obtain ⟨m2, hrun, _, hmem⟩ := PageTable_construct_memory stale_boot_machine 512 1024
      [513, 514] [1025, 1026] (by decide) (by decide) (by decide) (by decide) (by decide)
      (by decide) (by decide)
    have h5 : m2.mem 512 5 = 3 := by rw [hmem 512 5]; decide
    exact ⟨_, m2, hrun, by decide, h5, by rw [h5]; decide⟩
  · obtain ⟨m2, hrun, _, hmem⟩ := simple_construct_memory stale_boot_machine 512 513
      [514] (by decide) (by decide) (by decide) (by decide) (by decide)
    have h5 : m2.mem 512 5 = 3 := by rw [hmem 512 5]; decide
    exact ⟨_, m2, hrun, by decide, h5, by rw [h5]; decide⟩

/-! ## Release of untouched pages, directory misses, unknown addresses -/

/-- The frame released by `free_page`: the call returns and gives back to the
process pool the frame number held in bits 12 to 31 of the entry, whether or
not the entry is present. -/
theorem free_page_releases (self : PageTable) (_page_no : Nat) (m : Machine) (frame word : Nat)
    (h : translate m (element (((0x000003FF <<< 22) ||| (((_page_no &&& 0xFFC00000) >>> 22) <<< 12)) % WORD)
          ((_page_no &&& 0x003FF000) >>> 12)) = some (frame, word)) :
    (free_page self _page_no m).is_returned = true ∧
    (free_page self _page_no m).final.process_mem_pool.free_frames =
      ((m.mem frame word &&& 0xFFFFF000) / PAGE_SIZE) :: m.process_mem_pool.free_frames := by
  simp only [free_page, read_word, write_word, translate_process_pool, h, Run.bind,
    Run.is_returned, Run.final, load, ContFramePool.release_frames, and_self]

/-- C11 (the code departs from the claim): the region of two pages at
`0x20000000` of `release_machine` has its first page bound to frame 5 while its
second page was never faulted in and does not translate. For either signedness
of `num_regions`, `release` returns after calling `free_page` for both pages,
and `free_page` calls `release_frames` without testing the present bit: two
frames come back to the process pool, frame 5 and then frame 0, the number read
from the absent entry of the second page. -/
theorem release_frees_untouched_pages :
    (region_pool.vm_regions 1) = { base_address := 0x20000000, length := 8192 } ∧
    translate release_machine 0x20000000 = some (5, 0) ∧
    translate release_machine 0x20001000 = none ∧
    release_machine.process_mem_pool.free_frames = [6, 7] ∧
    ∀ u : Bool,
      release_free_list u (release_machine.pools 100) 0x20000000 = [0x20000000, 0x20001000] ∧
      (release u { page_directory := 0x1000 } 100 0x20000000 release_machine).is_returned = true ∧
      (release u { page_directory := 0x1000 } 100 0x20000000
        release_machine).final.process_mem_pool.free_frames = [0, 5, 6, 7] := by
  decide

/-- C12 (the code departs from the claim): on `high_frames_machine` the fault at
`0x40001000` is accepted by the registered pool and its directory slot 256 is
not present. The handler takes frame 1029 from the process pool and installs it
in directory slot 256, then initialises the table through
`new_page_table[index]`, the physical address `1029 * 4096` used as a virtual
one, which is not mapped: the handler stops on a nested fault at that address
with one frame taken instead of two, no entry of frame 1029 written and the
faulting address still unmapped. -/
theorem table_initialised_through_unmapped_address :
    high_frames_machine.vm_pool_head = some 100 ∧
    is_legitimate (high_frames_machine.pools 100) high_frames_machine.cr2 = true ∧
    directory high_frames_machine (high_frames_machine.cr2 >>> 22) &&& 1 = 0 ∧
    high_frames_machine.process_mem_pool.free_frames = [1029, 1030, 1031] ∧
    translate high_frames_machine (1029 * 4096) = none ∧
    (handle_fault 4 0 high_frames_machine).why = some (Halt.page_fault (1029 * 4096)) ∧
    (handle_fault 4 0 high_frames_machine).final.process_mem_pool.free_frames = [1030, 1031] ∧
    directory (handle_fault 4 0 high_frames_machine).final 256 = 1029 * 4096 ||| 0b11 ∧
    (handle_fault 4 0 high_frames_machine).final.mem 1029 0 = 0 ∧
    (handle_fault 4 0 high_frames_machine).final.mem 1029 1 = 0 ∧
    translate (handle_fault 4 0 high_frames_machine).final high_frames_machine.cr2 = none := by
  decide

/-- C13 witness: the fault at `0x20000000` on `unregistered_machine`, whose
directory slot 128 references the table in frame 3; frame 5 is bound. -/
theorem handle_fault_table_miss_witness :
    (0 &&& 1 = 0) ∧ unregistered_machine.cr2 < WORD ∧
    scan_pools unregistered_machine unregistered_machine.cr2 4 unregistered_machine.vm_pool_head
      ≠ none ∧
    recursive_view unregistered_machine ∧
    translate unregistered_machine (element unregistered_machine.cr3 (unregistered_machine.cr2 >>> 22))
      = some (unregistered_machine.cr3 / PAGE_SIZE, unregistered_machine.cr2 >>> 22) ∧
    directory unregistered_machine (unregistered_machine.cr2 >>> 22) &&& 1 ≠ 0 ∧
    unregistered_machine.mem (directory unregistered_machine (unregistered_machine.cr2 >>> 22) >>> 12)
      (unregistered_machine.cr2 / 4096 % 1024) &&& 1 = 0 ∧
    unregistered_machine.process_mem_pool.free_frames = 5 :: [6, 7] ∧ 5 < 1048576 ∧
    ∃ m2, handle_fault 4 0 unregistered_machine = Run.returned () m2 ∧
      m2.process_mem_pool.free_frames = [6, 7] ∧
      m2.kernel_mem_pool = unregistered_machine.kernel_mem_pool ∧
      m2.mem (directory unregistered_machine (unregistered_machine.cr2 >>> 22) >>> 12)
        (unregistered_machine.cr2 / 4096 % 1024) = 5 * 4096 ||| 0b11 ∧
      (∀ f w, ¬ (f = directory unregistered_machine (unregistered_machine.cr2 >>> 22) >>> 12 ∧
          w = unregistered_machine.cr2 / 4096 % 1024) →
        m2.mem f w = unregistered_machine.mem f w) ∧
      (∀ i, ¬ (directory unregistered_machine (unregistered_machine.cr2 >>> 22) >>> 12
            = unregistered_machine.cr3 / PAGE_SIZE ∧
          i = unregistered_machine.cr2 / 4096 % 1024) →
        directory m2 i = directory unregistered_machine i) ∧
      directory m2 (unregistered_machine.cr2 >>> 22) &&& 1 ≠ 0 ∧
      m2.mem (directory m2 (unregistered_machine.cr2 >>> 22) >>> 12)
        (unregistered_machine.cr2 / 4096 % 1024) &&& 1 ≠ 0 ∧
      translate m2 unregistered_machine.cr2 = some (5, unregistered_machine.cr2 % 4096 / 4) :=
  ⟨by decide, by decide, by decide, by decide, by decide, by decide, by decide, by decide,
    by decide,
    handle_fault_table_miss 4 0 unregistered_machine 5 [6, 7] (by decide) (by decide) (by decide)
      (by decide) (by decide) (by decide) (by decide) (by decide) (by decide)⟩

/-- C13 counterexample: on `view_fault_machine` the registry is empty and the
not-present fault at `0xFFC01000` has directory index 1023, whose slot is
present and references the directory itself, so the table entry written is
directory slot 1: the handler returns and directory slot 1 has changed from 0
to `5 * 4096 | 0b11`. -/
theorem fault_in_recursive_window :
    view_fault_machine.vm_pool_head = none ∧
    view_fault_machine.cr2 = 0xFFC01000 ∧
    view_fault_machine.cr2 >>> 22 = 1023 ∧
    directory view_fault_machine 1023 &&& 1 ≠ 0 ∧
    directory view_fault_machine 1023 >>> 12 = view_fault_machine.cr3 / PAGE_SIZE ∧
    translate view_fault_machine view_fault_machine.cr2 = none ∧
    directory view_fault_machine 1 = 0 ∧
    (handle_fault 4 0 view_fault_machine).is_returned = true ∧
    directory (handle_fault 4 0 view_fault_machine).final 1 = 5 * 4096 ||| 0b11 ∧
    directory (handle_fault 4 0 view_fault_machine).final 1 ≠ directory view_fault_machine 1 := by
  decide

/-- C19 (the code departs from the claim): `0x30000000` and the pool's own base
`0x20000000` are the base of no record of index 1 or more of `three_pool`, and
the search leaves `region_no = -1`. For either signedness of `num_regions`,
`release` then returns normally with `num_regions` decremented from 3 to 2, and
it frees as many pages as the length found in `vm_regions[-1]` says: two pages
on `stale_pool`, whose `available_mem` grows by that stale length when
`num_regions` is unsigned. When `num_regions` is signed the compaction loop
starts at index -1, so record 0 is overwritten by record 1 and `available_mem`
grows by 4096. -/
theorem release_of_unknown_address_returns :
    is_region_base three_pool 0x30000000 = false ∧
    is_region_base three_pool three_pool.base_address = false ∧
    (∀ u : Bool,
      release_region_no u three_pool 0x30000000 = -1 ∧
      release_region_no u three_pool three_pool.base_address = -1 ∧
      (release u { page_directory := 0x1000 } 100 0x30000000 three_pool_machine).is_returned
        = true ∧
      ((release u { page_directory := 0x1000 } 100 0x30000000
        three_pool_machine).final.pools 100).num_regions = 2 ∧
      release_free_list u stale_pool 0x30000000 = [0x30000000, 0x30001000]) ∧
    (release_update true stale_pool 0x30000000).available_mem = stale_pool.available_mem + 8192 ∧
    (release_update false three_pool 0x30000000).vm_regions 0 = three_pool.vm_regions 1 ∧
    (release_update false three_pool 0x30000000).available_mem
      = three_pool.available_mem + 4096 := by
  decide

/-! ## C21 and C23: compaction by release, page multiples in allocate -/

/-- C21: for every pool whose `num_regions` is a 32-bit value `n`, whatever its
signedness, and every `release` whose start address is the base of record `i`
with `1 <= i < n` and of no other record of index 1 or more: after the call
`num_regions` is `n - 1`, every record below `i`, record 0 among them, is
unchanged, and every slot `j` with `i <= j < n - 1` holds the former record
`j + 1`, so the later records are shifted down by one slot in their order. -/
theorem release_compacts_records (u : Bool) (p : VMPool) (a : Nat) (i : Int)
    (hn : p.num_regions < (WORD : Int)) (hi1 : 1 ≤ i) (hi2 : i < p.num_regions)
    (hbase : (p.vm_regions i).base_address = a)
    (huniq : ∀ j : Int, 1 ≤ j → j < p.num_regions → (p.vm_regions j).base_address = a → j = i) :
    (release_update u p a).num_regions = p.num_regions - 1 ∧
    (∀ j : Int, j < i → (release_update u p a).vm_regions j = p.vm_regions j) ∧
    (∀ j : Int, i ≤ j → j < p.num_regions - 1 →
      (release_update u p a).vm_regions j = p.vm_regions (j + 1)) ∧
    (release_update u p a).vm_regions 0 = p.vm_regions 0 := by
  obtain ⟨hr1, hr2, hr3, _, hvm, _, hnum⟩ := release_update_found u p a hn ⟨i, hi1, hi2, hbase⟩
  have hri : release_region_no u p a = i := huniq _ hr1 hr2 hr3
  rw [hri] at hvm
  refine ⟨hnum, ?_, ?_, ?_⟩
  · intro j hj
    rw [hvm j, if_neg (by omega)]
  · intro j hj1 hj2
    rw [hvm j, if_pos ⟨hj1, by omega⟩]
  · rw [hvm 0, if_neg (by omega)]

/-- C21 witness: the release of record 1 of `three_pool`, at `0x20001000`; record
2 moves to slot 1. -/
theorem release_compacts_records_witness :
    three_pool.num_regions < (WORD : Int) ∧ (1 : Int) ≤ 1 ∧ (1 : Int) < three_pool.num_regions ∧
    (three_pool.vm_regions 1).base_address = 0x20001000 ∧
    (release_update true three_pool 0x20001000).num_regions = three_pool.num_regions - 1 ∧
    (∀ j : Int, j < 1 →
      (release_update true three_pool 0x20001000).vm_regions j = three_pool.vm_regions j) ∧
    (∀ j : Int, 1 ≤ j → j < three_pool.num_regions - 1 →
      (release_update true three_pool 0x20001000).vm_regions j = three_pool.vm_regions (j + 1)) ∧
    (release_update true three_pool 0x20001000).vm_regions 0 = three_pool.vm_regions 0 :=
  ⟨by decide, by decide, by decide, by decide,
    release_compacts_records true three_pool 0x20001000 1 (by decide) (by decide) (by decide)
      (by decide) (by
        intro j h1 h2 hb
        have h3 : three_pool.num_regions = 3 := rfl
        rw [h3] at h2
        have hj : j = 1 ∨ j = 2 := by omega
        rcases hj with rfl | rfl
        · rfl
        · exact absurd hb (by decide))⟩

/-- C23: for every pool whose `available_mem` is a multiple of 4096 and every
request with `_size <= available_mem`: the rounded size `pages_count * 4096`
does not exceed `available_mem`, `allocate` returns, `available_mem` is a
multiple of 4096 afterwards, and on a 32-bit `available_mem` the new value is
the old one minus the rounded size, without wrap-around. -/
theorem allocate_keeps_page_multiple (p : VMPool) (s : Nat)
    (hpage : p.available_mem % PAGE_SIZE = 0) (hacc : s ≤ p.available_mem) :
    pages_count s * PAGE_SIZE ≤ p.available_mem ∧
    (allocate p s).is_returned = true ∧
    (allocate p s).final.available_mem % PAGE_SIZE = 0 ∧
    (p.available_mem < WORD →
      (allocate p s).final.available_mem + pages_count s * PAGE_SIZE = p.available_mem) := by
  have hb := pages_count_bounds s
  have hnot : ¬ s > p.available_mem := by omega
  simp only [allocate, hnot, if_false, Run.is_returned, Run.final, allocate_update, true_and]
  unfold PAGE_SIZE WORD at *
  refine ⟨by omega, by omega, ?_⟩
  intro hw
  omega

/-- C23 witness: a request of 4097 bytes on `three_pool`. -/
theorem allocate_keeps_page_multiple_witness :
    three_pool.available_mem % PAGE_SIZE = 0 ∧ 4097 ≤ three_pool.available_mem ∧
    pages_count 4097 * PAGE_SIZE ≤ three_pool.available_mem ∧
    (allocate three_pool 4097).is_returned = true ∧
    (allocate three_pool 4097).final.available_mem % PAGE_SIZE = 0 ∧
    (three_pool.available_mem < WORD →
      (allocate three_pool 4097).final.available_mem + pages_count 4097 * PAGE_SIZE
        = three_pool.available_mem) :=
  ⟨by decide, by decide, allocate_keeps_page_multiple three_pool 4097 (by decide) (by decide)⟩

/-! ## C22: records and the window -/

/-- One accepted `allocate` on a pool whose records are laid out from the start
of its window `[B, B + S]` without holes. -/
theorem allocate_update_inside (B S : Nat) (hBS : B + S < WORD) (p : VMPool) (s : Nat)
    (hb : p.base_address = B) (hs : p.size = S) (hn : 1 ≤ p.num_regions)
    (hpage : p.available_mem % PAGE_SIZE = 0)
    (hend : (p.vm_regions (p.num_regions - 1)).base_address +
      (p.vm_regions (p.num_regions - 1)).length + p.available_mem = B + S)
    (hin : records_inside_window p) (hacc : s ≤ p.available_mem) :
    (allocate_update p s).base_address = B ∧ (allocate_update p s).size = S ∧
    1 ≤ (allocate_update p s).num_regions ∧
    (allocate_update p s).available_mem % PAGE_SIZE = 0 ∧
    ((allocate_update p s).vm_regions ((allocate_update p s).num_regions - 1)).base_address +
      ((allocate_update p s).vm_regions ((allocate_update p s).num_regions - 1)).length +
      (allocate_update p s).available_mem = B + S ∧
    records_inside_window (allocate_update p s) ∧
    B ≤ ((allocate_update p s).vm_regions ((allocate_update p s).num_regions - 1)).base_address ∧
    ((allocate_update p s).vm_regions ((allocate_update p s).num_regions - 1)).base_address
      ≤ B + S := by
  have hr := pages_count_bounds s
  have hprev := hin (p.num_regions - 1) (by omega) (by omega)
  rw [hb, hs] at hprev
  have hidx : (allocate_update p s).num_regions - 1 = p.num_regions := by
    simp only [allocate_update]
    omega
  have hlast : (allocate_update p s).vm_regions p.num_regions =
      { base_address := ((p.vm_regions (p.num_regions - 1)).base_address +
          (p.vm_regions (p.num_regions - 1)).length) % WORD
        length := (pages_count s * PAGE_SIZE) % WORD } := by
    simp only [allocate_update, Function.update_same]
  have hav : (allocate_update p s).available_mem =
      (p.available_mem + WORD - (pages_count s * PAGE_SIZE) % WORD) % WORD := rfl
  have hnum : (allocate_update p s).num_regions = p.num_regions + 1 := rfl
  rw [hidx, hlast, hav]
  dsimp only
  unfold PAGE_SIZE WORD at *
  refine ⟨hb, hs, by omega, by omega, by omega, ?_, by omega, by omega⟩
  intro i hi0 hi1
  have hb2 : (allocate_update p s).base_address = p.base_address := rfl
  have hs2 : (allocate_update p s).size = p.size := rfl
  rw [hb2, hs2, hb, hs]
  by_cases hi : i = p.num_regions
  · rw [hi, hlast]
    dsimp only
    omega
  · have hold : (allocate_update p s).vm_regions i = p.vm_regions i := by
      simp only [allocate_update]
      exact Function.update_noteq hi _ _
    rw [hold]
    have := hin i hi0 (by omega)
    rw [hb, hs] at this
    exact this

/-- Sequences of accepted `allocate` calls on such a pool: all calls return, the
records stay inside the window and every address returned lies in `[B, B + S]`. -/
theorem allocate_all_inside (B S : Nat) (hBS : B + S < WORD) (sizes : List Nat) :
    ∀ p : VMPool, p.base_address = B → p.size = S → 1 ≤ p.num_regions →
      p.available_mem % PAGE_SIZE = 0 →
      (p.vm_regions (p.num_regions - 1)).base_address +
        (p.vm_regions (p.num_regions - 1)).length + p.available_mem = B + S →
      records_inside_window p → allocations_accepted p sizes = true →
      ∃ bases q, allocate_all p sizes = Run.returned bases q ∧
        q.base_address = B ∧ q.size = S ∧ records_inside_window q ∧
        q.num_regions = p.num_regions + sizes.length ∧
        ∀ a ∈ bases, B ≤ a ∧ a ≤ B + S := by
  induction sizes with
  | nil =>
    intro p hb hs _ _ _ hin _
    exact ⟨[], p, rfl, hb, hs, hin, by simp, by simp⟩
  | cons s rest ih =>
    intro p hb hs hn hpage hend hin hacc
    simp only [allocations_accepted, Bool.and_eq_true, decide_eq_true_eq] at hacc
    obtain ⟨hs1, hrest⟩ := hacc
    obtain ⟨q1, q2, q3, q4, q5, q6, q7, q8⟩ :=
      allocate_update_inside B S hBS p s hb hs hn hpage hend hin hs1
    obtain ⟨bases, q, hrun, hqb, hqs, hqin, hqn, hall⟩ :=
      ih (allocate_update p s) q1 q2 q3 q4 q5 q6 hrest
    have hnot : ¬ s > p.available_mem := by omega
    have hnum : (allocate_update p s).num_regions = p.num_regions + 1 := rfl
    refine ⟨((allocate_update p s).vm_regions ((allocate_update p s).num_regions - 1)).base_address
      :: bases, q, ?_, hqb, hqs, hqin, ?_, ?_⟩
    · simp only [allocate_all, allocate, hnot, if_false, Run.bind, hrun]
    · rw [hqn, hnum, List.length_cons]
      push_cast
      omega
    · intro a ha
      rcases List.mem_cons.mp ha with h | h
      · rw [h]; exact ⟨q7, q8⟩
      · exact hall a h

/-- One `release` of a recorded base keeps the records inside the window: the
records left are records that were there. -/
theorem release_update_inside (u : Bool) (p : VMPool) (a : Nat)
    (hn : p.num_regions < (WORD : Int)) (hin : records_inside_window p)
    (hbase : is_region_base p a = true) :
    (release_update u p a).base_address = p.base_address ∧
    (release_update u p a).size = p.size ∧
    (release_update u p a).num_regions < (WORD : Int) ∧
    records_inside_window (release_update u p a) := by
  obtain ⟨hr1, hr2, _, _, hvm, _, hnum⟩ :=
    release_update_found u p a hn ((is_region_base_iff p a).mp hbase)
  refine ⟨rfl, rfl, by omega, ?_⟩
  intro j hj0 hj1
  have hb2 : (release_update u p a).base_address = p.base_address := rfl
  have hs2 : (release_update u p a).size = p.size := rfl
  rw [hb2, hs2, hvm j]
  rw [hnum] at hj1
  split
  · exact hin (j + 1) (by omega) (by omega)
  · exact hin j hj0 (by omega)

/-- Successive `release` calls on recorded bases keep the records inside the window. -/
theorem releases_inside (u : Bool) (bases : List Nat) :
    ∀ p : VMPool, p.num_regions < (WORD : Int) → records_inside_window p →
      ops_admissible u p (bases.map PoolOp.release) = true →
      ∃ q, run_ops u p (bases.map PoolOp.release) = Run.returned () q ∧
        q.base_address = p.base_address ∧ q.size = p.size ∧ records_inside_window q := by
  induction bases with
  | nil =>
    intro p _ hin _
    exact ⟨p, rfl, rfl, rfl, hin⟩
  | cons a rest ih =>
    intro p hn hin hops
    simp only [List.map_cons, ops_admissible, Bool.and_eq_true] at hops
    obtain ⟨h1, h2, h3, h4⟩ := release_update_inside u p a hn hin hops.1
    obtain ⟨q, hrun, hqb, hqs, hqin⟩ := ih (release_update u p a) h3 h4 hops.2
    refine ⟨q, ?_, by rw [hqb, h1], by rw [hqs, h2], hqin⟩
    simp only [List.map_cons, run_ops]
    exact hrun

/-- C22 (amended): for a pool that starts with `num_regions = 1`, record 0 equal
to `{base_address, 4096}` and `available_mem = size - 4096`, whose `size` is a
multiple of 4096 and whose window ends below `2^32`: every sequence of accepted
`allocate` calls (fewer than `2^32 - 1` of them) returns, every record then lies
inside the window, `base_address <= record.base_address` and
`record.base_address + record.length <= base_address + size`, and every address
returned is accepted by `is_legitimate`; both still hold after any `release`
calls on recorded bases made after these allocations. -/
theorem allocated_records_inside_window (u : Bool) (p : VMPool) (sizes released : List Nat)
    (hn : p.num_regions = 1)
    (h0 : p.vm_regions 0 = { base_address := p.base_address, length := PAGE_SIZE })
    (hav : p.available_mem + PAGE_SIZE = p.size) (hpage : p.size % PAGE_SIZE = 0)
    (hw : p.base_address + p.size < WORD) (hlen : sizes.length + 1 < WORD)
    (hacc : allocations_accepted p sizes = true)
    (hrel : ops_admissible u (allocate_all p sizes).final (released.map PoolOp.release) = true) :
    ∃ bases q r, allocate_all p sizes = Run.returned bases q ∧
      records_inside_window q ∧ (∀ a ∈ bases, is_legitimate q a = true) ∧
      run_ops u q (released.map PoolOp.release) = Run.returned () r ∧
      records_inside_window r ∧ ∀ a ∈ bases, is_legitimate r a = true := by
  have hz : p.num_regions - 1 = 0 := by omega
  obtain ⟨bases, q, hrun, hqb, hqs, hqin, hqn, hall⟩ :=
    allocate_all_inside p.base_address p.size hw sizes p rfl rfl (by omega)
      (by unfold PAGE_SIZE at *; omega)
      (by rw [hz, h0]; dsimp only; omega)
      (by
        intro i hi0 hi1
        have : i = 0 := by omega
        rw [this, h0]
        dsimp only
        unfold PAGE_SIZE at *
        omega)
      hacc
  rw [hrun] at hrel
  have hqw : q.num_regions < (WORD : Int) := by
    rw [hqn, hn]
    have : ((sizes.length + 1 : Nat) : Int) < ((WORD : Nat) : Int) := by exact_mod_cast hlen
    push_cast at this
    omega
  obtain ⟨r, hrun2, hrb, hrs, hrin⟩ := releases_inside u released q hqw hqin hrel
  have legit : ∀ t : VMPool, t.base_address = p.base_address → t.size = p.size →
      ∀ a ∈ bases, is_legitimate t a = true := by
    intro t htb hts a ha
    obtain ⟨h1, h2⟩ := hall a ha
    have hmod : (t.base_address + t.size) % WORD = p.base_address + p.size := by
      rw [htb, hts]
      exact Nat.mod_eq_of_lt hw
    have hno : ¬ (a < t.base_address ∨ a > (t.base_address + t.size) % WORD) := by
      rw [hmod, htb]
      omega
    simp only [is_legitimate, if_neg hno]
  exact ⟨bases, q, r, hrun, hqin, legit q hqb hqs, hrun2, hrin,
    legit r (by rw [hrb, hqb]) (by rw [hrs, hqs])⟩

/-- C22 witness: requests of 4097, 0 and 1 bytes on `fresh_pool`, then the
release of the first region. -/
theorem allocated_records_inside_window_witness :
    fresh_pool.num_regions = 1 ∧
    fresh_pool.vm_regions 0 = { base_address := fresh_pool.base_address, length := PAGE_SIZE } ∧
    fresh_pool.available_mem + PAGE_SIZE = fresh_pool.size ∧
    fresh_pool.size % PAGE_SIZE = 0 ∧ fresh_pool.base_address + fresh_pool.size < WORD ∧
    ([4097, 0, 1] : List Nat).length + 1 < WORD ∧
    allocations_accepted fresh_pool [4097, 0, 1] = true ∧
    ops_admissible true (allocate_all fresh_pool [4097, 0, 1]).final
      ([0x20001000].map PoolOp.release) = true ∧
    ∃ bases q r, allocate_all fresh_pool [4097, 0, 1] = Run.returned bases q ∧
      records_inside_window q ∧ (∀ a ∈ bases, is_legitimate q a = true) ∧
      run_ops true q ([0x20001000].map PoolOp.release) = Run.returned () r ∧
      records_inside_window r ∧ ∀ a ∈ bases, is_legitimate r a = true :=
  ⟨by decide, by decide, by decide, by decide, by decide, by decide, by decide, by decide,
    allocated_records_inside_window true fresh_pool [4097, 0, 1] [0x20001000] (by decide)
      (by decide) (by decide) (by decide) (by decide) (by decide) (by decide) (by decide)⟩

/-- C22 counterexample: on `four_page_pool` the calls `hole_ops` are accepted;
the allocations made after the two releases are placed after the last record,
not in the holes, so record 3 is `{0x20005000, 4096}`, past the end
`0x20004000` of the window, and the address `0x20005000` that `allocate`
returned is rejected by `is_legitimate`. On `ragged_pool`, whose size is not a
multiple of 4096, the accepted request of 5000 bytes gets a record of 8192
bytes that ends past the window. On `upper_half_pool`, whose window ends at
`2^32`, the address returned by `allocate(4096)` is rejected by
`is_legitimate`. -/
theorem records_leave_window :
    four_page_pool.num_regions = 1 ∧
    four_page_pool.vm_regions 0 = { base_address := four_page_pool.base_address, length := 4096 } ∧
    four_page_pool.available_mem = four_page_pool.size - 4096 ∧
    (∀ u : Bool,
      ops_admissible u four_page_pool hole_ops = true ∧
      (run_ops u four_page_pool hole_ops).is_returned = true ∧
      (run_ops u four_page_pool hole_ops).final.num_regions = 4 ∧
      (run_ops u four_page_pool hole_ops).final.vm_regions 3
        = { base_address := 0x20005000, length := 4096 } ∧
      (allocate (run_ops u four_page_pool (hole_ops.take 6)).final 4096).value
        = some 0x20005000 ∧
      is_legitimate (run_ops u four_page_pool hole_ops).final 0x20005000 = false ∧
      ¬ records_inside_window (run_ops u four_page_pool hole_ops).final) ∧
    ragged_pool.num_regions = 1 ∧
    ragged_pool.vm_regions 0 = { base_address := ragged_pool.base_address, length := 4096 } ∧
    ragged_pool.available_mem = ragged_pool.size - 4096 ∧
    5000 ≤ ragged_pool.available_mem ∧
    (allocate ragged_pool 5000).is_returned = true ∧
    ¬ records_inside_window (allocate ragged_pool 5000).final ∧
    upper_half_pool.num_regions = 1 ∧
    upper_half_pool.vm_regions 0
      = { base_address := upper_half_pool.base_address, length := 4096 } ∧
    upper_half_pool.available_mem = upper_half_pool.size - 4096 ∧
    (allocate upper_half_pool 4096).value = some 0x80001000 ∧
    is_legitimate (allocate upper_half_pool 4096).final 0x80001000 = false := by
  refine ⟨by decide, by decide, by decide, ?_, by decide, by decide, by decide, by decide,
    by decide, ?_, by decide, by decide, by decide, by decide, by decide⟩
  · intro u
    refine ⟨by revert u; decide, by revert u; decide, by revert u; decide, by revert u; decide,
      by revert u; decide, by revert u; decide, ?_⟩
    cases u
    · intro h
      have h3 := (h 3 (by decide) (by decide)).2
      revert h3
      decide
    · intro h
      have h3 := (h 3 (by decide) (by decide)).2
      revert h3
      decide
  · intro h
    have h1 := (h 1 (by decide) (by decide)).2
    revert h1
    decide

/-! ## C24: terminate of the schedulers -/

/-- The loop of `terminate` on a queue none of whose remaining entries has the
id of `_thread`: after `done.length` iterations the queue is `rest ++ done`; the
loop puts every entry of `rest` back at the tail and exits with `done ++ rest`. -/
theorem terminate_loop_absent (_thread : Thread) (ie : Bool) :
    ∀ (rest done : Queue) (trips : Nat),
      (∀ x ∈ rest, x.ThreadId ≠ _thread.ThreadId) → rest.length ≤ trips →
      Scheduler.terminate_loop _thread trips (done.length : Int)
          { ready_queue := rest ++ done
            qsize := ((rest.length + done.length : Nat) : Int)
            interrupts_enabled := ie } =
        some { ready_queue := done ++ rest
               qsize := ((rest.length + done.length : Nat) : Int)
               interrupts_enabled := ie } := by
  intro rest
  induction rest with
  | nil =>
    intro done trips _ _
    have hno : ¬ ((done.length : Int) < (((([] : Queue).length + done.length : Nat)) : Int)) := by
      simp
    cases trips with
    | zero => simp only [Scheduler.terminate_loop, if_neg hno, List.nil_append, List.append_nil]
    | succ n => simp only [Scheduler.terminate_loop, if_neg hno, List.nil_append, List.append_nil]
  | cons x rest ih =>
    intro done trips hall hlen
    cases trips with
    | zero => simp at hlen
    | succ n =>
      have hlt : (done.length : Int) < ((((x :: rest).length + done.length : Nat)) : Int) := by
        simp only [List.length_cons]
        push_cast
        omega
      have hx : x.ThreadId ≠ _thread.ThreadId := hall x (List.mem_cons_self _ _)
      have hstep := ih (done ++ [x]) n (fun y hy => hall y (List.mem_cons_of_mem _ hy))
        (by simp only [List.length_cons] at hlen; omega)
      have e1 : ((done ++ [x]).length : Int) = (done.length : Int) + 1 := by simp
      have e2 : (rest.length + (done ++ [x]).length : Nat) = (x :: rest).length + done.length := by
        simp only [List.length_append, List.length_cons, List.length_nil]
        omega
      rw [e1, e2] at hstep
      simp only [Scheduler.terminate_loop, if_pos hlt, List.cons_append, Queue.dequeue,
        if_pos hx, Queue.enqueue]
      simp only [List.append_assoc, List.cons_append, List.nil_append] at hstep ⊢
      exact hstep

/-- When no entry of the ready queue has the id of `_thread` and `qsize` is the
length of the queue, `terminate` returns and leaves the queue as it was. -/
theorem terminate_absent (s : Scheduler) (_thread : Thread)
    (hq : s.qsize = (s.ready_queue.length : Int))
    (hall : ∀ x ∈ s.ready_queue, x.ThreadId ≠ _thread.ThreadId) :
    ∃ r, Scheduler.terminate s _thread = some r ∧ r.ready_queue = s.ready_queue ∧
      r.qsize = s.qsize ∧ r.interrupts_enabled = true := by
  have h := terminate_loop_absent _thread false s.ready_queue [] s.ready_queue.length hall
    (le_refl _)
  simp only [List.length_nil, List.append_nil, List.nil_append, Nat.add_zero, Nat.cast_zero]
    at h
  obtain ⟨q, n, ie⟩ := s
  simp only at hq hall h
  subst hq
  cases ie <;>
    simp [Scheduler.terminate, h]

/-- Whenever the loop of `terminate` returns on a state where `qsize` is the
length of the queue, `qsize` is again the length of the queue, every entry left
was in the queue, and every entry with another id than that of `_thread` is
still in the queue. -/
theorem terminate_loop_length (_thread : Thread) :
    ∀ (trips : Nat) (index : Int) (s r : Scheduler),
      s.qsize = (s.ready_queue.length : Int) →
      Scheduler.terminate_loop _thread trips index s = some r →
      r.qsize = (r.ready_queue.length : Int) ∧
      (∀ x ∈ r.ready_queue, x ∈ s.ready_queue) ∧
      ∀ x ∈ s.ready_queue, x.ThreadId ≠ _thread.ThreadId → x ∈ r.ready_queue := by
  intro trips
  induction trips with
  | zero =>
    intro index s r hq h
    simp only [Scheduler.terminate_loop] at h
    split at h
    · exact absurd h (by simp)
    · have : s = r := by simpa using h
      subst this
      exact ⟨hq, fun x hx => hx, fun x hx _ => hx⟩
  | succ n ih =>
    intro index s r hq h
    simp only [Scheduler.terminate_loop] at h
    split at h
    · obtain ⟨q, k, ie⟩ := s
      cases q with
      | nil => simp [Queue.dequeue] at h
      | cons top rest =>
        simp only [Queue.dequeue] at h
        simp only [List.length_cons] at hq
        split at h
        · obtain ⟨h1, h2, h3⟩ := ih _ _ r (by simp [Queue.enqueue]; omega) h
          refine ⟨h1, ?_, ?_⟩
          · intro x hx
            have := h2 x hx
            simp only [Queue.enqueue, List.mem_append, List.mem_singleton] at this
            simp only [List.mem_cons]
            tauto
          · intro x hx hne
            apply h3 x _ hne
            simp only [List.mem_cons] at hx
            simp only [Queue.enqueue, List.mem_append, List.mem_singleton]
            tauto
        · rename_i hid
          obtain ⟨h1, h2, h3⟩ := ih _ _ r (by simp; omega) h
          refine ⟨h1, ?_, ?_⟩
          · intro x hx
            exact List.mem_cons_of_mem _ (h2 x hx)
          · intro x hx hne
            apply h3 x _ hne
            simp only [List.mem_cons] at hx
            rcases hx with rfl | hx
            · exact absurd hne (by simpa using hid)
            · exact hx
    · have : s = r := by simpa using h
      subst this
      exact ⟨hq, fun x hx => hx, fun x hx _ => hx⟩

/-- The loop of `terminate` returns when `qsize` is the length of the queue and
the bound on the iterations is at least `qsize - index`. -/
theorem terminate_loop_returns (_thread : Thread) :
    ∀ (trips : Nat) (index : Int) (s : Scheduler),
      s.qsize = (s.ready_queue.length : Int) → 0 ≤ index → (s.qsize - index).toNat ≤ trips →
      ∃ r, Scheduler.terminate_loop _thread trips index s = some r := by
  intro trips
  induction trips with
  | zero =>
    intro index s _ _ ht
    have hno : ¬ index < s.qsize := by omega
    exact ⟨s, by simp only [Scheduler.terminate_loop, if_neg hno]⟩
  | succ n ih =>
    intro index s hq h0 ht
    by_cases hlt : index < s.qsize
    · obtain ⟨q, k, ie⟩ := s
      cases q with
      | nil =>
        simp only [List.length_nil] at hq
        simp only at hlt
        omega
      | cons top rest =>
        simp only [List.length_cons] at hq
        simp only at hlt ht
        by_cases hid : top.ThreadId ≠ _thread.ThreadId
        · obtain ⟨r, hr⟩ := ih (index + 1)
            { ready_queue := Queue.enqueue rest top, qsize := k, interrupts_enabled := ie }
            (by simp [Queue.enqueue]; omega) (by omega) (by simp only; omega)
          exact ⟨r, by simp only [Scheduler.terminate_loop, if_pos hlt, Queue.dequeue, if_pos hid, hr]⟩
        · obtain ⟨r, hr⟩ := ih (index + 1)
            { ready_queue := rest, qsize := k - 1, interrupts_enabled := ie }
            (by simp only; omega) (by omega) (by simp only; omega)
          exact ⟨r, by simp only [Scheduler.terminate_loop, if_pos hlt, Queue.dequeue, if_neg hid, hr]⟩
    · exact ⟨s, by simp only [Scheduler.terminate_loop, if_neg hlt]⟩

/-- The method `terminate` returns on every scheduler whose `qsize` is the length
of its queue; afterwards `qsize` is again the length of the queue, no thread
has been added and only entries with the id of `_thread` have been removed. -/
theorem terminate_returns (s : Scheduler) (_thread : Thread)
    (hq : s.qsize = (s.ready_queue.length : Int)) :
    ∃ r, Scheduler.terminate s _thread = some r ∧
      r.qsize = (r.ready_queue.length : Int) ∧ r.interrupts_enabled = true ∧
      (∀ x ∈ r.ready_queue, x ∈ s.ready_queue) ∧
      ∀ x ∈ s.ready_queue, x.ThreadId ≠ _thread.ThreadId → x ∈ r.ready_queue := by
  obtain ⟨q, k, ie⟩ := s
  simp only at hq
  have key : ∀ ie2 : Bool, ∃ r, Scheduler.terminate_loop _thread k.toNat 0
      { ready_queue := q, qsize := k, interrupts_enabled := ie2 } = some r ∧
      r.qsize = (r.ready_queue.length : Int) ∧
      (∀ x ∈ r.ready_queue, x ∈ q) ∧
      ∀ x ∈ q, x.ThreadId ≠ _thread.ThreadId → x ∈ r.ready_queue := by
    intro ie2
    obtain ⟨r, hr⟩ := terminate_loop_returns _thread k.toNat 0
      { ready_queue := q, qsize := k, interrupts_enabled := ie2 } hq (le_refl _)
      (by simp only; omega)
    exact ⟨r, hr, terminate_loop_length _thread _ _ _ r hq hr⟩
  obtain ⟨r, hr, h1, h2, h3⟩ := key false
  cases ie
  · by_cases hie : r.interrupts_enabled = true
    · exact ⟨r, by simp [Scheduler.terminate, hr, hie], h1, hie, h2, h3⟩
    · exact ⟨{ r with interrupts_enabled := true }, by simp [Scheduler.terminate, hr, hie],
        h1, rfl, h2, h3⟩
  · by_cases hie : r.interrupts_enabled = true
    · exact ⟨r, by simp [Scheduler.terminate, hr, hie], h1, hie, h2, h3⟩
    · exact ⟨{ r with interrupts_enabled := true }, by simp [Scheduler.terminate, hr, hie],
        h1, rfl, h2, h3⟩

/-- C24 (the code departs from the claim): the loop test `index < qsize` reads
`qsize` after the loop body has decremented it, so the loop stops one iteration
early for each entry removed. With the queue 1, 2, 3 and `qsize = 3`,
`terminate` of thread 2 leaves 3, 1 and not 1, 3; `terminate` of thread 1 leaves
3, 2. With the queue 1, 3, 2, 2, `terminate` of thread 2 leaves 2, 1, 3: one
entry of thread 2 is still queued. `RRScheduler::terminate` leaves 3, 1 on the
queue 1, 2, 3. In all cases `qsize` is the length of the queue left. -/
theorem terminate_rotates_ready_queue :
    three_threads.qsize = (three_threads.ready_queue.length : Int) ∧
    without_thread three_threads.ready_queue { ThreadId := 2 }
      = [{ ThreadId := 1 }, { ThreadId := 3 }] ∧
    (Scheduler.terminate three_threads { ThreadId := 2 }).map (fun s => (s.ready_queue, s.qsize))
      = some ([{ ThreadId := 3 }, { ThreadId := 1 }], 2) ∧
    (Scheduler.terminate three_threads { ThreadId := 1 }).map (fun s => (s.ready_queue, s.qsize))
      = some ([{ ThreadId := 3 }, { ThreadId := 2 }], 2) ∧
    twice_queued.qsize = (twice_queued.ready_queue.length : Int) ∧
    without_thread twice_queued.ready_queue { ThreadId := 2 }
      = [{ ThreadId := 1 }, { ThreadId := 3 }] ∧
    (Scheduler.terminate twice_queued { ThreadId := 2 }).map (fun s => (s.ready_queue, s.qsize))
      = some ([{ ThreadId := 2 }, { ThreadId := 1 }, { ThreadId := 3 }], 3) ∧
    three_rr_threads.rr_qsize = (three_rr_threads.ready_rr_queue.length : Int) ∧
    (RRScheduler.terminate three_rr_threads { ThreadId := 2 }).map
        (fun s => (s.ready_rr_queue, s.rr_qsize))
      = some ([{ ThreadId := 3 }, { ThreadId := 1 }], 2) := by
  decide

/-! ## C17: the stores of the fault handler and the recursive views -/

/-- C17 (the code departs from the claim): on `high_frames_machine`, where the
recursive view is in place, the accepted not-present fault at `0x40001000` has
its directory slot not present; `handle_fault` installs the table frame 1029
through the directory view and then stores through `new_page_table[0]`, the
address `1029 * 4096` of the frame itself, where the run stops on a fault. That
address is none of the recursive-view addresses
`((0x3FF << 22) | (i << 12)) + 4*j` and `(0xFFFFF << 12) + 4*i` with
`i, j < 1024`. -/
theorem handle_fault_stores_outside_views :
    high_frames_machine.vm_pool_head = some 100 ∧
    is_legitimate (high_frames_machine.pools 100) high_frames_machine.cr2 = true ∧
    recursive_view high_frames_machine ∧
    directory high_frames_machine (high_frames_machine.cr2 >>> 22) &&& 1 = 0 ∧
    high_frames_machine.process_mem_pool.free_frames = [1029, 1030, 1031] ∧
    (handle_fault 4 0 high_frames_machine).why
      = some (Halt.page_fault (element ((1029 * PAGE_SIZE) % WORD) 0)) ∧
    directory (handle_fault 4 0 high_frames_machine).final 256 = 1029 * 4096 ||| 0b11 ∧
    ∀ i j : Nat, i < 1024 → j < 1024 →
      element (((0x3FF <<< 22) ||| (i <<< 12)) % WORD) j ≠ element ((1029 * PAGE_SIZE) % WORD) 0 ∧
      element ((0xFFFFF <<< 12) % WORD) i ≠ element ((1029 * PAGE_SIZE) % WORD) 0 := by
  refine ⟨by decide, by decide, by decide, by decide, by decide, by decide, by decide, ?_⟩
  intro i j hi hj
  have e : element ((1029 * PAGE_SIZE) % WORD) 0 = 4214784 := by decide
  rw [table_view_address i j hi hj, directory_view_address i hi, e]
  constructor <;> omega

end VM
